import Mathlib

/-!
# Type derivation, document reader and code generator of the schema compiler

A shallow embedding of the type-derivation engine (`generator/types.go`): the
schema object model it reads, the `TypeProperty` / `TypeModel` / `Domain` data
model, and the derivation functions; of the document reader
(`compiler/reader.go`): `FetchFile`, `ReadFile` and `ReadInfoForRef` with their
two caches; and of the code generator (`generator/generate-compiler.go`), as the
lines of Go source that it prints; followed by theorems about them.

Conventions of the embedding

* Go pointers that may be `nil` are `Option`s; a Go map keyed by strings is a
  `GoMap` (an association list with unique keys, assignments replacing in
  place).
* The derivation functions mutate the `Domain` and the `TypeModel` they are
  given; here they take both and return the updated pair.
* A run-time panic of the Go code (slicing an empty string, dereferencing a
  `nil` pointer) is the result `none`.
* Go does not fix the order in which `range` produces the entries of a map, and
  an entry created during the iteration may be produced or skipped: the loop of
  `build` over `ObjectTypeRequests` takes the order of the keys it produces as
  an argument, and `Domain.isRangeOrder` tells which orders Go allows.
* A Go string is a sequence of bytes, and so is a string here: each character
  of a string stands for the byte of the same code, and text other than ASCII
  is written as the bytes of its UTF-8 encoding (`é` is the two characters
  `\xc3` `\xa9`). Slicing (`stub[0:1]`), splitting at `/` or `#`, comparison
  and concatenation are those of the bytes. `strings.Title` is modelled on
  ASCII text.
* Log output is not modelled.
* The package-level variables of the reader are the record `Globals`, which the
  reader functions take and return; what they call outside of the program
  (`url.Parse`, `http.Get`, `ioutil.ReadFile`, `yaml.Unmarshal`) is the record
  `World` of functions, an argument of every call, so that the theorems hold
  for every behaviour of the network, the file system and the decoder.
-/

set_option autoImplicit false

/-! ## Go maps -/

/-- A Go `map[string]β`: the entries, one per key. -/
structure GoMap (β : Type) where
  entries : List (String × β)

namespace GoMap

variable {β : Type}

/-- The assignment `m[k] = v` on an entry list. -/
def setEntries (k : String) (v : β) : List (String × β) → List (String × β)
  | [] => [(k, v)]
  | e :: rest => if e.1 = k then (k, v) :: rest else e :: setEntries k v rest

/-- The lookup `m[k]` on an entry list. -/
def getEntries (k : String) : List (String × β) → Option β
  | [] => none
  | e :: rest => if e.1 = k then some e.2 else getEntries k rest

/-- The empty map, `make(map[string]β, 0)`. -/
def empty : GoMap β := ⟨[]⟩

/-- The value `m[k]`, `none` when the key is absent. -/
def get (m : GoMap β) (k : String) : Option β := getEntries k m.entries

/-- The map after `m[k] = v`. -/
def set (m : GoMap β) (k : String) (v : β) : GoMap β := ⟨setEntries k v m.entries⟩

/-- The keys of the map. -/
def keys (m : GoMap β) : List String := m.entries.map Prod.fst

/-- The values of the map. -/
def values (m : GoMap β) : List β := m.entries.map Prod.snd

/-- Whether `k` is a key of the map. -/
def contains (m : GoMap β) (k : String) : Bool := (m.get k).isSome

end GoMap

/-! ## Strings -/

/-- Go's `strings.Split(s, sep)` for a one-character separator, on characters. -/
def splitChars (sep : Char) : List Char → List (List Char)
  | [] => [[]]
  | c :: cs =>
    if c = sep then [] :: splitChars sep cs
    else
      match splitChars sep cs with
      | [] => [[c]]
      | p :: ps => (c :: p) :: ps

/-- Go's `strings.Split(s, "/")`. -/
def splitSlash (s : String) : List String := (splitChars '/' s.data).map String.mk

/-- Go's `strings.ToUpper` on a string of one byte, as the bytes of the result:
an ASCII letter `a` to `z` is upper-cased and any other ASCII byte is kept; a
byte from 0x80 on is not valid UTF-8 by itself, and `strings.ToUpper` puts the
encoding `EF BF BD` of U+FFFD in its place. -/
def toUpperByte (b : Char) : List Char :=
  if b.toNat < 128 then [b.toUpper] else [Char.ofNat 0xEF, Char.ofNat 0xBF, Char.ofNat 0xBD]

/-- Go's `strings.ToUpper(stub[0:1]) + stub[1:len(stub)]`, which panics on the
empty string. The slice `stub[0:1]` is the first byte of the stub, not its first
character: of a character of several bytes it takes the lead byte and leaves
the others in `stub[1:]`. -/
def upperFirst (stub : String) : Option String :=
  match stub.data with
  | [] => none
  | c :: cs => some (String.mk (toUpperByte c) ++ String.mk cs)

/-- Byte-wise `<` of Go strings, on characters. -/
def lessChars : List Char → List Char → Bool
  | _, [] => false
  | [], _ :: _ => true
  | a :: as, b :: bs =>
    if a.toNat < b.toNat then true else if b.toNat < a.toNat then false else lessChars as bs

/-- Insertion of a string into a sorted list of strings. -/
def insertSorted (s : String) : List String → List String
  | [] => [s]
  | t :: ts => if lessChars t.data s.data then t :: insertSorted s ts else s :: t :: ts

/-- Go's `sort.Strings`. -/
def sortStrings : List String → List String
  | [] => []
  | s :: ss => insertSorted s (sortStrings ss)

/-- Whether a character separates words for `strings.Title` (ASCII rule of
`isSeparator`: letters, digits and the underscore do not). -/
def isSeparator (c : Char) : Bool :=
  if c.toNat < 128 then !(c.isAlphanum || c = '_') else false

/-- The scan of `strings.Title`: upper-case a letter that follows a separator. -/
def titleChars : Char → List Char → List Char
  | _, [] => []
  | prev, c :: cs => (if isSeparator prev then c.toUpper else c) :: titleChars c cs

/-- Go's `strings.Title` on ASCII text: the first letter of every word is
upper-cased. -/
def Title (s : String) : String := String.mk (titleChars ' ' s.data)

/-! ## Loops -/

/-- Runs a loop body over the elements of a list in order, threading the state;
a panic of the body ends the run. -/
def forEach {σ α : Type} (body : σ → α → Option σ) : σ → List α → Option σ
  | state, [] => some state
  | state, a :: rest =>
    match body state a with
    | none => none
    | some next => forEach body next rest

/-! ## The schema object model read by the generator -/

namespace jsonschema

/-- The `type` keyword of a schema: one name or a list of names. -/
structure StringOrStringArray where
  StringArray : Option (List String)
  String : Option String
deriving DecidableEq, Repr

/-- A named schema, an entry of `properties`, `patternProperties` or
`definitions`. -/
structure NamedSchema (α : Type) where
  Name : String
  Value : α

/-- The value of `additionalProperties`: a schema or a boolean. -/
structure SchemaOrBoolean (α : Type) where
  Schema : Option α
  Boolean : Option Bool

/-- The value of `items`: one schema or a list of schemas. -/
structure SchemaOrSchemaArray (α : Type) where
  Schema : Option α
  SchemaArray : Option (List α)

/-- Modelled from the spec: the schema node of the `jsonschema` package, which
is not part of the sources: optional type tag, ordered list of named property
schemas, required-name list, items schema (single or array), `oneOf` / `anyOf`
alternative lists, pattern-property list, additional-properties (boolean or
schema), `$ref` string, description, and the definitions section. -/
inductive Schema where
  | mk (Ref : Option String)
       (Type_ : Option StringOrStringArray)
       (Description : Option String)
       (Required : Option (List String))
       (Properties : Option (List (NamedSchema Schema)))
       (PatternProperties : Option (List (NamedSchema Schema)))
       (AdditionalProperties : Option (SchemaOrBoolean Schema))
       (Items : Option (SchemaOrSchemaArray Schema))
       (OneOf : Option (List Schema))
       (AnyOf : Option (List Schema))
       (Definitions : Option (List (NamedSchema Schema)))

namespace Schema

/-- The field `Ref`. -/
def Ref : Schema → Option String
  | mk r _ _ _ _ _ _ _ _ _ _ => r

/-- The field `Type`. -/
def Type_ : Schema → Option StringOrStringArray
  | mk _ t _ _ _ _ _ _ _ _ _ => t

/-- The field `Description`. -/
def Description : Schema → Option String
  | mk _ _ d _ _ _ _ _ _ _ _ => d

/-- The field `Required`. -/
def Required : Schema → Option (List String)
  | mk _ _ _ q _ _ _ _ _ _ _ => q

/-- The field `Properties`. -/
def Properties : Schema → Option (List (NamedSchema Schema))
  | mk _ _ _ _ p _ _ _ _ _ _ => p

/-- The field `PatternProperties`. -/
def PatternProperties : Schema → Option (List (NamedSchema Schema))
  | mk _ _ _ _ _ pp _ _ _ _ _ => pp

/-- The field `AdditionalProperties`. -/
def AdditionalProperties : Schema → Option (SchemaOrBoolean Schema)
  | mk _ _ _ _ _ _ ap _ _ _ _ => ap

/-- The field `Items`. -/
def Items : Schema → Option (SchemaOrSchemaArray Schema)
  | mk _ _ _ _ _ _ _ i _ _ _ => i

/-- The field `OneOf`. -/
def OneOf : Schema → Option (List Schema)
  | mk _ _ _ _ _ _ _ _ o _ _ => o

/-- The field `AnyOf`. -/
def AnyOf : Schema → Option (List Schema)
  | mk _ _ _ _ _ _ _ _ _ a _ => a

/-- The field `Definitions`. -/
def Definitions : Schema → Option (List (NamedSchema Schema))
  | mk _ _ _ _ _ _ _ _ _ _ d => d

/-- Modelled from the spec: `TypeIs` of the `jsonschema` package, which is not
part of the sources: the schema's type tag is `typeName`, as the single name or
as one of the listed names. -/
def TypeIs (schema : Schema) (typeName : String) : Bool :=
  match schema.Type_ with
  | none => false
  | some t =>
    match t.String with
    | some s => s == typeName
    | none =>
      match t.StringArray with
      | some names => names.contains typeName
      | none => false

/-- Modelled from the spec: `IsEmpty` of the `jsonschema` package, which is not
part of the sources: the schema carries no keyword at all (the "empty schema",
which accepts anything). -/
def IsEmpty (schema : Schema) : Bool :=
  schema.Ref.isNone && schema.Type_.isNone && schema.Description.isNone &&
  schema.Required.isNone && schema.Properties.isNone && schema.PatternProperties.isNone &&
  schema.AdditionalProperties.isNone && schema.Items.isNone && schema.OneOf.isNone &&
  schema.AnyOf.isNone && schema.Definitions.isNone

mutual
/-- Modelled from the spec: `IsEqual` of the `jsonschema` package, which is not
part of the sources: the two schemas are literally the same, keyword for
keyword. -/
def IsEqual : Schema → Schema → Bool
  | mk r1 t1 d1 q1 p1 pp1 ap1 i1 o1 a1 df1, mk r2 t2 d2 q2 p2 pp2 ap2 i2 o2 a2 df2 =>
    r1 == r2 && t1 == t2 && d1 == d2 && q1 == q2 && equalNamedLists p1 p2 &&
    equalNamedLists pp1 pp2 && equalSchemaOrBoolean ap1 ap2 && equalItems i1 i2 &&
    equalLists o1 o2 && equalLists a1 a2 && equalNamedLists df1 df2
termination_by structural x => x
/-- Equality of two schema lists, element by element. -/
def equalList : List Schema → List Schema → Bool
  | [], [] => true
  | a :: as, b :: bs => IsEqual a b && equalList as bs
  | _, _ => false
termination_by structural x => x
/-- Equality of two optional schema lists. -/
def equalLists : Option (List Schema) → Option (List Schema) → Bool
  | none, none => true
  | some a, some b => equalList a b
  | _, _ => false
termination_by structural x => x
/-- Equality of two optional schemas. -/
def equalOption : Option Schema → Option Schema → Bool
  | none, none => true
  | some a, some b => IsEqual a b
  | _, _ => false
termination_by structural x => x
/-- Equality of two named schemas. -/
def equalNamed : NamedSchema Schema → NamedSchema Schema → Bool
  | ⟨n1, v1⟩, ⟨n2, v2⟩ => n1 == n2 && IsEqual v1 v2
termination_by structural x => x
/-- Equality of two lists of named schemas. -/
def equalNamedList : List (NamedSchema Schema) → List (NamedSchema Schema) → Bool
  | [], [] => true
  | a :: as, b :: bs => equalNamed a b && equalNamedList as bs
  | _, _ => false
termination_by structural x => x
/-- Equality of two optional lists of named schemas. -/
def equalNamedLists :
    Option (List (NamedSchema Schema)) → Option (List (NamedSchema Schema)) → Bool
  | none, none => true
  | some a, some b => equalNamedList a b
  | _, _ => false
termination_by structural x => x
/-- Equality of two `additionalProperties` values. -/
def equalSchemaOrBoolean :
    Option (SchemaOrBoolean Schema) → Option (SchemaOrBoolean Schema) → Bool
  | none, none => true
  | some ⟨s1, b1⟩, some ⟨s2, b2⟩ => equalOption s1 s2 && b1 == b2
  | _, _ => false
termination_by structural x => x
/-- Equality of two `items` values. -/
def equalItems :
    Option (SchemaOrSchemaArray Schema) → Option (SchemaOrSchemaArray Schema) → Bool
  | none, none => true
  | some ⟨s1, l1⟩, some ⟨s2, l2⟩ => equalOption s1 s2 && equalLists l1 l2
  | _, _ => false
termination_by structural x => x
end

end Schema

end jsonschema

/-! ## Type modelling -/

/-- Models types that we encounter during traversal that have no named schema. -/
structure TypeRequest where
  Name : String
  PropertyName : String
  Schema : jsonschema.Schema
  OneOfWrapper : Bool

/-- The constructor `NewTypeRequest`. -/
def NewTypeRequest (name : String) (propertyName : String) (schema : jsonschema.Schema) :
    TypeRequest :=
  { Name := name, PropertyName := propertyName, Schema := schema, OneOfWrapper := false }

/-- Models type properties, eg. fields. -/
structure TypeProperty where
  Name : String
  Type_ : String
  MapType : String
  Repeated : Bool
  Pattern : String
  Implicit : Bool
  Description : String
deriving DecidableEq, Repr

/-- The constructor `NewTypeProperty`. -/
def NewTypeProperty : TypeProperty :=
  { Name := "", Type_ := "", MapType := "", Repeated := false, Pattern := "",
    Implicit := false, Description := "" }

/-- The constructor `NewTypePropertyWithNameAndType`. -/
def NewTypePropertyWithNameAndType (name : String) (typeName : String) : TypeProperty :=
  { NewTypeProperty with Name := name, Type_ := typeName }

/-- The constructor `NewTypePropertyWithNameTypeAndPattern`. -/
def NewTypePropertyWithNameTypeAndPattern (name : String) (typeName : String)
    (pattern : String) : TypeProperty :=
  { NewTypeProperty with Name := name, Type_ := typeName, Pattern := pattern }

/-- Models types. -/
structure TypeModel where
  Name : String
  Properties : List TypeProperty
  Required : List String
  OneOfWrapper : Bool
  Open : Bool
  OpenPatterns : List String
  IsStringArray : Bool
  IsItemArray : Bool
  IsBlob : Bool
  IsPair : Bool
  PairValueType : String
  Description : String
deriving DecidableEq, Repr

/-- The method `AddProperty`. -/
def TypeModel.AddProperty (typeModel : TypeModel) (property : TypeProperty) : TypeModel :=
  { typeModel with Properties := typeModel.Properties ++ [property] }

/-- The constructor `NewTypeModel`. -/
def NewTypeModel : TypeModel :=
  { Name := "", Properties := [], Required := [], OneOfWrapper := false, Open := false,
    OpenPatterns := [], IsStringArray := false, IsItemArray := false, IsBlob := false,
    IsPair := false, PairValueType := "", Description := "" }

/-- Models a collection of types that is defined by a schema. -/
structure Domain where
  TypeModels : GoMap TypeModel
  Prefix : String
  Schema : jsonschema.Schema
  PatternNames : GoMap String
  ObjectTypeRequests : GoMap TypeRequest
  MapTypeRequests : GoMap String

/-- The constructor `NewDomain`. -/
def NewDomain (schema : jsonschema.Schema) : Domain :=
  { TypeModels := GoMap.empty, Prefix := "", Schema := schema, PatternNames := GoMap.empty,
    ObjectTypeRequests := GoMap.empty, MapTypeRequests := GoMap.empty }

namespace Domain

/-- Returns a capitalized name to use for a generated type. -/
def typeNameForStub (domain : Domain) (stub : String) : Option String :=
  (upperFirst stub).map fun capitalized => domain.Prefix ++ capitalized

/-- Returns a capitalized name to use for a generated type based on a JSON
reference. -/
def typeNameForReference (domain : Domain) (reference : String) : Option String :=
  let parts := splitSlash reference
  let first := parts.headD ""
  let last := parts.getLastD ""
  if first = "#" then domain.typeNameForStub last else some "Schema"

/-- Returns a property name to use for a JSON reference (`none` is the `nil`
result). -/
def propertyNameForReference (_domain : Domain) (reference : String) : Option String :=
  let parts := splitSlash reference
  let first := parts.headD ""
  let last := parts.getLastD ""
  if first = "#" then some last else none

/-- The item type name that `arrayItemTypeForSchema` reads off the `type` value
of an items schema; `itemTypeName` is the default it starts from. -/
def itemTypeNameForTypes (itemTypeName : String)
    (types : Option jsonschema.StringOrStringArray) : String :=
  match types with
  | none => itemTypeName
  | some types =>
    match types.StringArray with
    | some [single] => single
    | some (first :: second :: more) => "&[" ++ " ".intercalate (first :: second :: more) ++ "]"
    | _ =>
      match types.String with
      | some name => name
      | none => "UNKNOWN"

/-- Determines the item type for arrays defined by a schema. -/
def arrayItemTypeForSchema (domain : Domain) (propertyName : String) (schema : jsonschema.Schema) :
    Option (Domain × String) :=
  match schema.Items with
  | none => some (domain, "Any")
  | some items =>
    match items.SchemaArray with
    | some schemaArray =>
      match schemaArray with
      | [] => some (domain, "Any")
      | first :: _ =>
        match first.Ref with
        | some ref => (domain.typeNameForReference ref).map fun name => (domain, name)
        | none => some (domain, itemTypeNameForTypes "Any" first.Type_)
    | none =>
      match items.Schema with
      | none => some (domain, "Any")
      | some itemSchema =>
        match itemSchema.Ref with
        | some ref => (domain.typeNameForReference ref).map fun name => (domain, name)
        | none =>
          match itemSchema.OneOf with
          | some _ =>
            -- this type is implied by the "oneOf"
            (domain.typeNameForStub (propertyName ++ "Item")).map fun itemTypeName =>
              ({ domain with
                  ObjectTypeRequests := domain.ObjectTypeRequests.set itemTypeName
                    (NewTypeRequest itemTypeName propertyName itemSchema) },
               itemTypeName)
          | none => some (domain, itemTypeNameForTypes "Any" itemSchema.Type_)

/-- The optional copy of the schema's description into a property. -/
def withDescription (typeProperty : TypeProperty) (schema : jsonschema.Schema) : TypeProperty :=
  match schema.Description with
  | some description => { typeProperty with Description := description }
  | none => typeProperty

/-- The body of the loop of `buildTypeProperties`: one declared property. -/
def buildTypeProperty (state : Domain × TypeModel)
    (pair : jsonschema.NamedSchema jsonschema.Schema) : Option (Domain × TypeModel) :=
  let domain := state.1
  let typeModel := state.2
  let propertyName := pair.Name
  let propertySchema := pair.Value
  match propertySchema.Ref with
  | some ref =>
    -- the property schema is a reference
    (domain.typeNameForReference ref).map fun propertyTypeName =>
      (domain, typeModel.AddProperty
        { NewTypeProperty with Name := propertyName, Type_ := propertyTypeName })
  | none =>
    if propertySchema.Type_.isSome then
      -- the property schema specifies a type
      if propertySchema.TypeIs "string" then
        some (domain, typeModel.AddProperty
          (withDescription (NewTypePropertyWithNameAndType propertyName "string") propertySchema))
      else if propertySchema.TypeIs "boolean" then
        some (domain, typeModel.AddProperty
          (withDescription (NewTypePropertyWithNameAndType propertyName "bool") propertySchema))
      else if propertySchema.TypeIs "number" then
        some (domain, typeModel.AddProperty
          (withDescription (NewTypePropertyWithNameAndType propertyName "float") propertySchema))
      else if propertySchema.TypeIs "integer" then
        some (domain, typeModel.AddProperty
          (withDescription (NewTypePropertyWithNameAndType propertyName "int") propertySchema))
      else if propertySchema.TypeIs "object" then
        -- an "anonymous" object schema: define a new type and request its creation
        (domain.typeNameForStub propertyName).map fun anonymousObjectTypeName =>
          ({ domain with
              ObjectTypeRequests := domain.ObjectTypeRequests.set anonymousObjectTypeName
                (NewTypeRequest anonymousObjectTypeName propertyName propertySchema) },
           typeModel.AddProperty
            (withDescription
              (NewTypePropertyWithNameAndType propertyName anonymousObjectTypeName)
              propertySchema))
      else if propertySchema.TypeIs "array" then
        -- an array type: a repeated property of the item type
        (domain.arrayItemTypeForSchema propertyName propertySchema).map fun result =>
          (result.1, typeModel.AddProperty
            (withDescription
              { NewTypePropertyWithNameAndType propertyName result.2 with Repeated := true }
              propertySchema))
      else
        some (domain, typeModel)
    else if propertySchema.IsEmpty then
      -- an empty schema can contain anything
      some (domain, typeModel.AddProperty (NewTypePropertyWithNameAndType propertyName "Any"))
    else if propertySchema.OneOf.isSome then
      (domain.typeNameForStub (propertyName ++ "Item")).map fun anonymousObjectTypeName =>
        ({ domain with
            ObjectTypeRequests := domain.ObjectTypeRequests.set anonymousObjectTypeName
              (NewTypeRequest anonymousObjectTypeName propertyName propertySchema) },
         typeModel.AddProperty
          (NewTypePropertyWithNameAndType propertyName anonymousObjectTypeName))
    else if propertySchema.AnyOf.isSome then
      (domain.typeNameForStub (propertyName ++ "Item")).map fun anonymousObjectTypeName =>
        ({ domain with
            ObjectTypeRequests := domain.ObjectTypeRequests.set anonymousObjectTypeName
              (NewTypeRequest anonymousObjectTypeName propertyName propertySchema) },
         typeModel.AddProperty
          (NewTypePropertyWithNameAndType propertyName anonymousObjectTypeName))
    else
      some (domain, typeModel)

/-- The function `buildTypeProperties`. -/
def buildTypeProperties (domain : Domain) (typeModel : TypeModel) (schema : jsonschema.Schema) :
    Option (Domain × TypeModel) :=
  match schema.Properties with
  | some properties => forEach buildTypeProperty (domain, typeModel) properties
  | none => some (domain, typeModel)

/-- The function `buildTypeRequirements`. -/
def buildTypeRequirements (_domain : Domain) (typeModel : TypeModel) (schema : jsonschema.Schema) :
    TypeModel :=
  match schema.Required with
  | some required => { typeModel with Required := required }
  | none => typeModel

/-- The body of the loop of `buildPatternPropertyAccessors`: one pattern
property. -/
def buildPatternPropertyAccessor (state : Domain × TypeModel)
    (pair : jsonschema.NamedSchema jsonschema.Schema) : Option (Domain × TypeModel) :=
  let domain := state.1
  let typeModel := state.2
  let propertyPattern := pair.Name
  let propertySchema := pair.Value
  let typeModel := { typeModel with OpenPatterns := typeModel.OpenPatterns ++ [propertyPattern] }
  let propertyName := (domain.PatternNames.get propertyPattern).getD ""
  let typeName : Option String :=
    match propertySchema.Ref with
    | some ref => domain.typeNameForReference ref
    | none => some "Any"
  typeName.map fun typeName =>
    let property : TypeProperty :=
      { NewTypePropertyWithNameTypeAndPattern propertyName ("Named" ++ typeName) propertyPattern
        with Implicit := true, MapType := typeName, Repeated := true }
    ({ domain with
        MapTypeRequests := domain.MapTypeRequests.set property.MapType property.MapType },
     typeModel.AddProperty property)

/-- The function `buildPatternPropertyAccessors`. -/
def buildPatternPropertyAccessors (domain : Domain) (typeModel : TypeModel)
    (schema : jsonschema.Schema) :
    Option (Domain × TypeModel) :=
  match schema.PatternProperties with
  | some patternProperties =>
    forEach buildPatternPropertyAccessor (domain, { typeModel with OpenPatterns := [] })
      patternProperties
  | none => some (domain, typeModel)

/-- The implicit map property that `buildAdditionalPropertyAccessors` adds in
each of its branches, with the map type request it records. -/
def addAdditionalProperties (domain : Domain) (typeModel : TypeModel) (typeName : String)
    (mapType : String) : Domain × TypeModel :=
  let property : TypeProperty :=
    { NewTypePropertyWithNameAndType "additionalProperties" typeName
      with Implicit := true, MapType := mapType, Repeated := true }
  ({ domain with MapTypeRequests := domain.MapTypeRequests.set property.MapType property.MapType },
   typeModel.AddProperty property)

/-- The function `buildAdditionalPropertyAccessors`. -/
def buildAdditionalPropertyAccessors (domain : Domain) (typeModel : TypeModel)
    (schema : jsonschema.Schema) : Option (Domain × TypeModel) :=
  match schema.AdditionalProperties with
  | none => some (domain, typeModel)
  | some additionalProperties =>
    match additionalProperties.Boolean with
    | some boolean =>
      if boolean = true then
        some (addAdditionalProperties domain { typeModel with Open := true } "NamedAny" "Any")
      else
        some (domain, typeModel)
    | none =>
      match additionalProperties.Schema with
      | none => some (domain, typeModel)
      | some schema =>
        let typeModel := { typeModel with Open := true }
        match schema.Ref with
        | some ref =>
          (domain.typeNameForReference ref).map fun mapType =>
            addAdditionalProperties domain typeModel ("Named" ++ mapType) mapType
        | none =>
          match schema.Type_ with
          | some type =>
            -- typeName := *schema.Type.String
            match type.String with
            | none => none
            | some typeName =>
              if typeName = "string" then
                some (addAdditionalProperties domain typeModel "NamedString" "string")
              else if typeName = "array" then
                match schema.Items with
                | none => some (domain, typeModel)
                | some items =>
                  -- itemType := *schema.Items.Schema.Type.String
                  match items.Schema with
                  | none => none
                  | some itemSchema =>
                    match itemSchema.Type_ with
                    | none => none
                    | some itemTypes =>
                      match itemTypes.String with
                      | none => none
                      | some itemType =>
                        if itemType = "string" then
                          some (addAdditionalProperties domain typeModel
                            "NamedStringArray" "StringArray")
                        else
                          some (domain, typeModel)
              else
                some (domain, typeModel)
          | none =>
            match schema.OneOf with
            | none => some (domain, typeModel)
            | some _ =>
              (domain.typeNameForStub (typeModel.Name ++ "Item")).map fun propertyTypeName =>
                let result :=
                  addAdditionalProperties domain typeModel ("Named" ++ propertyTypeName)
                    propertyTypeName
                ({ result.1 with
                    ObjectTypeRequests := result.1.ObjectTypeRequests.set propertyTypeName
                      (NewTypeRequest propertyTypeName "additionalProperties" schema) },
                 result.2)

/-- The body of the loop of `buildOneOfAccessors`: one alternative. -/
def buildOneOfAccessor (domain : Domain) (typeModel : TypeModel) (oneOf : jsonschema.Schema) :
    Option TypeModel :=
  match oneOf.Ref with
  | some ref =>
    (domain.typeNameForReference ref).map fun typeName =>
      match domain.propertyNameForReference ref with
      | some propertyName =>
        typeModel.AddProperty (NewTypePropertyWithNameAndType propertyName typeName)
      | none => typeModel
  | none =>
    if (oneOf.Type_.bind fun type => type.String) = some "boolean" then
      some (typeModel.AddProperty (NewTypePropertyWithNameAndType "boolean" "bool"))
    else
      some typeModel

/-- The function `buildOneOfAccessors`. -/
def buildOneOfAccessors (domain : Domain) (typeModel : TypeModel) (schema : jsonschema.Schema) :
    Option TypeModel :=
  match schema.OneOf with
  | none => some typeModel
  | some oneOfs =>
    forEach domain.buildOneOfAccessor { typeModel with Open := true, OneOfWrapper := true } oneOfs

end Domain

/-- The function `schemaIsContainedInArray`. -/
def schemaIsContainedInArray (s1 : jsonschema.Schema) (s2 : jsonschema.Schema) : Option Bool :=
  if s2.TypeIs "array" then
    -- s2.Items.Schema
    match s2.Items with
    | none => none
    | some items =>
      match items.Schema with
      | some itemSchema => if s1.IsEqual itemSchema then some true else some false
      | none => some false
  else
    some false

namespace Domain

/-- The function `addAnonymousAccessorForSchema`. -/
def addAnonymousAccessorForSchema (domain : Domain) (typeModel : TypeModel)
    (schema : jsonschema.Schema) (_repeated : Bool) : Option TypeModel :=
  match schema.Ref with
  | some ref =>
    (domain.typeNameForReference ref).map fun typeName =>
      match domain.propertyNameForReference ref with
      | some propertyName =>
        { typeModel.AddProperty
            { NewTypePropertyWithNameAndType propertyName typeName with Repeated := true }
          with IsItemArray := true }
      | none => typeModel
  | none =>
    some { typeModel.AddProperty
            { NewTypePropertyWithNameAndType "value" "string" with Repeated := true }
           with IsStringArray := true }

/-- The body of the loop of `buildAnyOfAccessors`: one alternative. -/
def buildAnyOfAccessor (domain : Domain) (typeModel : TypeModel) (anyOf : jsonschema.Schema) :
    Option TypeModel :=
  match anyOf.Ref with
  | some ref =>
    (domain.typeNameForReference ref).map fun typeName =>
      match domain.propertyNameForReference ref with
      | some propertyName =>
        typeModel.AddProperty (NewTypePropertyWithNameAndType propertyName typeName)
      | none => typeModel
  | none => some (typeModel.AddProperty (NewTypePropertyWithNameAndType "boolean" "bool"))

/-- The function `buildAnyOfAccessors`. -/
def buildAnyOfAccessors (domain : Domain) (typeModel : TypeModel) (schema : jsonschema.Schema) :
    Option TypeModel :=
  match schema.AnyOf with
  | none => some typeModel
  | some anyOfs =>
    match anyOfs with
    | [first, second] =>
      match schemaIsContainedInArray first second with
      | none => none
      | some true => domain.addAnonymousAccessorForSchema typeModel first true
      | some false =>
        match schemaIsContainedInArray second first with
        | none => none
        | some true => domain.addAnonymousAccessorForSchema typeModel second true
        | some false => forEach domain.buildAnyOfAccessor typeModel anyOfs
    | _ => some typeModel

/-- The function `buildDefaultAccessors`. -/
def buildDefaultAccessors (domain : Domain) (typeModel : TypeModel) (_schema : jsonschema.Schema) :
    Domain × TypeModel :=
  let property : TypeProperty :=
    { NewTypePropertyWithNameAndType "additionalProperties" "NamedAny"
      with MapType := "Any", Repeated := true }
  ({ domain with MapTypeRequests := domain.MapTypeRequests.set property.MapType property.MapType },
   { typeModel with Open := true }.AddProperty property)

/-- The six derivation rules applied in order to one schema, as
`buildTypeForDefinitionObject` and `build` both do. -/
def buildAccessors (domain : Domain) (typeModel : TypeModel) (schema : jsonschema.Schema) :
    Option (Domain × TypeModel) :=
  match domain.buildTypeProperties typeModel schema with
  | none => none
  | some (domain, typeModel) =>
    let typeModel := domain.buildTypeRequirements typeModel schema
    match domain.buildPatternPropertyAccessors typeModel schema with
    | none => none
    | some (domain, typeModel) =>
      match domain.buildAdditionalPropertyAccessors typeModel schema with
      | none => none
      | some (domain, typeModel) =>
        match domain.buildOneOfAccessors typeModel schema with
        | none => none
        | some typeModel =>
          match domain.buildAnyOfAccessors typeModel schema with
          | none => none
          | some typeModel => some (domain, typeModel)

/-- The function `buildTypeForDefinitionObject`. -/
def buildTypeForDefinitionObject (domain : Domain) (typeName : String)
    (_propertyName : String) (schema : jsonschema.Schema) : Option (Domain × TypeModel) :=
  let typeModel := { NewTypeModel with Name := typeName }
  if schema.IsEmpty then
    some (domain.buildDefaultAccessors typeModel schema)
  else
    let typeModel :=
      match schema.Description with
      | some description => { typeModel with Description := description }
      | none => typeModel
    domain.buildAccessors typeModel schema

/-- The function `buildTypeForDefinition`; the inner `none` is the `nil`
result. -/
def buildTypeForDefinition (domain : Domain) (typeName : String) (propertyName : String)
    (schema : jsonschema.Schema) : Option (Domain × Option TypeModel) :=
  match schema.Type_ with
  | none =>
    (domain.buildTypeForDefinitionObject typeName propertyName schema).map fun result =>
      (result.1, some result.2)
  | some type =>
    -- *schema.Type.String == "object"
    match type.String with
    | none => none
    | some name =>
      if name = "object" then
        (domain.buildTypeForDefinitionObject typeName propertyName schema).map fun result =>
          (result.1, some result.2)
      else
        some (domain, none)

end Domain

namespace Domain

/-- The body of the loop of `build` over the definitions of the schema. -/
def buildDefinition (domain : Domain) (pair : jsonschema.NamedSchema jsonschema.Schema) :
    Option Domain :=
  let definitionName := pair.Name
  let definitionSchema := pair.Value
  match domain.typeNameForStub definitionName with
  | none => none
  | some typeName =>
    match domain.buildTypeForDefinition typeName definitionName definitionSchema with
    | none => none
    | some (domain, some typeModel) =>
      some { domain with TypeModels := domain.TypeModels.set typeName typeModel }
    | some (domain, none) => some domain

/-- The body of the loop of `build` over `ObjectTypeRequests`, for the entry
under the key `typeName`; a key with no entry produces nothing. -/
def buildTypeRequest (domain : Domain) (typeName : String) : Option Domain :=
  match domain.ObjectTypeRequests.get typeName with
  | none => some domain
  | some typeRequest =>
    match domain.buildTypeForDefinitionObject typeName typeRequest.PropertyName
        typeRequest.Schema with
    | none => none
    | some (domain, typeModel) =>
      some { domain with TypeModels := domain.TypeModels.set typeRequest.Name typeModel }

/-- The body of the loop of `build` over the sorted map type names. -/
def buildMapType (domain : Domain) (mapTypeName : String) : Domain :=
  let typeName := "Named" ++ Title mapTypeName
  let typeModel : TypeModel :=
    { NewTypeModel with
      Name := typeName
      Description :=
        "Automatically-generated message used to represent maps of " ++ mapTypeName ++
          " as ordered (name,value) pairs."
      IsPair := true
      PairValueType := mapTypeName }
  let nameProperty : TypeProperty :=
    { NewTypeProperty with Name := "name", Type_ := "string", Description := "Map key" }
  let typeModel := typeModel.AddProperty nameProperty
  let valueProperty : TypeProperty :=
    { NewTypeProperty with Name := "value", Type_ := mapTypeName, Description := "Mapped value" }
  let typeModel := typeModel.AddProperty valueProperty
  { domain with TypeModels := domain.TypeModels.set typeName typeModel }

/-- The first part of `build`: the type of the top-level schema and a type for
each object defined in the schema. -/
def buildNamedTypes (domain : Domain) : Option Domain :=
  let typeName := domain.Prefix ++ "Document"
  let typeModel := { NewTypeModel with Name := typeName }
  match domain.buildAccessors typeModel domain.Schema with
  | none => none
  | some (domain, typeModel) =>
    let domain := { domain with TypeModels := domain.TypeModels.set typeName typeModel }
    -- *(domain.Schema.Definitions)
    match domain.Schema.Definitions with
    | none => none
    | some definitions => forEach buildDefinition domain definitions

/-- The second part of `build`: the loop over `ObjectTypeRequests`. Go does not
fix the order in which `range` produces the entries of a map, and an entry
created during the iteration may be produced or skipped: `order` lists the keys
in the order the run produces them. -/
def buildRequestedTypes (domain : Domain) (order : List String) : Option Domain :=
  forEach buildTypeRequest domain order

/-- The last part of `build`: a pair type for each map item type, in sorted
order of the names, then the types `StringArray` and `Any`. -/
def buildMapAndBuiltinTypes (domain : Domain) : Domain :=
  let mapTypeNames := sortStrings domain.MapTypeRequests.keys
  let domain := mapTypeNames.foldl buildMapType domain
  -- add a type for string arrays
  let stringArrayType : TypeModel :=
    { NewTypeModel with Name := "StringArray" }.AddProperty
      { NewTypeProperty with Name := "value", Type_ := "string", Repeated := true }
  let domain :=
    { domain with TypeModels := domain.TypeModels.set stringArrayType.Name stringArrayType }
  -- add a type for "Any"
  let anyType : TypeModel :=
    { NewTypeModel with Name := "Any", Open := true, IsBlob := true }.AddProperty
      { NewTypeProperty with Name := "value", Type_ := "blob" }
  { domain with TypeModels := domain.TypeModels.set anyType.Name anyType }

/-- The function `build`, run with the entries of `ObjectTypeRequests` produced
in the order `order`. -/
def build (domain : Domain) (order : List String) : Option Domain :=
  match domain.buildNamedTypes with
  | none => none
  | some domain =>
    match domain.buildRequestedTypes order with
    | none => none
    | some domain => some domain.buildMapAndBuiltinTypes

/-- Whether the keys `order`, produced from the state `domain` on, are a run of
Go's `range` over `ObjectTypeRequests`: every key produced is an entry of the
map at that moment and was not produced before, and the loop ends only when
every entry that the map had when the loop started (`initial`) has been
produced. A panic of the body ends the run. -/
def rangeOrderFrom (initial : List String) :
    List String → Domain → List String → Bool
  | produced, _, [] => initial.all fun key => produced.contains key
  | produced, domain, key :: rest =>
    !produced.contains key && domain.ObjectTypeRequests.contains key &&
      match domain.buildTypeRequest key with
      | none => rest.isEmpty
      | some next => rangeOrderFrom initial (key :: produced) next rest

/-- Whether `order` is an order in which the `range` loop of `build` may
produce the entries of `ObjectTypeRequests` when `build` is run on `domain`. -/
def isRangeOrder (domain : Domain) (order : List String) : Bool :=
  match domain.buildNamedTypes with
  | none => order.isEmpty
  | some started => rangeOrderFrom started.ObjectTypeRequests.keys [] started order

end Domain

/-! ## Sample schemas -/

namespace jsonschema

/-- The schema with no keyword. -/
def emptySchema : Schema :=
  .mk none none none none none none none none none none none

/-- The schema `{"$ref": ref}`. -/
def refSchema (ref : String) : Schema :=
  .mk (some ref) none none none none none none none none none none

/-- The schema `{"type": name}`. -/
def typeSchema (name : String) : Schema :=
  .mk none (some ⟨none, some name⟩) none none none none none none none none none

/-- The schema `{"type": "object", "properties": {...}}`. -/
def objectSchema (properties : List (NamedSchema Schema)) : Schema :=
  .mk none (some ⟨none, some "object"⟩) none none (some properties) none none none none none
    none

/-- The schema `{"type": "array", "items": items}`. -/
def arraySchema (items : Schema) : Schema :=
  .mk none (some ⟨none, some "array"⟩) none none none none none (some ⟨some items, none⟩) none
    none none

/-- The schema `{"oneOf": [...]}`. -/
def oneOfSchema (alternatives : List Schema) : Schema :=
  .mk none none none none none none none none (some alternatives) none none

/-- The schema `{"anyOf": [...]}`. -/
def anyOfSchema (alternatives : List Schema) : Schema :=
  .mk none none none none none none none none none (some alternatives) none

/-- A top-level schema `{"properties": {...}, "definitions": {...}}`. -/
def documentSchema (properties : List (NamedSchema Schema))
    (definitions : List (NamedSchema Schema)) : Schema :=
  .mk none none none none (some properties) none none none none none (some definitions)

end jsonschema

/-- The schema `{"type": name, "description": description}`. -/
def jsonschema.describedSchema (name : String) (description : String) : jsonschema.Schema :=
  .mk none (some ⟨none, some name⟩) (some description) none none none none none none none none

/-- A top-level schema with four scalar properties. -/
def scalarsSchema : jsonschema.Schema :=
  jsonschema.documentSchema
    [⟨"title", jsonschema.describedSchema "string" "The title."⟩,
     ⟨"count", jsonschema.typeSchema "integer"⟩,
     ⟨"deprecated", jsonschema.typeSchema "boolean"⟩,
     ⟨"ratio", jsonschema.typeSchema "number"⟩] []

/-- A top-level schema whose inline object property `a` declares an inline
object property `b` in turn. -/
def nestedRequestSchema : jsonschema.Schema :=
  jsonschema.documentSchema
    [⟨"a", jsonschema.objectSchema
        [⟨"b", jsonschema.objectSchema [⟨"x", jsonschema.typeSchema "string"⟩]⟩]⟩] []

/-- A top-level schema with two inline object properties `a` and `b`, where `a`
declares an inline object property `b` of its own, with another schema. -/
def sharedNameSchema : jsonschema.Schema :=
  jsonschema.documentSchema
    [⟨"a", jsonschema.objectSchema
        [⟨"b", jsonschema.objectSchema [⟨"x", jsonschema.typeSchema "string"⟩]⟩]⟩,
     ⟨"b", jsonschema.objectSchema [⟨"y", jsonschema.typeSchema "boolean"⟩]⟩] []

/-- A top-level schema with a `oneOf` of a boolean and an `anyOf` of a string and
an array of strings. -/
def oneOfAndAnyOfSchema : jsonschema.Schema :=
  .mk none none none none none none none none (some [jsonschema.typeSchema "boolean"])
    (some [jsonschema.typeSchema "string",
      jsonschema.arraySchema (jsonschema.typeSchema "string")])
    (some [])

/-- A top-level schema whose property `school` refers to its definition `école`,
an object with a string property; the name `école` is the bytes C3 A9 63 6F 6C
65. -/
def accentedSchema : jsonschema.Schema :=
  jsonschema.documentSchema
    [⟨"school", jsonschema.refSchema "#/definitions/\xc3\xa9cole"⟩]
    [⟨"\xc3\xa9cole", jsonschema.objectSchema [⟨"name", jsonschema.typeSchema "string"⟩]⟩]

/-- The names and types of the properties of the type `typeName` of a domain. -/
def propertiesOf (domain : Domain) (typeName : String) : Option (List (String × String)) :=
  (domain.TypeModels.get typeName).map fun typeModel =>
    typeModel.Properties.map fun property => (property.Name, property.Type_)

/-- A top-level schema with an inline object `info`, an inline union `choice`,
an array of strings `tags`, a reference `owner`, a pattern property, open
additional properties and one object definition `parameter`. -/
def catalogSchema : jsonschema.Schema :=
  .mk none none (some "A catalog.") (some ["info"])
    (some [⟨"info", jsonschema.objectSchema [⟨"title", jsonschema.typeSchema "string"⟩]⟩,
           ⟨"choice", jsonschema.oneOfSchema
              [jsonschema.refSchema "#/definitions/parameter", jsonschema.typeSchema "boolean"]⟩,
           ⟨"tags", jsonschema.arraySchema (jsonschema.typeSchema "string")⟩,
           ⟨"owner", jsonschema.refSchema "#/definitions/parameter"⟩])
    (some [⟨"^x-", jsonschema.emptySchema⟩])
    (some ⟨none, some true⟩)
    none none none
    (some [⟨"parameter", jsonschema.objectSchema [⟨"name", jsonschema.typeSchema "string"⟩]⟩])

/-- The pattern names configured for `catalogSchema`. -/
def catalogPatternNames : GoMap String :=
  GoMap.empty.set "^x-" "vendorExtension"

/-- A fresh domain for `catalogSchema`, with the prefix `OpenAPI`. -/
def catalogDomain : Domain :=
  { NewDomain catalogSchema with Prefix := "OpenAPI", PatternNames := catalogPatternNames }

/-- An order in which the loop of `build` may produce the two type requests of
`catalogDomain`. -/
def catalogOrder : List String :=
  ["OpenAPIInfo", "OpenAPIChoiceItem"]

/-! ## The naming rule in the words of the specification -/

/-- The first `/`-separated segment of a reference string. -/
def firstSegment (reference : String) : String :=
  String.mk (reference.data.takeWhile fun c => c != '/')

/-- The last `/`-separated segment of a reference string. -/
def lastSegment (reference : String) : String :=
  String.mk (reference.data.reverse.takeWhile fun c => c != '/').reverse

/-- The capitalised form in which a name enters a type name: its first byte put
through `strings.ToUpper`, the rest unchanged. For a name that starts with an
ASCII character this is the name with a first letter `a` to `z` upper-cased. -/
def Capitalize (name : String) : String :=
  match name.data with
  | [] => ""
  | c :: cs => String.mk (toUpperByte c ++ cs)

/-- A local reference that names a type: its first segment is `#` and its last
segment is not empty. -/
def isLocalReference (reference : String) : Bool :=
  firstSegment reference = "#" && lastSegment reference != ""

/-- The property that a union (`oneOf` / `anyOf`) gets for one alternative: for
a reference, a property named by the last segment of the reference, of the type
named after the reference; for a boolean alternative, the property `boolean` of
type `bool`. Neither is repeated. -/
def alternativeProperty (domain : Domain) (alternative : jsonschema.Schema) : TypeProperty :=
  match alternative.Ref with
  | some ref =>
    { Name := lastSegment ref, Type_ := domain.Prefix ++ Capitalize (lastSegment ref),
      MapType := "", Repeated := false, Pattern := "", Implicit := false, Description := "" }
  | none =>
    { Name := "boolean", Type_ := "bool", MapType := "", Repeated := false, Pattern := "",
      Implicit := false, Description := "" }

/-- A schema of boolean type: no `$ref`, and the type tag is the name `boolean`. -/
def isBooleanSchema (schema : jsonschema.Schema) : Bool :=
  schema.Ref.isNone && (schema.Type_.bind fun type => type.String) == some "boolean"

/-- A schema that is a reference to a local definition. -/
def isLocalReferenceSchema (schema : jsonschema.Schema) : Bool :=
  match schema.Ref with
  | some ref => isLocalReference ref
  | none => false

/-- Whether `array` is of type array with a single items schema equal to
`element`: "array of the other". -/
def isArrayOf (array : jsonschema.Schema) (element : jsonschema.Schema) : Bool :=
  array.TypeIs "array" &&
    match array.Items.bind fun items => items.Schema with
    | some itemSchema => element.IsEqual itemSchema
    | none => false

/-- The single repeated property that an `anyOf` collapsed to "array of `element`"
gets: for a reference, a property named by the last segment of the reference, of
the type named after the reference; otherwise the property `value` of type
`string`. -/
def collapsedProperty (domain : Domain) (element : jsonschema.Schema) : TypeProperty :=
  match element.Ref with
  | some ref =>
    { Name := lastSegment ref, Type_ := domain.Prefix ++ Capitalize (lastSegment ref),
      MapType := "", Repeated := true, Pattern := "", Implicit := false, Description := "" }
  | none =>
    { Name := "value", Type_ := "string", MapType := "", Repeated := true, Pattern := "",
      Implicit := false, Description := "" }

/-- The type tag of a schema when it is a single name, given as the name or as
a list of that one name. -/
def typeTag (schema : jsonschema.Schema) : Option String :=
  match schema.Type_ with
  | none => none
  | some type =>
    match type.String with
    | some name => some name
    | none =>
      match type.StringArray with
      | some [name] => some name
      | _ => none

/-- The canonical property type of a scalar keyword: `string`, `bool`, `float`
or `int` for `string`, `boolean`, `number` or `integer`. -/
def canonicalType (tag : String) : Option String :=
  if tag = "string" then some "string"
  else if tag = "boolean" then some "bool"
  else if tag = "number" then some "float"
  else if tag = "integer" then some "int"
  else none

/-- A declared property with no `$ref` whose type tag is `string`, `boolean`,
`number` or `integer`. -/
def isScalarProperty (pair : jsonschema.NamedSchema jsonschema.Schema) : Bool :=
  pair.Value.Ref.isNone && ((typeTag pair.Value).bind canonicalType).isSome

/-- The property of a scalar declared property: named as declared, of the
canonical type, not repeated, not implicit, described as the schema is. -/
def scalarProperty (pair : jsonschema.NamedSchema jsonschema.Schema) : TypeProperty :=
  { Name := pair.Name
    Type_ := ((typeTag pair.Value).bind canonicalType).getD ""
    MapType := ""
    Repeated := false
    Pattern := ""
    Implicit := false
    Description := pair.Value.Description.getD "" }

namespace jsonschema.Schema

mutual
/-- The schemas that occur in a schema: the schema itself and the schemas nested
in it as properties, pattern properties, additional properties, items, `oneOf`
and `anyOf` alternatives and definitions, at any depth. -/
def nested : Schema → List Schema
  | mk r t d q p pp ap i o a df =>
    mk r t d q p pp ap i o a df ::
      (nestedInNamedLists p ++ (nestedInNamedLists pp ++ (nestedInAdditional ap ++
        (nestedInItems i ++ (nestedInLists o ++ (nestedInLists a ++ nestedInNamedLists df))))))
termination_by structural x => x
/-- The schemas that occur in a list of schemas. -/
def nestedInList : List Schema → List Schema
  | [] => []
  | a :: as => nested a ++ nestedInList as
termination_by structural x => x
/-- The schemas that occur in an optional list of schemas. -/
def nestedInLists : Option (List Schema) → List Schema
  | none => []
  | some l => nestedInList l
termination_by structural x => x
/-- The schemas that occur in an optional schema. -/
def nestedInOption : Option Schema → List Schema
  | none => []
  | some a => nested a
termination_by structural x => x
/-- The schemas that occur in a named schema. -/
def nestedInNamed : NamedSchema Schema → List Schema
  | ⟨_, v⟩ => nested v
termination_by structural x => x
/-- The schemas that occur in a list of named schemas. -/
def nestedInNamedList : List (NamedSchema Schema) → List Schema
  | [] => []
  | a :: as => nestedInNamed a ++ nestedInNamedList as
termination_by structural x => x
/-- The schemas that occur in an optional list of named schemas. -/
def nestedInNamedLists : Option (List (NamedSchema Schema)) → List Schema
  | none => []
  | some l => nestedInNamedList l
termination_by structural x => x
/-- The schemas that occur in an `additionalProperties` value. -/
def nestedInAdditional : Option (SchemaOrBoolean Schema) → List Schema
  | none => []
  | some ⟨s, _⟩ => nestedInOption s
termination_by structural x => x
/-- The schemas that occur in an `items` value. -/
def nestedInItems : Option (SchemaOrSchemaArray Schema) → List Schema
  | none => []
  | some ⟨s, l⟩ => nestedInOption s ++ nestedInLists l
termination_by structural x => x
end

/-- The `$ref` strings that occur in a schema: its own and those of the schemas
nested in it. -/
def refs (schema : Schema) : List String :=
  schema.nested.filterMap Ref

/-- The items schemas that occur in a schema: for the schema and every schema
nested in it that has `items`, the single items schema or the listed ones. -/
def itemSchemas (schema : Schema) : List Schema :=
  schema.nested.flatMap fun inner =>
    match inner.Items with
    | none => []
    | some items => items.Schema.toList ++ items.SchemaArray.getD []

end jsonschema.Schema

/-! ## Closure and wrapper kinds in the words of the specification -/

/-- The number of wrapper flags set on a type model, among `OneOfWrapper`,
`IsPair`, `IsStringArray`, `IsItemArray` and `IsBlob`. -/
def statedWrapperKinds (typeModel : TypeModel) : Nat :=
  (if typeModel.OneOfWrapper then 1 else 0) + (if typeModel.IsPair then 1 else 0) +
    (if typeModel.IsStringArray then 1 else 0) + (if typeModel.IsItemArray then 1 else 0) +
    (if typeModel.IsBlob then 1 else 0)

/-! ## Invariants of the build -/

/-- The number of wrapper kinds a type model has among pair, string array, item
array and blob. -/
def wrapperKinds (typeModel : TypeModel) : Nat :=
  (if typeModel.IsPair then 1 else 0) + (if typeModel.IsStringArray then 1 else 0) +
    (if typeModel.IsItemArray then 1 else 0) + (if typeModel.IsBlob then 1 else 0)

/-- What the derivation rules keep of a domain: the configuration and the type
models are untouched, and the two request maps only gain keys. -/
structure Domain.Extends (domain next : Domain) : Prop where
  samePrefix : next.Prefix = domain.Prefix
  sameTypeModels : next.TypeModels = domain.TypeModels
  sameSchema : next.Schema = domain.Schema
  samePatternNames : next.PatternNames = domain.PatternNames
  requests : ∀ key ∈ domain.ObjectTypeRequests.keys, key ∈ next.ObjectTypeRequests.keys
  mapTypes : ∀ key ∈ domain.MapTypeRequests.keys, key ∈ next.MapTypeRequests.keys

/-- Every type request of the domain is recorded under its own name, and every
schema nested in its schema is nested in the schema of the domain. -/
def RequestsNamed (domain : Domain) : Prop :=
  ∀ key request, domain.ObjectTypeRequests.get key = some request →
    request.Name = key ∧ ∀ inner ∈ request.Schema.nested, inner ∈ domain.Schema.nested

/-- A type name with a known origin: a scalar keyword, one of the two built-in
types, the name derived from a `$ref` that occurs in the schema of the domain,
or the name of a recorded type request. -/
def TracedName (domain : Domain) (name : String) : Prop :=
  name ∈ ["string", "bool", "float", "int", "blob", "Any", "StringArray"] ∨
  (∃ ref ∈ domain.Schema.refs, domain.typeNameForReference ref = some name) ∨
  name ∈ domain.ObjectTypeRequests.keys

/-- A property with a known origin: either it has no map type, and its type has
a known origin or it is a repeated, not implicit property (an array) whose type
is the item type name read off the `type` of an items schema that occurs in the
schema of the domain; or its map type is a recorded map type with a known origin and its
type is `Named` followed by the map type, as written or title-cased. -/
def Traced (domain : Domain) (property : TypeProperty) : Prop :=
  (property.MapType = "" ∧
    (TracedName domain property.Type_ ∨
      (property.Repeated = true ∧ property.Implicit = false ∧
        ∃ item ∈ domain.Schema.itemSchemas,
          property.Type_ = Domain.itemTypeNameForTypes "Any" item.Type_))) ∨
  (property.MapType ∈ domain.MapTypeRequests.keys ∧ TracedName domain property.MapType ∧
    (property.Type_ = "Named" ++ property.MapType ∨
      property.Type_ = "Named" ++ Title property.MapType))

/-- What a derivation rule does to a domain and a type model: the domain is
extended, the recorded map types keep a known origin, the name and the wrapper
flags of the type model other than `OneOfWrapper` stay, properties with a known
origin are appended, and type requests stay recorded under their names, with
schemas nested in the schema of the domain. -/
structure Derives (domain : Domain) (typeModel : TypeModel) (next : Domain)
    (nextModel : TypeModel) : Prop where
  grows : domain.Extends next
  mapTypes : (∀ key ∈ domain.MapTypeRequests.keys, TracedName domain key) →
    ∀ key ∈ next.MapTypeRequests.keys, TracedName next key
  sameName : nextModel.Name = typeModel.Name
  samePair : nextModel.IsPair = typeModel.IsPair
  sameBlob : nextModel.IsBlob = typeModel.IsBlob
  sameStringArray : nextModel.IsStringArray = typeModel.IsStringArray
  sameItemArray : nextModel.IsItemArray = typeModel.IsItemArray
  properties : ∃ added, nextModel.Properties = typeModel.Properties ++ added ∧
    ∀ property ∈ added, Traced next property
  named : RequestsNamed domain → RequestsNamed next

/-- What a derivation of a type model may do to the two array flags: leave both,
or set one of them and leave the other. -/
def arrayFlags (typeModel nextModel : TypeModel) : Prop :=
  (nextModel.IsItemArray = typeModel.IsItemArray ∧
    nextModel.IsStringArray = typeModel.IsStringArray) ∨
  (nextModel.IsItemArray = true ∧ nextModel.IsStringArray = typeModel.IsStringArray) ∨
  (nextModel.IsStringArray = true ∧ nextModel.IsItemArray = typeModel.IsItemArray)

/-- A type model with the two array flags of another. -/
def withArrayFlagsOf (nextModel typeModel : TypeModel) : TypeModel :=
  { nextModel with
    IsItemArray := typeModel.IsItemArray, IsStringArray := typeModel.IsStringArray }

/-- The wrapper kinds that the build gives a type model: at most one of pair,
string array, item array and blob, and no oneOf wrapper that is a pair or a
blob. -/
def wrapperKindsOK (typeModel : TypeModel) : Prop :=
  wrapperKinds typeModel ≤ 1 ∧
  (typeModel.OneOfWrapper = true → typeModel.IsPair = false ∧ typeModel.IsBlob = false)

/-- The invariant of the build: the recorded map types have a known origin,
every type model of the domain has wrapper kinds as above and properties with a
known origin, and every type request is recorded under its own name, with a
schema nested in the schema of the domain. -/
structure Domain.Sound (domain : Domain) : Prop where
  mapTypes : ∀ key ∈ domain.MapTypeRequests.keys, TracedName domain key
  kinds : ∀ typeModel ∈ domain.TypeModels.values, wrapperKindsOK typeModel
  properties : ∀ typeModel ∈ domain.TypeModels.values,
    ∀ property ∈ typeModel.Properties, Traced domain property
  named : RequestsNamed domain

/-- A type name that is closed in a domain: the name of one of its type models
or one of the scalar keywords `string`, `bool`, `float`, `int`, `blob`. -/
def Closed (domain : Domain) (name : String) : Prop :=
  name ∈ domain.TypeModels.keys ∨ name ∈ ["string", "bool", "float", "int", "blob"]

/-! ## Array properties, required lists and map properties in the words of the specification -/

/-- The map type of a pattern property: the type named after the `$ref` of its
schema, or `Any` when the schema has no `$ref`. -/
def patternMapType (domain : Domain) (schema : jsonschema.Schema) : Option String :=
  match schema.Ref with
  | some ref => domain.typeNameForReference ref
  | none => some "Any"

/-- The property of a pattern property: named as configured for the pattern,
implicit, repeated, of the type `Named` followed by the map type. -/
def patternProperty (domain : Domain) (pair : jsonschema.NamedSchema jsonschema.Schema) :
    TypeProperty :=
  { Name := (domain.PatternNames.get pair.Name).getD ""
    Type_ := "Named" ++ (patternMapType domain pair.Value).getD ""
    MapType := (patternMapType domain pair.Value).getD ""
    Repeated := true
    Pattern := pair.Name
    Implicit := true
    Description := "" }

/-- The map type requests after the map types of the pattern properties have
been recorded, in order. -/
def recordPatternTypes (domain : Domain)
    (patterns : List (jsonschema.NamedSchema jsonschema.Schema)) (requests : GoMap String) :
    GoMap String :=
  patterns.foldl (fun requests pair =>
    requests.set ((patternMapType domain pair.Value).getD "")
      ((patternMapType domain pair.Value).getD "")) requests

/-- The implicit, repeated property `additionalProperties` of type `typeName`
and map type `mapType`. -/
def additionalProperty (typeName : String) (mapType : String) : TypeProperty :=
  { Name := "additionalProperties"
    Type_ := typeName
    MapType := mapType
    Repeated := true
    Pattern := ""
    Implicit := true
    Description := "" }

/-- The pair type of the map-value type `mapTypeName`: two properties, `name` of
type `string` and `value` of the map-value type. -/
def pairType (mapTypeName : String) : TypeModel :=
  { Name := "Named" ++ Title mapTypeName
    Properties :=
      [{ Name := "name", Type_ := "string", MapType := "", Repeated := false, Pattern := "",
         Implicit := false, Description := "Map key" },
       { Name := "value", Type_ := mapTypeName, MapType := "", Repeated := false, Pattern := "",
         Implicit := false, Description := "Mapped value" }]
    Required := []
    OneOfWrapper := false
    Open := false
    OpenPatterns := []
    IsStringArray := false
    IsItemArray := false
    IsBlob := false
    IsPair := true
    PairValueType := mapTypeName
    Description :=
      "Automatically-generated message used to represent maps of " ++ mapTypeName ++
        " as ordered (name,value) pairs." }

/-- The built-in type `StringArray`. -/
def stringArrayType : TypeModel :=
  { Name := "StringArray"
    Properties :=
      [{ Name := "value", Type_ := "string", MapType := "", Repeated := true, Pattern := "",
         Implicit := false, Description := "" }]
    Required := []
    OneOfWrapper := false
    Open := false
    OpenPatterns := []
    IsStringArray := false
    IsItemArray := false
    IsBlob := false
    IsPair := false
    PairValueType := ""
    Description := "" }

/-- The built-in type `Any`. -/
def anyType : TypeModel :=
  { Name := "Any"
    Properties :=
      [{ Name := "value", Type_ := "blob", MapType := "", Repeated := false, Pattern := "",
         Implicit := false, Description := "" }]
    Required := []
    OneOfWrapper := false
    Open := true
    OpenPatterns := []
    IsStringArray := false
    IsItemArray := false
    IsBlob := true
    IsPair := false
    PairValueType := ""
    Description := "" }

/-- An object schema with two declared properties, a required list and
`additionalProperties: true`. -/
def requiredSchema : jsonschema.Schema :=
  .mk none (some ⟨none, some "object"⟩) none (some ["url", "name"])
    (some [⟨"name", jsonschema.typeSchema "string"⟩, ⟨"url", jsonschema.typeSchema "string"⟩])
    none (some ⟨none, some true⟩) none none none none

/-- An object schema with two pattern properties: vendor extensions of any
value, and paths that refer to the definition `pathItem`. -/
def patternsSchema : jsonschema.Schema :=
  .mk none (some ⟨none, some "object"⟩) none none none
    (some [⟨"^x-", jsonschema.emptySchema⟩,
           ⟨"^/", jsonschema.refSchema "#/definitions/pathItem"⟩])
    none none none none none

/-- A fresh domain for `patternsSchema`, with the prefix `OpenAPI` and a name
configured for each of the two patterns. -/
def patternsDomain : Domain :=
  { NewDomain patternsSchema with
    Prefix := "OpenAPI"
    PatternNames := (GoMap.empty.set "^x-" "vendorExtension").set "^/" "path" }

/-- The domain after the map type `mapType` has been recorded in
`MapTypeRequests`. -/
def recordMapType (domain : Domain) (mapType : String) : Domain :=
  { domain with MapTypeRequests := domain.MapTypeRequests.set mapType mapType }

/-- The type model made open, with the property `additionalProperties` of type
`typeName` and map type `mapType` appended. -/
def withAdditionalProperty (typeModel : TypeModel) (typeName : String) (mapType : String) :
    TypeModel :=
  { typeModel with
    Open := true
    Properties := typeModel.Properties ++ [additionalProperty typeName mapType] }

/-- Whether the type names that `buildAdditionalPropertyAccessors` dereferences
of an additional-properties schema without `$ref` are there: the type, when the
schema has one, is a single name (`*schema.Type.String`), and when that name is
`array` and the schema has items, the items are one schema whose type is a
single name (`*schema.Items.Schema.Type.String`). -/
def hasSingleTypeNames (S : jsonschema.Schema) : Bool :=
  match S.Type_ with
  | none => true
  | some type =>
    match type.String with
    | none => false
    | some typeName =>
      typeName != "array" ||
        match S.Items with
        | none => true
        | some items =>
          ((items.Schema.bind fun itemSchema => itemSchema.Type_).bind fun itemTypes =>
            itemTypes.String).isSome

/-- An additional-properties schema of the string shape: no `$ref`, and the type
is the single name `string`. -/
def isStringShape (S : jsonschema.Schema) : Bool :=
  S.Ref.isNone && (S.Type_.bind fun type => type.String) == some "string"

/-- An additional-properties schema of the string-array shape: no `$ref`, the
type is the single name `array`, and the items are one schema whose type is the
single name `string`. -/
def isStringArrayShape (S : jsonschema.Schema) : Bool :=
  S.Ref.isNone && (S.Type_.bind fun type => type.String) == some "array" &&
    (((S.Items.bind fun items => items.Schema).bind fun itemSchema => itemSchema.Type_).bind
      fun itemTypes => itemTypes.String) == some "string"

/-- An additional-properties schema of the inline `oneOf` shape: no `$ref`, no
type, and a `oneOf`. -/
def isInlineOneOfShape (S : jsonschema.Schema) : Bool :=
  S.Ref.isNone && S.Type_.isNone && S.OneOf.isSome

/-- The schema `{"type": "object", "oneOf": [{"$ref": "#/definitions/parameter"}]}`:
a schema with a type and an inline `oneOf`. -/
def typedOneOfSchema : jsonschema.Schema :=
  .mk none (some ⟨none, some "object"⟩) none none none none none none
    (some [jsonschema.refSchema "#/definitions/parameter"]) none none

/-- An object schema whose `additionalProperties` is the schema `values`. -/
def mapSchema (values : jsonschema.Schema) : jsonschema.Schema :=
  .mk none (some ⟨none, some "object"⟩) none none none none (some ⟨some values, none⟩) none none
    none none

/-- A top-level schema that maps names to strings and defines two objects:
`string`, and `thing`, which maps names to `#/definitions/string`. -/
def stringMapsSchema : jsonschema.Schema :=
  .mk none none none none none none
    (some ⟨some (jsonschema.typeSchema "string"), none⟩)
    none none none
    (some [⟨"string", jsonschema.objectSchema [⟨"text", jsonschema.typeSchema "string"⟩]⟩,
           ⟨"thing", mapSchema (jsonschema.refSchema "#/definitions/string")⟩])

/-- The pair types of a domain: the name under which each is registered, with the
type of its values. -/
def pairTypesOf (domain : Domain) : List (String × String) :=
  (domain.TypeModels.entries.filter fun entry => entry.2.IsPair).map fun entry =>
    (entry.1, entry.2.PairValueType)

/-! ## The document reader -/

/-- The bytes of a document. -/
abbrev Bytes := List Nat

namespace yaml

/-- The type `yaml.MapItem`: one entry of an ordered map. -/
structure MapItem (α : Type) where
  Key : α
  Value : α

/-- A decoded YAML value, as `yaml.Unmarshal` stores it in an `interface{}`:
`null` is the nil interface, `map` is a `yaml.MapSlice`, whose entries keep the
order of the document. -/
inductive Value where
  | null
  | bool (b : Bool)
  | int (n : Int)
  | float (text : String)
  | str (s : String)
  | seq (items : List Value)
  | map (items : List (MapItem Value))

end yaml

/-- What the reader calls outside of the program: `url.Parse` (the scheme of
the parsed locator, `none` when the locator does not parse), `http.Get`
followed by `ioutil.ReadAll` of the body (the bytes read, with the error of the
read if any), `ioutil.ReadFile`, and `yaml.Unmarshal` into a `yaml.MapSlice`
(the entries stored, with the error if any). -/
structure World where
  urlScheme : String → Option String
  httpGet : String → Except String (Bytes × Option String)
  readFile : String → Except String Bytes
  unmarshal : Bytes → List (yaml.MapItem yaml.Value) × Option String

/-- The package-level variables of the reader, `file_cache`, `info_cache` and
`count` (a `nil` map is `none`), together with the trace `reads` of the
locators that the program has read from the outside world with `http.Get` or
`ioutil.ReadFile`, in order. -/
structure Globals where
  file_cache : Option (GoMap Bytes)
  info_cache : Option (GoMap yaml.Value)
  count : Int
  reads : List String

/-- The variables when the program starts. -/
def Globals.initial : Globals :=
  { file_cache := none, info_cache := none, count := 0, reads := [] }

/-- Addition of `int64` values. -/
def addInt64 (a : Int) (b : Int) : Int :=
  (a + b + 2 ^ 63) % 2 ^ 64 - 2 ^ 63

/-- The function `FetchFile`: the bytes and the error returned. -/
def FetchFile (world : World) (globals : Globals) (fileurl : String) :
    Globals × Bytes × Option String :=
  let cache := globals.file_cache.getD GoMap.empty
  let globals := { globals with file_cache := some cache }
  match cache.get fileurl with
  | some bytes => (globals, bytes, none)
  | none =>
    let globals := { globals with reads := globals.reads ++ [fileurl] }
    match world.httpGet fileurl with
    | .error err => (globals, [], some err)
    | .ok response =>
      match response.2 with
      | none => ({ globals with file_cache := some (cache.set fileurl response.1) },
                 response.1, none)
      | some err => (globals, response.1, some err)

/-- The function `ReadFile`: read a file and unmarshal it as a `yaml.MapSlice`.
The result is the value and the error returned; `none` is the panic of
`fileurl.Scheme` on the `nil` result of a failed `url.Parse`. -/
def ReadFile (world : World) (globals : Globals) (filename : String) :
    Option (Globals × yaml.Value × Option String) :=
  match world.urlScheme filename with
  | none => none
  | some scheme =>
    if scheme ≠ "" then
      let fetched := FetchFile world globals filename
      match fetched.2.2 with
      | none =>
        let info := world.unmarshal fetched.2.1
        match info.2 with
        | none => some (fetched.1, .map info.1, none)
        | some err => some (fetched.1, .null, some err)
      | some err => some (fetched.1, .null, some err)
    else
      let globals := { globals with reads := globals.reads ++ [filename] }
      match world.readFile filename with
      | .error err => some (globals, .null, some err)
      | .ok file =>
        -- the error of yaml.Unmarshal is dropped
        some (globals, .map (world.unmarshal file).1, none)

/-- The comparison `section.Key == key` of a key of a map, an `interface{}`, with
a string. -/
def keyIs (sectionKey : yaml.Value) (key : String) : Bool :=
  match sectionKey with
  | .str s => s == key
  | _ => false

/-- The inner loop of `ReadInfoForRef` over the sections of the map `m`. -/
def scanSections (key : String) (info : yaml.Value) :
    List (yaml.MapItem yaml.Value) → yaml.Value
  | [] => info
  | section_ :: rest =>
    scanSections key (if keyIs section_.Key key then section_.Value else info) rest

/-- One pointer segment applied to `info`: the body of the loop of
`ReadInfoForRef` over `path`, for an index `i > 0`. -/
def applySegment (info : yaml.Value) (key : String) : yaml.Value :=
  -- m, ok := info.(yaml.MapSlice)
  match info with
  | .map m => scanSections key info m
  | _ => info

/-- The loop of `ReadInfoForRef` over `path`, from the index `i` on. -/
def walkPath : Nat → yaml.Value → List String → yaml.Value
  | _, info, [] => info
  | i, info, key :: rest =>
    walkPath (i + 1) (if i > 0 then applySegment info key else info) rest

/-- Go's `strings.Split(s, "#")`. -/
def splitHash (s : String) : List String := (splitChars '#' s.data).map String.mk

/-- The directory part of `filepath.Split`: the path up to and including its
last `/` (empty when it has none). -/
def filepathSplitDir (path : String) : String :=
  String.mk (path.data.reverse.dropWhile fun c => c != '/').reverse

/-- The function `ReadInfoForRef`: read a file and return the fragment needed to
resolve a `$ref`. -/
def ReadInfoForRef (world : World) (globals : Globals) (basefile : String) (ref : String) :
    Option (Globals × yaml.Value) :=
  let cache := globals.info_cache.getD GoMap.empty
  let globals := { globals with info_cache := some cache }
  match cache.get ref with
  | some info => some (globals, info)
  | none =>
    let globals := { globals with count := addInt64 globals.count 1 }
    let basedir := filepathSplitDir basefile
    let parts := splitHash ref
    let filename := if parts.headD "" ≠ "" then basedir ++ parts.headD "" else basefile
    match ReadFile world globals filename with
    | none => none
    | some (globals, info, err) =>
      let info :=
        match err with
        | some _ => info
        | none =>
          match parts with
          | _ :: pointer :: _ => walkPath 0 info (splitSlash pointer)
          | _ => info
      -- info_cache[ref] = info
      match globals.info_cache with
      | none => none
      | some cache => some ({ globals with info_cache := some (cache.set ref info) }, info)

/-! ## Pointer traversal in the words of the specification -/

/-- The lookup of a key that occurs exactly once among the keys of a map. -/
def lookupOnce (value : yaml.Value) (key : String) : Option yaml.Value :=
  match value with
  | .map items =>
    match items.filter fun item => keyIs item.Key key with
    | [item] => some item.Value
    | _ => none
  | _ => none

/-- Successive lookups of the keys `k1`, ..., `kn`, each occurring exactly once
in the map reached before it. -/
def lookups : yaml.Value → List String → Option yaml.Value
  | value, [] => some value
  | value, key :: rest =>
    match lookupOnce value key with
    | none => none
    | some next => lookups next rest

/-- The characters of the pointer `/k1/.../kn`. -/
def pointerChars : List String → List Char
  | [] => []
  | key :: rest => '/' :: (key.data ++ pointerChars rest)

/-- The ref `#/k1/.../kn`. -/
def pointerRef (keys : List String) : String :=
  String.mk ('#' :: pointerChars keys)

/-- A pointer segment: a key with no `/` and no `#` in it. -/
def isSegment (key : String) : Bool :=
  !key.data.contains '/' && !key.data.contains '#'

/-- The fragment cached for a ref, if any. -/
def Globals.cached (globals : Globals) (ref : String) : Option yaml.Value :=
  (globals.info_cache.getD GoMap.empty).get ref

/-- Whether a key is among the keys of a map value. -/
def hasKey (value : yaml.Value) (key : String) : Bool :=
  match value with
  | .map items => items.any fun item => keyIs item.Key key
  | _ => false

/-- The document `{definitions: {Foo: {type: string}}}`. -/
def fooDocument : List (yaml.MapItem yaml.Value) :=
  [⟨.str "definitions", .map [⟨.str "Foo", .map [⟨.str "type", .str "string"⟩]⟩]⟩]

/-- A world with one local file, `openapi.yaml`, whose three bytes decode to
`document`; no locator has a scheme. -/
def localWorld (document : List (yaml.MapItem yaml.Value)) : World :=
  { urlScheme := fun _ => some ""
    httpGet := fun _ => .error "no network"
    readFile := fun filename =>
      if filename = "openapi.yaml" then .ok [102, 111, 111] else .error "no such file"
    unmarshal := fun bytes => if bytes = [102, 111, 111] then (document, none) else ([], none) }

/-- The document `{paths: {/pets: {get: listPets}}}`. -/
def petsDocument : List (yaml.MapItem yaml.Value) :=
  [⟨.str "paths", .map [⟨.str "/pets", .map [⟨.str "get", .str "listPets"⟩]⟩]⟩]

/-- The locator of the document that a ref targets: the base document when the
part of the ref before `#` is empty, else that part appended to the directory of
the base locator. -/
def targetFile (basefile : String) (ref : String) : String :=
  if (splitHash ref).headD "" ≠ "" then filepathSplitDir basefile ++ (splitHash ref).headD ""
  else basefile

/-- The fragment that a ref points at in a loaded document: the document itself
when loading failed or when the ref has no `#`, else the result of walking the
segments of the pointer part. -/
def pointedAt (ref : String) (info : yaml.Value) (err : Option String) : yaml.Value :=
  match err with
  | some _ => info
  | none =>
    match splitHash ref with
    | _ :: pointer :: _ => (splitSlash pointer).tail.foldl applySegment info
    | _ => info

/-- A run of calls of `ReadInfoForRef`, one after the other, each with its world,
its base locator and its ref: the variables after the last call. -/
def resolveAll (globals : Globals) : List (World × String × String) → Option Globals
  | [] => some globals
  | call :: rest =>
    match ReadInfoForRef call.1 globals call.2.1 call.2.2 with
    | none => none
    | some result => resolveAll result.1 rest

/-- A world with one local file, `other/openapi.yaml`, whose bytes decode to
`petsDocument`, and nothing else. -/
def otherWorld : World :=
  { urlScheme := fun _ => some ""
    httpGet := fun _ => .error "no network"
    readFile := fun filename =>
      if filename = "other/openapi.yaml" then .ok [112, 101, 116] else .error "no such file"
    unmarshal := fun bytes => if bytes = [112, 101, 116] then (petsDocument, none) else ([], none) }

/-! ## The code generator (`generator/generate-compiler.go`)

The generator prints Go source, one statement per call of `code.Print`. A format
of `fmt.Sprintf` is written here with its arguments in place: `%s` and `%d` are
the argument, `%%` is `%`. Two lines are printed with a format that is itself
put together from names (`"// " + line` and the `pair := &Named...` line): the
names are taken to hold no `%`, so that the format stands for itself. -/

/-- Modelled from the spec: the type `printer.Code`, the generated source, as the
list of the lines printed so far, one for each call of `Print`. -/
structure Code where
  lines : List String

/-- Modelled from the spec: `code.Print`, which appends one line to the generated
source. -/
def Code.Print (code : Code) (line : String) : Code :=
  ⟨code.lines ++ [line]⟩

/-- Several calls of `code.Print` in a row. -/
def Code.PrintLines (code : Code) (lines : List String) : Code :=
  lines.foldl Code.Print code

/-- The loops that build `keyString`, `allowedKeyString` and
`allowedPatternString`: the keys in double quotes, separated by commas. -/
def quotedKeys (keys : List String) : String :=
  keys.foldl (fun keyString k =>
    (if keyString ≠ "" then keyString ++ "," else keyString) ++ "\"" ++ k ++ "\"") ""

namespace Domain

/-- The constructor body printed for a type with `IsStringArray`. -/
def stringArrayConstructor : List String :=
  ["x := &TypeItem\x7b\x7d",
   "value, ok := in.(string)",
   "if !ok \x7b",
   "  message := fmt.Sprintf(\"has unexpected value for string array: %+v\", in)",
   "  errors = append(errors, compiler.NewError(context, message))",
   "\x7d else \x7b",
   "  x.Value = make([]string, 0)",
   "  x.Value = append(x.Value, value)",
   "\x7d"]

/-- The constructor body printed for a type with `IsItemArray`. -/
def itemArrayConstructor : List String :=
  ["x := &ItemsItem\x7b\x7d",
   "m, ok := compiler.UnpackMap(in)",
   "if !ok \x7b",
   "  message := fmt.Sprintf(\"has unexpected value for item array: %+v\", in)",
   "  errors = append(errors, compiler.NewError(context, message))",
   "\x7d else \x7b",
   "  x.Schema = make([]*Schema, 0)",
   "  y, err := NewSchema(m, compiler.NewContext(\"<array>\", context))",
   "  if err != nil \x7b",
   "    return nil, err",
   "  \x7d",
   "  x.Schema = append(x.Schema, y)",
   "\x7d"]

/-- The constructor body printed for a type with `IsBlob`. -/
def blobConstructor : List String :=
  ["x := &Any\x7b\x7d",
   "bytes, _ := json.Marshal(in)",
   "x.Value = string(bytes)"]

/-- The constructor body printed for the type named `StringArray`. -/
def namedStringArrayConstructor : List String :=
  ["x := &StringArray\x7b\x7d",
   "a, ok := in.([]interface\x7b\x7d)",
   "if !ok \x7b",
   "  message := fmt.Sprintf(\"has unexpected value for StringArray: %+v\", in)",
   "  errors = append(errors, compiler.NewError(context, message))",
   "\x7d else \x7b",
   "  x.Value = make([]string, 0)",
   "  for _, s := range a \x7b",
   "    x.Value = append(x.Value, s.(string))",
   "  \x7d",
   "\x7d"]

/-- The check printed when `Required` is not empty, for the sorted required
names. -/
def requiredKeysCheck (required : List String) : List String :=
  ["requiredKeys := []string\x7b" ++ quotedKeys required ++ "\x7d",
   "missingKeys := compiler.MissingKeysInMap(m, requiredKeys)",
   "if len(missingKeys) > 0 \x7b",
   "  message := fmt.Sprintf(\"is missing required %s: %+v\", " ++
     "compiler.PluralProperties(len(missingKeys)), strings.Join(missingKeys, \", \"))",
   "  errors = append(errors, compiler.NewError(context, message))",
   "\x7d"]

/-- The check printed when the type is not open. -/
def allowedKeysCheck (typeModel : TypeModel) : List String :=
  let allowedKeys :=
    (typeModel.Properties.filter fun property => !property.Implicit).map fun property =>
      property.Name
  let allowedKeys := sortStrings allowedKeys
  let allowedKeyString := quotedKeys allowedKeys
  let allowedPatternString := quotedKeys typeModel.OpenPatterns
  ["allowedKeys := []string\x7b" ++ allowedKeyString ++ "\x7d",
   "allowedPatterns := []string\x7b" ++ allowedPatternString ++ "\x7d",
   "invalidKeys := compiler.InvalidKeysInMap(m, allowedKeys, allowedPatterns)",
   "if len(invalidKeys) > 0 \x7b",
   "  message := fmt.Sprintf(\"has invalid %s: %+v\", " ++
     "compiler.PluralProperties(len(invalidKeys)), strings.Join(invalidKeys, \", \"))",
   "  errors = append(errors, compiler.NewError(context, message))",
   "\x7d"]

/-- The lines printed for a property whose type is a type of the domain that is
not a pair type (`typeFound && !typeModel.IsPair`); `typeModel` is the type of
the property. -/
def messageProperty (parentTypeName : String) (oneOfWrapper : Bool) (fieldNumber : Nat)
    (propertyModel : TypeProperty) (fieldName : String) (typeModel : TypeModel) : List String :=
  let propertyName := propertyModel.Name
  let v := "v" ++ toString fieldNumber
  if propertyModel.Repeated then
    [v ++ " := compiler.MapValueForKey(m, \"" ++ propertyName ++ "\")",
     "if (" ++ v ++ " != nil) \x7b",
     "  // repeated " ++ typeModel.Name,
     "  x." ++ fieldName ++ " = make([]*" ++ typeModel.Name ++ ", 0)",
     "  a, ok := " ++ v ++ ".([]interface\x7b\x7d)",
     "  if ok \x7b",
     "    for _, item := range a \x7b",
     "      y, err := New" ++ typeModel.Name ++ "(item, compiler.NewContext(\"" ++ propertyName ++
       "\", context))",
     "      if err != nil \x7b",
     "        errors = append(errors, err)",
     "      \x7d",
     "      x." ++ fieldName ++ " = append(x." ++ fieldName ++ ", y)",
     "    \x7d",
     "  \x7d",
     "\x7d"]
  else if oneOfWrapper then
    ["\x7b",
     "  // errors are ok here, they mean we just don't have the right subtype",
     "  t, safe_errors := New" ++ typeModel.Name ++ "(m, compiler.NewContext(\"" ++
       propertyName ++ "\", context))",
     "  if safe_errors == nil \x7b",
     "    x.Oneof = &" ++ parentTypeName ++ "_" ++ typeModel.Name ++ "\x7b" ++ typeModel.Name ++
       ": t\x7d",
     "  \x7d",
     "\x7d"]
  else
    [v ++ " := compiler.MapValueForKey(m, \"" ++ propertyName ++ "\")",
     "if (" ++ v ++ " != nil) \x7b",
     "  var err error",
     "  x." ++ fieldName ++ ", err = New" ++ typeModel.Name ++ "(" ++ v ++
       ", compiler.NewContext(\"" ++ propertyName ++ "\", context))",
     "  if err != nil \x7b",
     "    errors = append(errors, err)",
     "  \x7d",
     "\x7d"]

/-- The two lines that report a value of an unexpected type for `propertyName`. -/
def unexpectedValue (propertyName : String) (v : String) : List String :=
  ["    message := fmt.Sprintf(\"has unexpected value for " ++ propertyName ++ ": %+v\", " ++ v ++
     ")",
   "    errors = append(errors, compiler.NewError(context, message))"]

/-- The lines printed for a property of a scalar type read with the type assertion
`goType` (`string`, `float64`, `int64`). -/
def scalarProperty (fieldNumber : Nat) (propertyName : String) (fieldName : String)
    (goType : String) : List String :=
  let v := "v" ++ toString fieldNumber
  [v ++ " := compiler.MapValueForKey(m, \"" ++ propertyName ++ "\")",
   "if (" ++ v ++ " != nil) \x7b",
   "  x." ++ fieldName ++ ", ok = " ++ v ++ ".(" ++ goType ++ ")",
   "  if !ok \x7b"] ++
  unexpectedValue propertyName v ++
  ["  \x7d",
   "\x7d"]

/-- The lines printed for a property of type `string`. -/
def stringProperty (fieldNumber : Nat) (propertyModel : TypeProperty) (fieldName : String) :
    List String :=
  let propertyName := propertyModel.Name
  let v := "v" ++ toString fieldNumber
  if propertyModel.Repeated then
    [v ++ " := compiler.MapValueForKey(m, \"" ++ propertyName ++ "\")",
     "if (" ++ v ++ " != nil) \x7b",
     "  v, ok := " ++ v ++ ".([]interface\x7b\x7d)",
     "  if ok \x7b",
     "    x." ++ fieldName ++ " = compiler.ConvertInterfaceArrayToStringArray(v)",
     "  \x7d else \x7b"] ++
    unexpectedValue propertyName v ++
    ["\x7d",
     "\x7d"]
  else
    scalarProperty fieldNumber propertyName fieldName "string"

/-- The lines printed for a property of type `bool`. -/
def boolProperty (parentTypeName : String) (oneOfWrapper : Bool) (fieldNumber : Nat)
    (propertyName : String) (fieldName : String) : List String :=
  let v := "v" ++ toString fieldNumber
  [v ++ " := compiler.MapValueForKey(m, \"" ++ propertyName ++ "\")",
   "  if (" ++ v ++ " != nil) \x7b"] ++
  (if oneOfWrapper then
    let propertyName := "Boolean"
    ["  boolValue, ok := " ++ v ++ ".(bool)",
     "  if !ok \x7b"] ++
    unexpectedValue propertyName v ++
    ["  \x7d else \x7b",
     "    x.Oneof = &" ++ parentTypeName ++ "_" ++ propertyName ++ "\x7b" ++ propertyName ++
       ": boolValue\x7d",
     "  \x7d"]
  else
    ["  x." ++ fieldName ++ ", ok = " ++ v ++ ".(bool)",
     "  if !ok \x7b"] ++
    unexpectedValue propertyName v ++
    ["  \x7d"]) ++
  ["\x7d"]

/-- The lines printed for a property of any other type: a map property when
`MapType` is not empty. -/
def mapProperty (propertyType : String) (propertyModel : TypeProperty) (fieldName : String) :
    List String :=
  let mapTypeName := propertyModel.MapType
  if mapTypeName ≠ "" then
    ["// MAP: " ++ mapTypeName ++ " " ++ propertyModel.Pattern,
     if mapTypeName = "string" then "x." ++ fieldName ++ " = make([]*NamedString, 0)"
     else "x." ++ fieldName ++ " = make([]*Named" ++ mapTypeName ++ ", 0)",
     "for _, item := range m \x7b",
     "k, ok := item.Key.(string)",
     "if ok \x7b",
     "v := item.Value"] ++
    (if propertyModel.Pattern ≠ "" then
      ["if compiler.PatternMatches(\"" ++ propertyModel.Pattern ++ "\", k) \x7b"]
     else []) ++
    ["pair := &Named" ++ Title mapTypeName ++ "\x7b\x7d",
     "pair.Name = k"] ++
    (if mapTypeName = "string" then
      ["pair.Value = v.(string)"]
     else
      ["var err error",
       "pair.Value, err = New" ++ mapTypeName ++ "(v, compiler.NewContext(k, context))",
       "if err != nil \x7b",
       "  errors = append(errors, err)",
       "\x7d"]) ++
    ["x." ++ fieldName ++ " = append(x." ++ fieldName ++ ", pair)"] ++
    (if propertyModel.Pattern ≠ "" then ["\x7d"] else []) ++
    ["\x7d",
     "\x7d"]
  else
    ["// TODO: " ++ propertyType]

/-- The comment printed first for a property, with its type, its display name and
its field number. `camelCaseToSnakeCase` is a function of the generator that is
not part of the files embedded here. -/
def propertyComment (camelCaseToSnakeCase : String → String) (fieldNumber : Nat)
    (propertyModel : TypeProperty) : String :=
  let propertyName := propertyModel.Name
  let propertyType := propertyModel.Type_
  let propertyType := if propertyType = "int" then "int64" else propertyType
  let displayName := propertyName
  let displayName := if displayName = "$ref" then "_ref" else displayName
  let displayName := if displayName = "$schema" then "_schema" else displayName
  let displayName := camelCaseToSnakeCase displayName
  let line := propertyType ++ " " ++ displayName ++ " = " ++ toString fieldNumber ++ ";"
  let line := if propertyModel.Repeated then "repeated " ++ line else line
  "// " ++ line

/-- The body of the loop of `generateConstructorForType` over the properties of
the type, for the property with the field number `fieldNumber`. -/
def constructorProperty (camelCaseToSnakeCase : String → String) (domain : Domain)
    (parentTypeName : String) (oneOfWrapper : Bool) (fieldNumber : Nat)
    (propertyModel : TypeProperty) : List String :=
  let propertyName := propertyModel.Name
  let propertyType := propertyModel.Type_
  let propertyType := if propertyType = "int" then "int64" else propertyType
  let fieldName := Title propertyName
  let fieldName := if propertyName = "$ref" then "XRef" else fieldName
  [propertyComment camelCaseToSnakeCase fieldNumber propertyModel] ++
  -- typeModel, typeFound := domain.TypeModels[propertyType]
  match (domain.TypeModels.get propertyType).filter fun typeModel => !typeModel.IsPair with
  | some typeModel =>
    messageProperty parentTypeName oneOfWrapper fieldNumber propertyModel fieldName typeModel
  | none =>
    if propertyType = "string" then
      stringProperty fieldNumber propertyModel fieldName
    else if propertyType = "float" then
      scalarProperty fieldNumber propertyName fieldName "float64"
    else if propertyType = "int64" then
      scalarProperty fieldNumber propertyName fieldName "int64"
    else if propertyType = "bool" then
      boolProperty parentTypeName oneOfWrapper fieldNumber propertyName fieldName
    else
      mapProperty propertyType propertyModel fieldName

/-- The loop of `generateConstructorForType` over the properties of the type;
`fieldNumber` is the number of the properties handled before. -/
def constructorProperties (camelCaseToSnakeCase : String → String) (domain : Domain)
    (parentTypeName : String) (oneOfWrapper : Bool) : Nat → List TypeProperty → List String
  | _, [] => []
  | fieldNumber, propertyModel :: rest =>
    constructorProperty camelCaseToSnakeCase domain parentTypeName oneOfWrapper
        (fieldNumber + 1) propertyModel ++
      constructorProperties camelCaseToSnakeCase domain parentTypeName oneOfWrapper
        (fieldNumber + 1) rest

/-- The constructor body printed for any other type, which is read from a map;
`typeModel` is the type with its required names sorted. -/
def mapConstructor (camelCaseToSnakeCase : String → String) (domain : Domain)
    (typeName : String) (typeModel : TypeModel) : List String :=
  ["x := &" ++ typeName ++ "\x7b\x7d",
   "m, ok := compiler.UnpackMap(in)",
   "if !ok \x7b",
   "  message := fmt.Sprintf(\"has unexpected value: %+v\", in)",
   "  errors = append(errors, compiler.NewError(context, message))",
   "\x7d else \x7b"] ++
  (if typeModel.Required.length > 0 then requiredKeysCheck typeModel.Required else []) ++
  (if !typeModel.Open then allowedKeysCheck typeModel else []) ++
  constructorProperties camelCaseToSnakeCase domain typeName typeModel.OneOfWrapper 0
    typeModel.Properties ++
  ["\x7d"]

/-- The function `generateConstructorForType`. The type model is reached through
a pointer, and `sort.Strings(typeModel.Required)` sorts the required names of
the type model of the domain in place: the result is the domain after the call
with the code. The result is `none` when the domain has no type `typeName` (the
type model is `nil`). -/
def generateConstructorForType (camelCaseToSnakeCase : String → String) (domain : Domain)
    (code : Code) (typeName : String) : Option (Domain × Code) :=
  let code := code.Print ("func New" ++ typeName ++
    "(in interface\x7b\x7d, context *compiler.Context) (*" ++ typeName ++ ", error) \x7b")
  let code := code.Print "errors := make([]error, 0)"
  match domain.TypeModels.get typeName with
  | none => none
  | some typeModel =>
    let result : Domain × Code :=
      if typeModel.IsStringArray then
        (domain, code.PrintLines stringArrayConstructor)
      else if typeModel.IsItemArray then
        (domain, code.PrintLines itemArrayConstructor)
      else if typeModel.IsBlob then
        (domain, code.PrintLines blobConstructor)
      else if typeModel.Name = "StringArray" then
        (domain, code.PrintLines namedStringArrayConstructor)
      else
        -- sort.Strings(typeModel.Required)
        let typeModel :=
          if typeModel.Required.length > 0 then
            { typeModel with Required := sortStrings typeModel.Required }
          else typeModel
        let domain := { domain with TypeModels := domain.TypeModels.set typeName typeModel }
        (domain, code.PrintLines (mapConstructor camelCaseToSnakeCase domain typeName typeModel))
    -- assumes that the return value is in a variable named "x"
    let code := result.2.Print "  return x, compiler.NewErrorGroupOrNil(errors)"
    some (result.1, code.Print "\x7d\n")

/-- The body of the loop of `generateResolveReferencesMethodsForType` over the
properties of a type with `OneOfWrapper`. -/
def resolveAlternative (domain : Domain) (typeName : String) (propertyModel : TypeProperty) :
    List String :=
  let propertyType := propertyModel.Type_
  -- _, typeFound := domain.TypeModels[propertyType]
  if domain.TypeModels.contains propertyType then
    ["\x7b",
     "p, ok := m.Oneof.(*" ++ typeName ++ "_" ++ propertyType ++ ")",
     "if ok \x7b"] ++
    (if propertyType = "JsonReference" then -- Special case for OpenAPI
      ["info, err := p." ++ propertyType ++ ".ResolveReferences(root)",
       "if err != nil \x7b",
       "  return nil, err",
       "\x7d else if info != nil \x7b",
       "  n, err := New" ++ typeName ++ "(info, nil)",
       "  if err != nil \x7b",
       "    return nil, err",
       "  \x7d else if n != nil \x7b",
       "    *m = *n",
       "    return nil, nil",
       "  \x7d",
       "\x7d"]
     else
      ["p." ++ propertyType ++ ".ResolveReferences(root)"]) ++
    ["\x7d",
     "\x7d"]
  else
    []

/-- The lines printed for a property named `$ref` of a type without
`OneOfWrapper`. -/
def resolveReference (typeName : String) (typeModel : TypeModel) : List String :=
  ["if m.XRef != \"\" \x7b",
   "info := compiler.ReadInfoForRef(root, m.XRef)"] ++
  (if typeModel.Properties.length > 1 then
    ["if info != nil \x7b",
     "replacement, _ := New" ++ typeName ++ "(info, nil)",
     "*m = *replacement",
     "return m.ResolveReferences(root)",
     "\x7d"]
   else
    ["return info, nil"]) ++
  ["return info, nil",
   "\x7d"]

/-- The lines printed for the field of a property of a type without
`OneOfWrapper`: the call of `ResolveReferences` on the field, or on its items
when the property is repeated. -/
def resolveField (domain : Domain) (propertyModel : TypeProperty) (fieldName : String) :
    List String :=
  if !propertyModel.Repeated then
    let propertyType := propertyModel.Type_
    -- typeModel, typeFound := domain.TypeModels[propertyType]
    match (domain.TypeModels.get propertyType).filter fun typeModel => !typeModel.IsPair with
    | some _ =>
      ["if m." ++ fieldName ++ " != nil \x7b",
       "m." ++ fieldName ++ ".ResolveReferences(root)",
       "\x7d"]
    | none => []
  else
    let propertyType := propertyModel.Type_
    -- _, typeFound := domain.TypeModels[propertyType]
    if domain.TypeModels.contains propertyType then
      ["for _, item := range m." ++ fieldName ++ " \x7b",
       "if item != nil \x7b",
       "item.ResolveReferences(root)",
       "\x7d",
       "\x7d"]
    else
      []

/-- The body of the loop of `generateResolveReferencesMethodsForType` over the
properties of a type without `OneOfWrapper`. -/
def resolveProperty (domain : Domain) (typeName : String) (typeModel : TypeModel)
    (propertyModel : TypeProperty) : List String :=
  let propertyName := propertyModel.Name
  let fieldName := Title propertyName
  let fieldName := if propertyName = "$ref" then "XRef" else fieldName
  (if propertyName = "$ref" then resolveReference typeName typeModel else []) ++
  resolveField domain propertyModel fieldName

/-- The function `generateResolveReferencesMethodsForType`; `none` when the
domain has no type `typeName` (the type model is `nil`). -/
def generateResolveReferencesMethodsForType (domain : Domain) (code : Code)
    (typeName : String) : Option Code :=
  let code := code.Print ("func (m *" ++ typeName ++
    ") ResolveReferences(root string) (interface\x7b\x7d, error) \x7b")
  match domain.TypeModels.get typeName with
  | none => none
  | some typeModel =>
    let code :=
      if typeModel.OneOfWrapper then
        -- call ResolveReferences on whatever is in the Oneof.
        code.PrintLines
          (typeModel.Properties.flatMap fun propertyModel =>
            resolveAlternative domain typeName propertyModel)
      else
        code.PrintLines
          (typeModel.Properties.flatMap fun propertyModel =>
            resolveProperty domain typeName typeModel propertyModel)
    let code := code.Print "  return nil, nil"
    some (code.Print "\x7d\n")

end Domain

/-! ## Worlds for the reader -/

/-- A world with the local file `broken.yaml` and the network document
`http://example.com/broken.yaml`, both of three bytes that do not parse:
`yaml.Unmarshal` stores nothing and returns an error. -/
def brokenWorld : World :=
  { urlScheme := fun locator => if locator = "broken.yaml" then some "" else some "http"
    httpGet := fun locator =>
      if locator = "http://example.com/broken.yaml" then .ok ([58, 32, 58], none)
      else .error "not found"
    readFile := fun filename =>
      if filename = "broken.yaml" then .ok [58, 32, 58] else .error "no such file"
    unmarshal := fun _ => ([], some "yaml: did not find expected key") }

/-- A world with the network document `http://example.com/openapi.yaml`, whose
three bytes decode to `fooDocument`, and the local file `openapi.yaml` with the
same bytes; every other read fails. -/
def networkWorld : World :=
  { urlScheme := fun locator => if locator = "openapi.yaml" then some "" else some "http"
    httpGet := fun locator =>
      if locator = "http://example.com/openapi.yaml" then .ok ([102, 111, 111], none)
      else .error "not found"
    readFile := fun filename =>
      if filename = "openapi.yaml" then .ok [102, 111, 111] else .error "no such file"
    unmarshal := fun bytes => if bytes = [102, 111, 111] then (fooDocument, none) else ([], none) }

/-- The bytes cached for a locator, if any. -/
def Globals.fetched (globals : Globals) (locator : String) : Option Bytes :=
  (globals.file_cache.getD GoMap.empty).get locator

/-- What `ReadFile` returns for a network locator whose bytes have been fetched:
the decoded document, or no document and the error of the parser. -/
def World.decoded (world : World) (bytes : Bytes) : yaml.Value × Option String :=
  match (world.unmarshal bytes).2 with
  | none => (.map (world.unmarshal bytes).1, none)
  | some err => (.null, some err)

/-! ## The generated code in the words of the specification -/

/-- A list of strings in ascending order of Go's `<`: no string is less than one
before it. -/
def Ascending (names : List String) : Prop :=
  names.Pairwise fun a b => lessChars b.data a.data = false

/-- A key list of the generated code: the keys in double quotes, separated by
commas. -/
def quotedList (keys : List String) : String :=
  String.intercalate "," (keys.map fun k => "\"" ++ k ++ "\"")

/-- Whether a line of Go code is a `return` statement: after its indentation it
starts with `return `. -/
def isReturnStatement (line : String) : Bool :=
  (line.data.dropWhile fun c => c == ' ').take 7 == "return ".data

/-- Whether `generateConstructorForType` handles a type in its last branch, which
reads the value from a map: the type is no string array, item array or blob and
is not named `StringArray`. -/
def TypeModel.readFromMap (typeModel : TypeModel) : Bool :=
  !typeModel.IsStringArray && !typeModel.IsItemArray && !typeModel.IsBlob &&
    typeModel.Name != "StringArray"

/-- The type model after `sort.Strings(typeModel.Required)`. -/
def TypeModel.withSortedRequired (typeModel : TypeModel) : TypeModel :=
  { typeModel with Required := sortStrings typeModel.Required }

/-- The first two lines of a constructor. -/
def constructorHeader (typeName : String) : List String :=
  ["func New" ++ typeName ++ "(in interface\x7b\x7d, context *compiler.Context) (*" ++ typeName ++
     ", error) \x7b",
   "errors := make([]error, 0)"]

/-- The last two lines of a constructor. -/
def constructorFooter : List String :=
  ["  return x, compiler.NewErrorGroupOrNil(errors)", "\x7d\n"]

/-- The lines of a constructor that unpack the value into the map `m`, up to the
`else` branch in which the map is read. -/
def unpackMap (typeName : String) : List String :=
  ["x := &" ++ typeName ++ "\x7b\x7d",
   "m, ok := compiler.UnpackMap(in)",
   "if !ok \x7b",
   "  message := fmt.Sprintf(\"has unexpected value: %+v\", in)",
   "  errors = append(errors, compiler.NewError(context, message))",
   "\x7d else \x7b"]

/-- The missing-key check for the required keys `required`: the statement that
appends an error is the only one, and it is guarded by
`len(missingKeys) > 0`. -/
def missingKeyCheck (required : List String) : List String :=
  ["requiredKeys := []string\x7b" ++ quotedList required ++ "\x7d",
   "missingKeys := compiler.MissingKeysInMap(m, requiredKeys)",
   "if len(missingKeys) > 0 \x7b",
   "  message := fmt.Sprintf(\"is missing required %s: %+v\", " ++
     "compiler.PluralProperties(len(missingKeys)), strings.Join(missingKeys, \", \"))",
   "  errors = append(errors, compiler.NewError(context, message))",
   "\x7d"]

/-- The invalid-key check for the allowed keys `allowed` and the allowed patterns
`patterns`: the statement that appends an error is the only one, and it is
guarded by `len(invalidKeys) > 0`. -/
def invalidKeyCheck (allowed : List String) (patterns : List String) : List String :=
  ["allowedKeys := []string\x7b" ++ quotedList allowed ++ "\x7d",
   "allowedPatterns := []string\x7b" ++ quotedList patterns ++ "\x7d",
   "invalidKeys := compiler.InvalidKeysInMap(m, allowedKeys, allowedPatterns)",
   "if len(invalidKeys) > 0 \x7b",
   "  message := fmt.Sprintf(\"has invalid %s: %+v\", " ++
     "compiler.PluralProperties(len(invalidKeys)), strings.Join(invalidKeys, \", \"))",
   "  errors = append(errors, compiler.NewError(context, message))",
   "\x7d"]

/-- The names of the properties of a type that are not implicit, one for each
such property, in the order of the properties. -/
def TypeModel.declaredNames (typeModel : TypeModel) : List String :=
  (typeModel.Properties.filter fun property => !property.Implicit).map fun property =>
    property.Name

/-- The domain after `generateConstructorForType` has run for a type that it
reads from a map: the required names of the type are sorted. -/
def Domain.withSortedRequired (domain : Domain) (typeName : String) (typeModel : TypeModel) :
    Domain :=
  { domain with TypeModels := domain.TypeModels.set typeName typeModel.withSortedRequired }

/-- A schema that defines the object `pet`: three declared properties, two of
them required, and vendor extensions as a pattern property. -/
def petSchema : jsonschema.Schema :=
  jsonschema.documentSchema []
    [⟨"pet", .mk none (some ⟨none, some "object"⟩) none (some ["name", "id"])
        (some [⟨"id", jsonschema.typeSchema "integer"⟩,
               ⟨"name", jsonschema.typeSchema "string"⟩,
               ⟨"tags", jsonschema.arraySchema (jsonschema.typeSchema "string")⟩])
        (some [⟨"^x-", jsonschema.emptySchema⟩]) none none none none none⟩]

/-- The domain built for `petSchema`, with the name `vendorExtension` configured
for the pattern `^x-`. -/
def petDomain : Domain :=
  let domain := { NewDomain petSchema with PatternNames := catalogPatternNames }
  (domain.build []).getD domain

/-- The first line of a `ResolveReferences` method. -/
def resolveHeader (typeName : String) : String :=
  "func (m *" ++ typeName ++ ") ResolveReferences(root string) (interface\x7b\x7d, error) \x7b"

/-- The last two lines of a `ResolveReferences` method. -/
def resolveFooter : List String :=
  ["  return nil, nil", "\x7d\n"]

/-- Whether a line of Go code assigns to the receiver `*m`: after its indentation
it starts with `*m =`. -/
def isReceiverAssignment (line : String) : Bool :=
  (line.data.dropWhile fun c => c == ' ').take 4 == "*m =".data

/-- A schema that defines the objects `parameter` and `reference`, the second
with the one property `$ref`, and their union `parameterOrReference`. -/
def referenceSchema : jsonschema.Schema :=
  jsonschema.documentSchema []
    [⟨"parameter", jsonschema.objectSchema [⟨"name", jsonschema.typeSchema "string"⟩]⟩,
     ⟨"reference", jsonschema.objectSchema [⟨"$ref", jsonschema.typeSchema "string"⟩]⟩,
     ⟨"parameterOrReference", jsonschema.oneOfSchema
        [jsonschema.refSchema "#/definitions/parameter",
         jsonschema.refSchema "#/definitions/reference"]⟩]

/-- The domain built for `referenceSchema`. -/
def referenceDomain : Domain :=
  ((NewDomain referenceSchema).build []).getD (NewDomain referenceSchema)

/-- A schema that defines the objects `parameter`, with the properties `$ref` and
`name`, and `jsonReference`, with the one property `$ref`, and their union
`parameterOrReference`. -/
def jsonReferenceSchema : jsonschema.Schema :=
  jsonschema.documentSchema []
    [⟨"parameter", jsonschema.objectSchema
        [⟨"$ref", jsonschema.typeSchema "string"⟩, ⟨"name", jsonschema.typeSchema "string"⟩]⟩,
     ⟨"jsonReference", jsonschema.objectSchema [⟨"$ref", jsonschema.typeSchema "string"⟩]⟩,
     ⟨"parameterOrReference", jsonschema.oneOfSchema
        [jsonschema.refSchema "#/definitions/parameter",
         jsonschema.refSchema "#/definitions/jsonReference"]⟩]

/-- The domain built for `jsonReferenceSchema`. -/
def jsonReferenceDomain : Domain :=
  ((NewDomain jsonReferenceSchema).build []).getD (NewDomain jsonReferenceSchema)

/-- A schema in the manner of the JSON schema of JSON schemas: the object
`schema` has a property `items` that is a schema or an array of schemas, and a
property `type` that is a string or an array of strings. -/
def metaSchema : jsonschema.Schema :=
  jsonschema.documentSchema []
    [⟨"schema", jsonschema.objectSchema
        [⟨"items", jsonschema.anyOfSchema
            [jsonschema.refSchema "#/definitions/schema",
             jsonschema.arraySchema (jsonschema.refSchema "#/definitions/schema")]⟩,
         ⟨"type", jsonschema.anyOfSchema
            [jsonschema.typeSchema "string",
             jsonschema.arraySchema (jsonschema.typeSchema "string")]⟩]⟩]

/-- The domain built for `metaSchema`. -/
def metaDomain : Domain :=
  ((NewDomain metaSchema).build ["ItemsItem", "TypeItem"]).getD (NewDomain metaSchema)

/-- The `return` statements among the lines of a piece of Go code. -/
def returnStatements (lines : List String) : List String :=
  lines.filter isReturnStatement

/-! ## The alternatives of a `oneOf` wrapper at run time -/

/-- An alternative of a `oneOf` wrapper, as the generated constructor sees it: the
type `A` of the alternative, whose constructor is `NewA`, and the name of the
property. -/
structure OneOfAlternative where
  typeName : String
  propertyName : String

/-- The block of Go code that the constructor of the wrapper `parentTypeName` has
for an alternative. -/
def oneOfBlock (parentTypeName : String) (alternative : OneOfAlternative) : List String :=
  ["\x7b",
   "  // errors are ok here, they mean we just don't have the right subtype",
   "  t, safe_errors := New" ++ alternative.typeName ++ "(m, compiler.NewContext(\"" ++
     alternative.propertyName ++ "\", context))",
   "  if safe_errors == nil \x7b",
   "    x.Oneof = &" ++ parentTypeName ++ "_" ++ alternative.typeName ++ "\x7b" ++
     alternative.typeName ++ ": t\x7d",
   "  \x7d",
   "\x7d"]

/-- What the blocks of a constructor act on: the field `x.Oneof` of the instance,
which holds the populated alternative (here the name of its type) or nothing,
and the list `errors`. -/
structure Wrapper where
  Oneof : Option String
  errors : List String

/-- The run of the block of one alternative `A` on the map `m`. The statement
`t, safe_errors := NewA(m, ...)` calls the constructor of the alternative on the
whole map; `constructs A` tells whether it returns no error. The assignment
`x.Oneof = &T_A{A: t}` is under the one guard `safe_errors == nil`. The errors
of the alternative stay in `safe_errors`: nothing is appended to `errors`, and
no statement of the block leaves the constructor or skips the blocks after
it. -/
def runOneOfBlock (constructs : String → Bool) (x : Wrapper) (alternative : OneOfAlternative) :
    Wrapper :=
  if constructs alternative.typeName then { x with Oneof := some alternative.typeName } else x

/-- The run of the blocks of the alternatives, one after the other. -/
def runOneOfBlocks (constructs : String → Bool) (x : Wrapper)
    (alternatives : List OneOfAlternative) : Wrapper :=
  alternatives.foldl (runOneOfBlock constructs) x

/-- The first alternative whose constructor returns no error. -/
def firstConstructing (constructs : String → Bool) (alternatives : List OneOfAlternative) :
    Option String :=
  (alternatives.find? fun alternative => constructs alternative.typeName).map fun alternative =>
    alternative.typeName

/-- The last alternative whose constructor returns no error. -/
def lastConstructing (constructs : String → Bool) (alternatives : List OneOfAlternative) :
    Option String :=
  (alternatives.reverse.find? fun alternative => constructs alternative.typeName).map
    fun alternative => alternative.typeName

/-- The alternative that a property of a wrapper stands for: the type of the
domain that the property is of, under the name that the type has. -/
def Domain.alternativeOf (domain : Domain) (property : TypeProperty) : OneOfAlternative :=
  ⟨((domain.TypeModels.get property.Type_).map fun typeModel => typeModel.Name).getD "",
   property.Name⟩

/-- A message-typed alternative: a property that is not repeated and whose type
is a type of the domain that is not a pair type. -/
def Domain.isMessageAlternative (domain : Domain) (property : TypeProperty) : Bool :=
  !property.Repeated && property.Type_ != "int" &&
    ((domain.TypeModels.get property.Type_).filter fun typeModel => !typeModel.IsPair).isSome

/-- The code of the properties of a wrapper whose properties are message-typed
alternatives: for each property in order, the comment with its field number and
the block of the alternative. -/
def Domain.wrapperBlocks (camelCaseToSnakeCase : String → String) (domain : Domain)
    (parentTypeName : String) : Nat → List TypeProperty → List String
  | _, [] => []
  | fieldNumber, property :: rest =>
    Domain.propertyComment camelCaseToSnakeCase (fieldNumber + 1) property ::
      oneOfBlock parentTypeName (domain.alternativeOf property) ++
      Domain.wrapperBlocks camelCaseToSnakeCase domain parentTypeName (fieldNumber + 1) rest

/-! ## Map properties and pair types -/

/-- A top-level schema whose paths, the keys matching `^/`, are of the defined
object type `pathItem`. -/
def pathsSchema : jsonschema.Schema :=
  .mk none (some ⟨none, some "object"⟩) none none none
    (some [⟨"^/", jsonschema.refSchema "#/definitions/pathItem"⟩])
    none none none none
    (some [⟨"pathItem", jsonschema.objectSchema [⟨"summary", jsonschema.typeSchema "string"⟩]⟩])

/-- A fresh domain for `pathsSchema` with the given prefix and the name `path`
configured for the pattern `^/`. -/
def pathsDomain (typePrefix : String) : Domain :=
  { NewDomain pathsSchema with
    Prefix := typePrefix
    PatternNames := GoMap.empty.set "^/" "path" }

/-- The map properties of a domain: for each property with a map type, its type
and its map type. -/
def mapPropertiesOf (domain : Domain) : List (String × String) :=
  domain.TypeModels.values.flatMap fun typeModel =>
    (typeModel.Properties.filter fun property => property.MapType != "").map fun property =>
      (property.Type_, property.MapType)

/-! ## Documents with duplicate keys -/

/-- The document `{a: {a: inner}, a: last}`, whose key `a` occurs twice. -/
def duplicateDocument : List (yaml.MapItem yaml.Value) :=
  [⟨.str "a", .map [⟨.str "a", .str "inner"⟩]⟩, ⟨.str "a", .str "last"⟩]

/-- The document `{a: first, a: {a: inner}}`, whose key `a` occurs twice. -/
def nestedDuplicateDocument : List (yaml.MapItem yaml.Value) :=
  [⟨.str "a", .str "first"⟩, ⟨.str "a", .map [⟨.str "a", .str "inner"⟩]⟩]

/-! ## Anonymous types of properties with the same name -/

/-- A schema that defines the object `node`: its property `kind` is a string or an
array of strings, and its property `children` is a node or an array of nodes. -/
def nodeSchema : jsonschema.Schema :=
  jsonschema.documentSchema []
    [⟨"node", jsonschema.objectSchema
        [⟨"kind", jsonschema.anyOfSchema
            [jsonschema.typeSchema "string",
             jsonschema.arraySchema (jsonschema.typeSchema "string")]⟩,
         ⟨"children", jsonschema.anyOfSchema
            [jsonschema.refSchema "#/definitions/node",
             jsonschema.arraySchema (jsonschema.refSchema "#/definitions/node")]⟩]⟩]

/-- The domain built for `nodeSchema`. -/
def nodeDomain : Domain :=
  ((NewDomain nodeSchema).build ["KindItem", "ChildrenItem"]).getD (NewDomain nodeSchema)

/-- The line of a constructor that allocates the instance `x`, by the branch of
`generateConstructorForType` that handles the type. -/
def allocationLine (typeName : String) (typeModel : TypeModel) : String :=
  if typeModel.IsStringArray then "x := &TypeItem\x7b\x7d"
  else if typeModel.IsItemArray then "x := &ItemsItem\x7b\x7d"
  else if typeModel.IsBlob then "x := &Any\x7b\x7d"
  else if typeModel.Name = "StringArray" then "x := &StringArray\x7b\x7d"
  else "x := &" ++ typeName ++ "\x7b\x7d"

/-! # Theorems -/

/-! ## Strings -/

theorem splitChars_ne_nil (sep : Char) (cs : List Char) : splitChars sep cs ≠ [] := by
  cases cs with
  | nil => simp [splitChars]
  | cons c cs =>
    simp only [splitChars]
    split
    · simp
    · split <;> simp

theorem splitChars_head (sep : Char) (cs : List Char) :
    (splitChars sep cs).head? = some (cs.takeWhile fun c => c != sep) := by
  induction cs with
  | nil => simp [splitChars]
  | cons c cs ih =>
    by_cases h : c = sep
    · simp [splitChars, h]
    · cases hs : splitChars sep cs with
      | nil => exact absurd hs (splitChars_ne_nil sep cs)
      | cons p ps =>
        simp only [hs, List.head?_cons, Option.some.injEq] at ih
        simp [splitChars, h, hs, List.takeWhile_cons, ih]

theorem splitChars_of_not_mem (sep : Char) (cs : List Char) (h : sep ∉ cs) :
    splitChars sep cs = [cs] := by
  induction cs with
  | nil => simp [splitChars]
  | cons c cs ih =>
    have hc : ¬ c = sep := fun e => h (by simp [e])
    have hcs : sep ∉ cs := fun e => h (by simp [e])
    simp [splitChars, hc, ih hcs]

theorem not_mem_of_splitChars_singleton (sep : Char) (cs p : List Char)
    (h : splitChars sep cs = [p]) : sep ∉ cs := by
  induction cs generalizing p with
  | nil => simp
  | cons c cs ih =>
    by_cases hc : c = sep
    · simp [splitChars, hc, splitChars_ne_nil] at h
    · cases hs : splitChars sep cs with
      | nil => exact absurd hs (splitChars_ne_nil sep cs)
      | cons q qs =>
        simp only [splitChars, hc, hs, if_false, List.cons.injEq] at h
        have hq : sep ∉ cs := ih q (by rw [hs, h.2])
        simp only [List.mem_cons, not_or]
        exact ⟨fun e => hc e.symm, hq⟩

theorem takeWhile_append_of_exists {α : Type} (p : α → Bool) (l m : List α)
    (h : ∃ x ∈ l, p x = false) : (l ++ m).takeWhile p = l.takeWhile p := by
  induction l with
  | nil => simp at h
  | cons x l ih =>
    by_cases hx : p x = true
    · have h2 : ∃ y ∈ l, p y = false := by
        obtain ⟨y, hy, hpy⟩ := h
        rcases List.mem_cons.mp hy with e | e
        · rw [e, hx] at hpy; exact absurd hpy (by simp)
        · exact ⟨y, e, hpy⟩
      simp [List.takeWhile_cons, hx, ih h2]
    · simp [List.takeWhile_cons, hx]

theorem takeWhile_append_of_forall {α : Type} (p : α → Bool) (l m : List α)
    (h : ∀ x ∈ l, p x = true) : (l ++ m).takeWhile p = l ++ m.takeWhile p := by
  induction l with
  | nil => simp
  | cons x l ih =>
    have hx : p x = true := h x (by simp)
    have hl : ∀ y ∈ l, p y = true := fun y hy => h y (by simp [hy])
    simp [List.takeWhile_cons, hx, ih hl]

theorem splitChars_getLast (sep : Char) (cs : List Char) :
    (splitChars sep cs).getLast? = some (cs.reverse.takeWhile fun c => c != sep).reverse := by
  induction cs with
  | nil => simp [splitChars]
  | cons c cs ih =>
    by_cases hmem : sep ∈ cs
    · -- the last segment lies within `cs`
      have hrev : ((c :: cs).reverse.takeWhile fun x => x != sep) =
          cs.reverse.takeWhile fun x => x != sep := by
        rw [List.reverse_cons]
        exact takeWhile_append_of_exists _ _ _ ⟨sep, by simpa using hmem, by simp⟩
      rw [hrev, ← ih]
      cases hs : splitChars sep cs with
      | nil => exact absurd hs (splitChars_ne_nil sep cs)
      | cons p ps =>
        by_cases h : c = sep
        · simp [splitChars, h, hs, List.getLast?_cons_cons]
        · cases ps with
          | nil =>
            exact absurd hmem (not_mem_of_splitChars_singleton sep cs p hs)
          | cons q qs => simp [splitChars, h, hs, List.getLast?_cons_cons]
    · have hc : sep ∉ c :: cs ∨ c = sep := by
        by_cases h : c = sep
        · exact Or.inr h
        · exact Or.inl (by simp [hmem, Ne.symm h])
      have hall : ∀ x ∈ cs.reverse, (x != sep) = true := by
        intro x hx
        have : x ∈ cs := by simpa using hx
        simp only [bne_iff_ne, ne_eq]
        intro e
        exact hmem (e ▸ this)
      rw [List.reverse_cons, takeWhile_append_of_forall _ _ _ hall]
      by_cases h : c = sep
      · simp [splitChars, h, splitChars_of_not_mem sep cs hmem, List.takeWhile_cons]
      · simp [splitChars, h, splitChars_of_not_mem sep cs hmem, List.takeWhile_cons]

theorem splitSlash_headD (reference : String) :
    (splitSlash reference).headD "" = firstSegment reference := by
  simp [splitSlash, firstSegment, List.headD_eq_head?_getD, List.head?_map, splitChars_head]

theorem splitSlash_getLastD (reference : String) :
    (splitSlash reference).getLastD "" = lastSegment reference := by
  simp [splitSlash, lastSegment, List.getLastD_eq_getLast?, List.getLast?_map,
    splitChars_getLast]

theorem upperFirst_eq_capitalize (stub : String) (h : stub ≠ "") :
    upperFirst stub = some (Capitalize stub) := by
  cases hd : stub.data with
  | nil =>
    exfalso
    apply h
    cases stub
    simp_all
  | cons c cs =>
    simp only [upperFirst, Capitalize, hd]
    rfl

/-! ## Naming -/

theorem typeNameForReference_eq (domain : Domain) (reference : String) :
    domain.typeNameForReference reference =
      if firstSegment reference = "#" then domain.typeNameForStub (lastSegment reference)
      else some "Schema" := by
  simp only [Domain.typeNameForReference, splitSlash_headD, splitSlash_getLastD]

theorem propertyNameForReference_eq (domain : Domain) (reference : String) :
    domain.propertyNameForReference reference =
      if firstSegment reference = "#" then some (lastSegment reference) else none := by
  simp only [Domain.propertyNameForReference, splitSlash_headD, splitSlash_getLastD]

/-- The naming rule byte by byte: when the first segment of the reference is
`#` and its last segment starts with an ASCII byte, `typeNameForReference`
returns the prefix followed by the last segment with a first letter `a` to `z`
upper-cased; when the last segment starts with a byte from 0x80 on, that byte is
replaced by the three bytes EF BF BD and the rest is unchanged; when the first
segment is not `#`, the result is the fixed name `Schema`, whatever the
prefix. -/
theorem typeNameForReference_bytes (domain : Domain) (reference : String) :
    (firstSegment reference = "#" → ∀ c cs, (lastSegment reference).data = c :: cs →
      c.toNat < 128 →
      domain.typeNameForReference reference =
        some (domain.Prefix ++ String.mk (c.toUpper :: cs))) ∧
    (firstSegment reference = "#" → ∀ c cs, (lastSegment reference).data = c :: cs →
      128 ≤ c.toNat →
      domain.typeNameForReference reference =
        some (domain.Prefix ++
          String.mk (Char.ofNat 0xEF :: Char.ofNat 0xBF :: Char.ofNat 0xBD :: cs))) ∧
    (firstSegment reference ≠ "#" → domain.typeNameForReference reference = some "Schema") := by
  rw [typeNameForReference_eq]
  refine ⟨?_, ?_, ?_⟩
  · intro hfirst c cs hlast hc
    simp only [hfirst, if_true, Domain.typeNameForStub, upperFirst, hlast, toUpperByte, hc]
    rfl
  · intro hfirst c cs hlast hc
    simp only [hfirst, if_true, Domain.typeNameForStub, upperFirst, hlast, toUpperByte,
      Nat.not_lt.mpr hc, if_false]
    rfl
  · intro hfirst
    simp [hfirst]

/-- C4 fails on the code for a name that does not start with an ASCII
character. For the reference `#/definitions/école`, where the name `école` is
the bytes C3 A9 63 6F 6C 65, the first segment is `#` and the last segment is
the name, and under the prefix `OpenAPI` `typeNameForReference` returns
`OpenAPI` followed by the bytes EF BF BD A9 63 6F 6C 65: the lead byte of `é` is
replaced by the encoding of U+FFFD and its second byte is left behind. That is
not `OpenAPIÉcole` (`É` is the bytes C3 89), the prefix followed by the name
with its first character upper-cased. `build` gives the definition `école` of a
schema and the property that refers to it that type name. -/
theorem typeNameForReference_first_byte :
    firstSegment "#/definitions/\xc3\xa9cole" = "#" ∧
    lastSegment "#/definitions/\xc3\xa9cole" = "\xc3\xa9cole" ∧
    { NewDomain jsonschema.emptySchema with Prefix := "OpenAPI" }.typeNameForReference
        "#/definitions/\xc3\xa9cole" = some "OpenAPI\xef\xbf\xbd\xa9cole" ∧
    "OpenAPI\xef\xbf\xbd\xa9cole" ≠ "OpenAPI\xc3\x89cole" ∧
    ((NewDomain accentedSchema).build []).map (fun final : Domain => final.TypeModels.keys) =
      some ["Document", "\xef\xbf\xbd\xa9cole", "StringArray", "Any"] ∧
    ((NewDomain accentedSchema).build []).bind (fun final => propertiesOf final "Document") =
      some [("school", "\xef\xbf\xbd\xa9cole")] := by
  refine ⟨by decide, by decide, by decide, by decide, ?_, ?_⟩
  · rfl
  · rfl

/-! ## Loops -/

theorem forEach_eq_foldl {σ α : Type} (body : σ → α → Option σ) (step : σ → α → σ)
    (l : List α) (state : σ) (h : ∀ s, ∀ a ∈ l, body s a = some (step s a)) :
    forEach body state l = some (l.foldl step state) := by
  induction l generalizing state with
  | nil => rfl
  | cons a l ih =>
    have hl : ∀ s, ∀ b ∈ l, body s b = some (step s b) := fun s b hb => h s b (by simp [hb])
    simp [forEach, h state a (by simp), ih _ hl]

theorem forEach_append {σ α : Type} (body : σ → α → Option σ) (l m : List α) (state : σ) :
    forEach body state (l ++ m) =
      (forEach body state l).bind fun next => forEach body next m := by
  induction l generalizing state with
  | nil => simp [forEach]
  | cons a l ih =>
    simp only [List.cons_append, forEach]
    cases body state a with
    | none => simp
    | some next => simpa using ih next

theorem foldl_AddProperty {α : Type} (property : α → TypeProperty) (l : List α)
    (typeModel : TypeModel) :
    l.foldl (fun model a => model.AddProperty (property a)) typeModel =
      { typeModel with Properties := typeModel.Properties ++ l.map property } := by
  induction l generalizing typeModel with
  | nil => simp
  | cons a l ih =>
    rw [List.foldl_cons, ih]
    simp [TypeModel.AddProperty]

/-! ## Unions -/

theorem typeNameForReference_local (domain : Domain) (ref : String)
    (h : isLocalReference ref = true) :
    domain.typeNameForReference ref = some (domain.Prefix ++ Capitalize (lastSegment ref)) := by
  simp only [isLocalReference, Bool.and_eq_true, decide_eq_true_eq, bne_iff_ne, ne_eq] at h
  simp [typeNameForReference_eq, h.1, Domain.typeNameForStub, upperFirst_eq_capitalize _ h.2]

theorem propertyNameForReference_local (domain : Domain) (ref : String)
    (h : isLocalReference ref = true) :
    domain.propertyNameForReference ref = some (lastSegment ref) := by
  simp only [isLocalReference, Bool.and_eq_true, decide_eq_true_eq] at h
  simp [propertyNameForReference_eq, h.1]

theorem buildOneOfAccessor_eq (domain : Domain) (typeModel : TypeModel)
    (oneOf : jsonschema.Schema)
    (h : isLocalReferenceSchema oneOf = true ∨ isBooleanSchema oneOf = true) :
    domain.buildOneOfAccessor typeModel oneOf =
      some (typeModel.AddProperty (alternativeProperty domain oneOf)) := by
  cases href : oneOf.Ref with
  | some ref =>
    have hlocal : isLocalReference ref = true := by
      rcases h with h | h
      · simpa [isLocalReferenceSchema, href] using h
      · simp [isBooleanSchema, href] at h
    simp [Domain.buildOneOfAccessor, href, typeNameForReference_local _ _ hlocal,
      propertyNameForReference_local _ _ hlocal, alternativeProperty,
      NewTypePropertyWithNameAndType, NewTypeProperty]
  | none =>
    have hbool : (oneOf.Type_.bind fun type => type.String) = some "boolean" := by
      rcases h with h | h
      · simp [isLocalReferenceSchema, href] at h
      · simpa [isBooleanSchema, href] using h
    simp [Domain.buildOneOfAccessor, href, hbool, alternativeProperty,
      NewTypePropertyWithNameAndType, NewTypeProperty]

/-- C6 as amended, oneOf derivation: for every schema whose oneOf list is present
and whose alternatives are each a local reference (first segment `#`, last
segment not empty) or a boolean-typed schema, `buildOneOfAccessors` sets `Open`
and `OneOfWrapper` to true and appends exactly one non-repeated property per
alternative, in order: a reference alternative yields a property named by the
last segment of the reference, of the type `typeNameForReference` gives the
reference; a boolean alternative yields the property `boolean` of type `bool`.
Nothing else of the type model changes. -/
theorem buildOneOfAccessors_local (domain : Domain) (typeModel : TypeModel)
    (schema : jsonschema.Schema) (oneOfs : List jsonschema.Schema)
    (hone : schema.OneOf = some oneOfs)
    (halt : ∀ oneOf ∈ oneOfs,
      isLocalReferenceSchema oneOf = true ∨ isBooleanSchema oneOf = true) :
    domain.buildOneOfAccessors typeModel schema =
      some { typeModel with
        Open := true
        OneOfWrapper := true
        Properties := typeModel.Properties ++ oneOfs.map (alternativeProperty domain) } ∧
    (∀ oneOf ∈ oneOfs, ∀ ref, oneOf.Ref = some ref →
      domain.typeNameForReference ref = some (alternativeProperty domain oneOf).Type_ ∧
      (alternativeProperty domain oneOf).Name = lastSegment ref ∧
      (alternativeProperty domain oneOf).Repeated = false) ∧
    (∀ oneOf ∈ oneOfs, isBooleanSchema oneOf = true →
      (alternativeProperty domain oneOf).Name = "boolean" ∧
      (alternativeProperty domain oneOf).Type_ = "bool" ∧
      (alternativeProperty domain oneOf).Repeated = false) := by
  refine ⟨?_, ?_, ?_⟩
  · simp only [Domain.buildOneOfAccessors, hone]
    rw [forEach_eq_foldl _ (fun model a => model.AddProperty (alternativeProperty domain a))
      _ _ (fun s a ha => buildOneOfAccessor_eq domain s a (halt a ha)), foldl_AddProperty]
  · intro oneOf hmem ref href
    have hlocal : isLocalReference ref = true := by
      rcases halt oneOf hmem with h | h
      · simpa [isLocalReferenceSchema, href] using h
      · simp [isBooleanSchema, href] at h
    simp [alternativeProperty, href, typeNameForReference_local _ _ hlocal]
  · intro oneOf _ hbool
    have href : oneOf.Ref = none := by
      simp only [isBooleanSchema, Bool.and_eq_true, Option.isNone_iff_eq_none] at hbool
      exact hbool.1
    simp [alternativeProperty, href]

/-- C6 as amended, at the union of the reference `#/definitions/parameter` and a
boolean, under the prefix `OpenAPI`. -/
theorem buildOneOfAccessors_local_witness :
    ({ NewDomain jsonschema.emptySchema with Prefix := "OpenAPI" }.buildOneOfAccessors
        NewTypeModel
        (jsonschema.oneOfSchema
          [jsonschema.refSchema "#/definitions/parameter", jsonschema.typeSchema "boolean"])).map
      (fun typeModel : TypeModel => (typeModel.Open, typeModel.OneOfWrapper,
        typeModel.Properties.map fun property : TypeProperty =>
          (property.Name, property.Type_, property.Repeated))) =
      some (true, true,
        [("parameter", "OpenAPIParameter", false), ("boolean", "bool", false)]) := by
  rw [(buildOneOfAccessors_local { NewDomain jsonschema.emptySchema with Prefix := "OpenAPI" }
    NewTypeModel
    (jsonschema.oneOfSchema
      [jsonschema.refSchema "#/definitions/parameter", jsonschema.typeSchema "boolean"])
    [jsonschema.refSchema "#/definitions/parameter", jsonschema.typeSchema "boolean"]
    rfl (by decide)).1]
  decide

/-- C6 fails for a reference that is not local: the oneOf list of the schema has
one alternative, the reference `other.json#/definitions/parameter`, and
`buildOneOfAccessors` appends no property for it. -/
theorem buildOneOfAccessors_nonlocal_reference :
    ((NewDomain jsonschema.emptySchema).buildOneOfAccessors NewTypeModel
        (jsonschema.oneOfSchema
          [jsonschema.refSchema "other.json#/definitions/parameter"])).map
      (fun typeModel : TypeModel => typeModel.Properties) = some [] := by
  decide

theorem schemaIsContainedInArray_of_isArrayOf (s1 s2 : jsonschema.Schema)
    (h : isArrayOf s2 s1 = true) : schemaIsContainedInArray s1 s2 = some true := by
  simp only [isArrayOf, Bool.and_eq_true] at h
  obtain ⟨harray, hitems⟩ := h
  cases hi : s2.Items with
  | none => simp [hi] at hitems
  | some items =>
    cases hs : items.Schema with
    | none => simp [hi, hs] at hitems
    | some itemSchema =>
      simp only [hi, hs, Option.some_bind] at hitems
      simp [schemaIsContainedInArray, harray, hi, hs, hitems]

theorem schemaIsContainedInArray_of_not_isArrayOf (s1 s2 : jsonschema.Schema)
    (h : isArrayOf s2 s1 = false) (hitems : s2.TypeIs "array" = true → s2.Items.isSome = true) :
    schemaIsContainedInArray s1 s2 = some false := by
  by_cases harray : s2.TypeIs "array" = true
  · cases hi : s2.Items with
    | none => simp [hi] at hitems; exact absurd harray (by simpa using hitems)
    | some items =>
      cases hs : items.Schema with
      | none => simp [schemaIsContainedInArray, harray, hi, hs]
      | some itemSchema =>
        simp only [isArrayOf, harray, hi, hs, Option.some_bind, Bool.true_and] at h
        simp [schemaIsContainedInArray, harray, hi, hs, h]
  · simp [schemaIsContainedInArray, harray]

theorem addAnonymousAccessorForSchema_eq (domain : Domain) (typeModel : TypeModel)
    (schema : jsonschema.Schema) (repeated : Bool)
    (href : schema.Ref = none ∨ isLocalReferenceSchema schema = true) :
    domain.addAnonymousAccessorForSchema typeModel schema repeated =
      some { typeModel with
        Properties := typeModel.Properties ++ [collapsedProperty domain schema]
        IsItemArray := typeModel.IsItemArray || schema.Ref.isSome
        IsStringArray := typeModel.IsStringArray || schema.Ref.isNone } := by
  cases hr : schema.Ref with
  | none =>
    simp [Domain.addAnonymousAccessorForSchema, hr, collapsedProperty, TypeModel.AddProperty,
      NewTypePropertyWithNameAndType, NewTypeProperty]
  | some ref =>
    have hlocal : isLocalReference ref = true := by
      rcases href with h | h
      · simp [hr] at h
      · simpa [isLocalReferenceSchema, hr] using h
    simp [Domain.addAnonymousAccessorForSchema, hr, collapsedProperty, TypeModel.AddProperty,
      NewTypePropertyWithNameAndType, NewTypeProperty, typeNameForReference_local _ _ hlocal,
      propertyNameForReference_local _ _ hlocal]

/-- C7 as amended, anyOf array collapse: for every schema whose anyOf has exactly
two alternatives where one is of type array with a single items schema equal to
the other alternative `element`, `element` being a local reference (first
segment `#`, last segment not empty) or not a reference (and, when it is the
first alternative that is the array, the second is not in turn an array of the
first nor an array type without items), `buildAnyOfAccessors` appends exactly one
property to the TypeModel, that property has `Repeated = true`, and it sets
`IsItemArray` when `element` is a reference and `IsStringArray` when it is not,
leaving the other flag and everything else as it was. -/
theorem buildAnyOfAccessors_array_collapse (domain : Domain) (typeModel : TypeModel)
    (schema first second element : jsonschema.Schema)
    (hany : schema.AnyOf = some [first, second])
    (hcase : (isArrayOf second first = true ∧ element = first) ∨
      (isArrayOf first second = true ∧ element = second ∧ isArrayOf second first = false ∧
        (second.TypeIs "array" = true → second.Items.isSome = true)))
    (href : element.Ref = none ∨ isLocalReferenceSchema element = true) :
    domain.buildAnyOfAccessors typeModel schema =
      some { typeModel with
        Properties := typeModel.Properties ++ [collapsedProperty domain element]
        IsItemArray := typeModel.IsItemArray || element.Ref.isSome
        IsStringArray := typeModel.IsStringArray || element.Ref.isNone } ∧
    (collapsedProperty domain element).Repeated = true := by
  constructor
  · rcases hcase with ⟨h1, rfl⟩ | ⟨h1, rfl, h2, h3⟩
    · simp only [Domain.buildAnyOfAccessors, hany, schemaIsContainedInArray_of_isArrayOf _ _ h1]
      exact addAnonymousAccessorForSchema_eq domain typeModel _ true href
    · simp only [Domain.buildAnyOfAccessors, hany,
        schemaIsContainedInArray_of_not_isArrayOf _ _ h2 h3,
        schemaIsContainedInArray_of_isArrayOf _ _ h1]
      exact addAnonymousAccessorForSchema_eq domain typeModel _ true href
  · cases hr : element.Ref <;> simp [collapsedProperty, hr]

/-- C7 as amended, at the union of a string and an array of strings, and at the
union of an array of `#/definitions/parameter` and that reference. -/
theorem buildAnyOfAccessors_array_collapse_witness :
    ((NewDomain jsonschema.emptySchema).buildAnyOfAccessors NewTypeModel
        (jsonschema.anyOfSchema [jsonschema.typeSchema "string",
          jsonschema.arraySchema (jsonschema.typeSchema "string")])).map
      (fun typeModel : TypeModel =>
        (typeModel.Properties, typeModel.IsItemArray, typeModel.IsStringArray)) =
      some ([{ NewTypePropertyWithNameAndType "value" "string" with Repeated := true }],
        false, true) ∧
    ((NewDomain jsonschema.emptySchema).buildAnyOfAccessors NewTypeModel
        (jsonschema.anyOfSchema
          [jsonschema.arraySchema (jsonschema.refSchema "#/definitions/parameter"),
           jsonschema.refSchema "#/definitions/parameter"])).map
      (fun typeModel : TypeModel =>
        (typeModel.Properties, typeModel.IsItemArray, typeModel.IsStringArray)) =
      some ([{ NewTypePropertyWithNameAndType "parameter" "Parameter" with Repeated := true }],
        true, false) := by
  constructor
  · rw [(buildAnyOfAccessors_array_collapse (NewDomain jsonschema.emptySchema) NewTypeModel
      (jsonschema.anyOfSchema [jsonschema.typeSchema "string",
        jsonschema.arraySchema (jsonschema.typeSchema "string")])
      (jsonschema.typeSchema "string") (jsonschema.arraySchema (jsonschema.typeSchema "string"))
      (jsonschema.typeSchema "string") rfl (Or.inl ⟨by decide, rfl⟩) (Or.inl rfl)).1]
    decide
  · rw [(buildAnyOfAccessors_array_collapse (NewDomain jsonschema.emptySchema) NewTypeModel
      (jsonschema.anyOfSchema
        [jsonschema.arraySchema (jsonschema.refSchema "#/definitions/parameter"),
         jsonschema.refSchema "#/definitions/parameter"])
      (jsonschema.arraySchema (jsonschema.refSchema "#/definitions/parameter"))
      (jsonschema.refSchema "#/definitions/parameter")
      (jsonschema.refSchema "#/definitions/parameter") rfl
      (Or.inr ⟨by decide, rfl, by decide, by decide⟩) (Or.inr (by decide))).1]
    decide

/-- C7 fails when the element is a reference that is not local: the anyOf of the
schema is the reference `other.json#/definitions/parameter` and an array of it,
and `buildAnyOfAccessors` appends no property and sets neither `IsItemArray` nor
`IsStringArray`. -/
theorem buildAnyOfAccessors_array_collapse_nonlocal :
    isArrayOf (jsonschema.arraySchema (jsonschema.refSchema "other.json#/definitions/parameter"))
      (jsonschema.refSchema "other.json#/definitions/parameter") = true ∧
    ((NewDomain jsonschema.emptySchema).buildAnyOfAccessors NewTypeModel
        (jsonschema.anyOfSchema [jsonschema.refSchema "other.json#/definitions/parameter",
          jsonschema.arraySchema
            (jsonschema.refSchema "other.json#/definitions/parameter")])).map
      (fun typeModel : TypeModel =>
        (typeModel.Properties, typeModel.IsItemArray, typeModel.IsStringArray)) =
      some ([], false, false) := by
  decide

theorem buildAnyOfAccessor_eq (domain : Domain) (typeModel : TypeModel)
    (anyOf : jsonschema.Schema)
    (h : anyOf.Ref = none ∨ isLocalReferenceSchema anyOf = true) :
    domain.buildAnyOfAccessor typeModel anyOf =
      some (typeModel.AddProperty (alternativeProperty domain anyOf)) := by
  cases href : anyOf.Ref with
  | some ref =>
    have hlocal : isLocalReference ref = true := by
      rcases h with h | h
      · simp [href] at h
      · simpa [isLocalReferenceSchema, href] using h
    simp [Domain.buildAnyOfAccessor, href, typeNameForReference_local _ _ hlocal,
      propertyNameForReference_local _ _ hlocal, alternativeProperty,
      NewTypePropertyWithNameAndType, NewTypeProperty]
  | none =>
    simp [Domain.buildAnyOfAccessor, href, alternativeProperty,
      NewTypePropertyWithNameAndType, NewTypeProperty]

/-- C8 as amended, anyOf pair of alternatives: for every schema whose anyOf has
exactly two alternatives, neither being an array of the other and neither being
an array type without items, each of them a local reference (first segment `#`,
last segment not empty) or a schema without `$ref`, `buildAnyOfAccessors`
appends exactly two non-repeated properties, one per alternative in order: a
reference alternative gives a property named by the last segment of the
reference, of the type `typeNameForReference` gives the reference, and an
alternative without `$ref`, a boolean one in particular, gives the property
`boolean` of type `bool`. Nothing else of the type model changes. -/
theorem buildAnyOfAccessors_pair (domain : Domain) (typeModel : TypeModel)
    (schema first second : jsonschema.Schema)
    (hany : schema.AnyOf = some [first, second])
    (hfirst : isArrayOf first second = false) (hsecond : isArrayOf second first = false)
    (hfirstItems : first.TypeIs "array" = true → first.Items.isSome = true)
    (hsecondItems : second.TypeIs "array" = true → second.Items.isSome = true)
    (halt : ∀ anyOf ∈ [first, second],
      anyOf.Ref = none ∨ isLocalReferenceSchema anyOf = true) :
    domain.buildAnyOfAccessors typeModel schema =
      some { typeModel with
        Properties := typeModel.Properties ++
          [alternativeProperty domain first, alternativeProperty domain second] } ∧
    (∀ anyOf ∈ [first, second], ∀ ref, anyOf.Ref = some ref →
      domain.typeNameForReference ref = some (alternativeProperty domain anyOf).Type_ ∧
      (alternativeProperty domain anyOf).Name = lastSegment ref ∧
      (alternativeProperty domain anyOf).Repeated = false) ∧
    (∀ anyOf ∈ [first, second], anyOf.Ref = none →
      (alternativeProperty domain anyOf).Name = "boolean" ∧
      (alternativeProperty domain anyOf).Type_ = "bool" ∧
      (alternativeProperty domain anyOf).Repeated = false) := by
  refine ⟨?_, ?_, ?_⟩
  · simp only [Domain.buildAnyOfAccessors, hany,
      schemaIsContainedInArray_of_not_isArrayOf _ _ hsecond hsecondItems,
      schemaIsContainedInArray_of_not_isArrayOf _ _ hfirst hfirstItems]
    rw [forEach_eq_foldl _ (fun model a => model.AddProperty (alternativeProperty domain a))
      _ _ (fun s a ha => buildAnyOfAccessor_eq domain s a (halt a ha)), foldl_AddProperty]
    simp
  · intro anyOf hmem ref href
    have hlocal : isLocalReference ref = true := by
      rcases halt anyOf hmem with h | h
      · simp [href] at h
      · simpa [isLocalReferenceSchema, href] using h
    simp [alternativeProperty, href, typeNameForReference_local _ _ hlocal]
  · intro anyOf _ href
    simp [alternativeProperty, href]

/-- C8 as amended, at the union of the reference `#/definitions/parameter` and a
boolean. -/
theorem buildAnyOfAccessors_pair_witness :
    ((NewDomain jsonschema.emptySchema).buildAnyOfAccessors NewTypeModel
        (jsonschema.anyOfSchema
          [jsonschema.refSchema "#/definitions/parameter", jsonschema.typeSchema "boolean"])).map
      (fun typeModel : TypeModel =>
        typeModel.Properties.map fun property : TypeProperty =>
          (property.Name, property.Type_, property.Repeated)) =
      some [("parameter", "Parameter", false), ("boolean", "bool", false)] := by
  rw [(buildAnyOfAccessors_pair (NewDomain jsonschema.emptySchema) NewTypeModel
    (jsonschema.anyOfSchema
      [jsonschema.refSchema "#/definitions/parameter", jsonschema.typeSchema "boolean"])
    (jsonschema.refSchema "#/definitions/parameter") (jsonschema.typeSchema "boolean")
    rfl (by decide) (by decide) (by decide) (by decide) (by decide)).1]
  decide

/-- C8 fails for a reference that is not local: the anyOf of the schema has the
two alternatives `other.json#/definitions/parameter` and a boolean, neither an
array of the other, and `buildAnyOfAccessors` appends one property only, the
boolean one. -/
theorem buildAnyOfAccessors_pair_nonlocal :
    ((NewDomain jsonschema.emptySchema).buildAnyOfAccessors NewTypeModel
        (jsonschema.anyOfSchema [jsonschema.refSchema "other.json#/definitions/parameter",
          jsonschema.typeSchema "boolean"])).map
      (fun typeModel : TypeModel =>
        typeModel.Properties.map fun property : TypeProperty =>
          (property.Name, property.Type_, property.Repeated)) =
      some [("boolean", "bool", false)] := by
  decide

/-! ## Declared properties -/

theorem TypeIs_of_typeTag (schema : jsonschema.Schema) (tag name : String)
    (h : typeTag schema = some tag) : schema.TypeIs name = (tag == name) := by
  unfold typeTag at h
  cases ht : schema.Type_ with
  | none => simp [ht] at h
  | some type =>
    simp only [ht] at h
    cases hs : type.String with
    | some single =>
      simp only [hs, Option.some.injEq] at h
      simp [jsonschema.Schema.TypeIs, ht, hs, h]
    | none =>
      simp only [hs] at h
      cases ha : type.StringArray with
      | none => simp [ha] at h
      | some names =>
        match names, ha with
        | [], ha => simp [ha] at h
        | [single], ha =>
          simp only [ha, Option.some.injEq] at h
          simp only [jsonschema.Schema.TypeIs, ht, hs, ha, ← h, List.contains_cons,
            List.contains_nil, Bool.or_false]
          cases hn : single == name
          · exact beq_eq_false_iff_ne.mpr fun e => by simp [e] at hn
          · exact beq_iff_eq.mpr (beq_iff_eq.mp hn).symm
        | _ :: _ :: _, ha => simp [ha] at h

theorem isSome_of_typeTag (schema : jsonschema.Schema) (tag : String)
    (h : typeTag schema = some tag) : schema.Type_.isSome = true := by
  unfold typeTag at h
  cases ht : schema.Type_ with
  | none => simp [ht] at h
  | some type => rfl

theorem withDescription_eq (typeProperty : TypeProperty) (schema : jsonschema.Schema) :
    Domain.withDescription typeProperty schema =
      { typeProperty with
        Description := schema.Description.getD typeProperty.Description } := by
  cases hd : schema.Description <;> simp [Domain.withDescription, hd]

theorem buildTypeProperty_scalar (domain : Domain) (typeModel : TypeModel)
    (pair : jsonschema.NamedSchema jsonschema.Schema) (h : isScalarProperty pair = true) :
    Domain.buildTypeProperty (domain, typeModel) pair =
      some (domain, typeModel.AddProperty (scalarProperty pair)) := by
  simp only [isScalarProperty, Bool.and_eq_true, Option.isNone_iff_eq_none] at h
  obtain ⟨href, hcanon⟩ := h
  cases htag : typeTag pair.Value with
  | none => simp [htag] at hcanon
  | some tag =>
    have hsome := isSome_of_typeTag _ _ htag
    simp only [htag, Option.some_bind] at hcanon
    simp only [Domain.buildTypeProperty, href, hsome, if_true,
      TypeIs_of_typeTag _ _ _ htag, withDescription_eq, scalarProperty, htag, Option.some_bind,
      NewTypePropertyWithNameAndType, NewTypeProperty]
    unfold canonicalType at hcanon ⊢
    by_cases h1 : tag = "string"
    · simp [h1]
    · by_cases h2 : tag = "boolean"
      · simp [h2]
      · by_cases h3 : tag = "number"
        · simp [h3]
        · by_cases h4 : tag = "integer"
          · simp [h4]
          · simp [h1, h2, h3, h4] at hcanon

/-- C9, scalar declared properties: for every declared property (name n, schema
with no `$ref`) whose type tag is `string`, `boolean`, `number` or `integer`,
`buildTypeProperties` appends exactly one non-repeated, non-implicit property
named n whose type is `string`, `bool`, `float` or `int` respectively and whose
description is the schema's description, and enqueues no type request: the
properties declared after it are processed from the domain that the ones declared
before it left, and from the type model they left with that one property added.
Properties are appended in the order the schema declares them: when all the
declared properties are scalar the properties added are theirs, in that order. -/
theorem buildTypeProperties_scalar (domain : Domain) (typeModel : TypeModel)
    (schema : jsonschema.Schema)
    (before after : List (jsonschema.NamedSchema jsonschema.Schema))
    (pair : jsonschema.NamedSchema jsonschema.Schema)
    (hprops : schema.Properties = some (before ++ pair :: after))
    (hscalar : isScalarProperty pair = true) :
    domain.buildTypeProperties typeModel schema =
      ((forEach Domain.buildTypeProperty (domain, typeModel) before).bind fun state =>
        forEach Domain.buildTypeProperty
          (state.1, state.2.AddProperty (scalarProperty pair)) after) ∧
    ((∀ other ∈ before ++ after, isScalarProperty other = true) →
      domain.buildTypeProperties typeModel schema =
        some (domain,
          { typeModel with
            Properties :=
              typeModel.Properties ++ (before ++ pair :: after).map scalarProperty })) ∧
    (scalarProperty pair).Name = pair.Name ∧
    (scalarProperty pair).Repeated = false ∧
    (scalarProperty pair).Implicit = false ∧
    (scalarProperty pair).Description = pair.Value.Description.getD "" ∧
    (typeTag pair.Value = some "string" → (scalarProperty pair).Type_ = "string") ∧
    (typeTag pair.Value = some "boolean" → (scalarProperty pair).Type_ = "bool") ∧
    (typeTag pair.Value = some "number" → (scalarProperty pair).Type_ = "float") ∧
    (typeTag pair.Value = some "integer" → (scalarProperty pair).Type_ = "int") := by
  refine ⟨?_, ?_, rfl, rfl, rfl, rfl, ?_, ?_, ?_, ?_⟩
  · simp only [Domain.buildTypeProperties, hprops, forEach_append, forEach]
    congr 1
    funext state
    rw [buildTypeProperty_scalar state.1 state.2 pair hscalar]
  · intro hall
    have hevery : ∀ other ∈ before ++ pair :: after, isScalarProperty other = true := by
      intro other hmem
      simp only [List.mem_append, List.mem_cons] at hmem
      rcases hmem with h | h | h
      · exact hall other (by simp [h])
      · exact h ▸ hscalar
      · exact hall other (by simp [h])
    simp only [Domain.buildTypeProperties, hprops]
    rw [forEach_eq_foldl _
      (fun state other => (state.1, state.2.AddProperty (scalarProperty other)))
      _ _ (fun state other hmem => buildTypeProperty_scalar state.1 state.2 other
        (hevery other hmem))]
    have hfold : ∀ (l : List (jsonschema.NamedSchema jsonschema.Schema)) (model : TypeModel),
        l.foldl (fun (state : Domain × TypeModel) other =>
          (state.1, state.2.AddProperty (scalarProperty other))) (domain, model) =
        (domain, l.foldl (fun model other => model.AddProperty (scalarProperty other)) model) := by
      intro l
      induction l with
      | nil => intro model; rfl
      | cons a l ih => intro model; simp [ih]
    rw [hfold, foldl_AddProperty]
  all_goals
    intro htag
    simp [scalarProperty, htag, canonicalType]

/-- C9 at a schema declaring `title` (string, described), `count` (integer),
`deprecated` (boolean) and `ratio` (number): four properties in that order, and
no type request. -/
theorem buildTypeProperties_scalar_witness :
    ((NewDomain scalarsSchema).buildTypeProperties NewTypeModel scalarsSchema).map
      (fun state : Domain × TypeModel =>
        (state.1.ObjectTypeRequests.keys,
         state.2.Properties.map fun property : TypeProperty =>
          (property.Name, property.Type_, property.Repeated, property.Implicit,
            property.Description))) =
      some ([], [("title", "string", false, false, "The title."),
        ("count", "int", false, false, ""), ("deprecated", "bool", false, false, ""),
        ("ratio", "float", false, false, "")]) := by
  rw [(buildTypeProperties_scalar (NewDomain scalarsSchema) NewTypeModel scalarsSchema
    [⟨"title", jsonschema.describedSchema "string" "The title."⟩]
    [⟨"deprecated", jsonschema.typeSchema "boolean"⟩, ⟨"ratio", jsonschema.typeSchema "number"⟩]
    ⟨"count", jsonschema.typeSchema "integer"⟩ rfl (by decide)).2.1 (by decide)]
  rfl

/-! ## Go maps -/

theorem GoMap.getEntries_setEntries_self {β : Type} (k : String) (v : β)
    (l : List (String × β)) : GoMap.getEntries k (GoMap.setEntries k v l) = some v := by
  induction l with
  | nil => simp [GoMap.setEntries, GoMap.getEntries]
  | cons e rest ih =>
    by_cases h : e.1 = k
    · simp [GoMap.setEntries, GoMap.getEntries, h]
    · simp [GoMap.setEntries, GoMap.getEntries, h, ih]

theorem GoMap.getEntries_setEntries_ne {β : Type} (k name : String) (v : β)
    (l : List (String × β)) (hne : k ≠ name) :
    GoMap.getEntries k (GoMap.setEntries name v l) = GoMap.getEntries k l := by
  induction l with
  | nil => simp [GoMap.setEntries, GoMap.getEntries, Ne.symm hne]
  | cons e rest ih =>
    by_cases h : e.1 = name
    · have hk : ¬ e.1 = k := fun e' => hne (e'.symm.trans h)
      simp [GoMap.setEntries, GoMap.getEntries, h, hk, Ne.symm hne]
    · by_cases hk : e.1 = k
      · simp [GoMap.setEntries, GoMap.getEntries, h, hk]
        simp [hne, GoMap.getEntries, hk]
      · simp [GoMap.setEntries, GoMap.getEntries, h, hk, ih]

theorem GoMap.get_set_self {β : Type} (m : GoMap β) (k : String) (v : β) :
    (m.set k v).get k = some v :=
  GoMap.getEntries_setEntries_self k v m.entries

theorem GoMap.get_set_ne {β : Type} (m : GoMap β) (k name : String) (v : β) (hne : k ≠ name) :
    (m.set name v).get k = m.get k :=
  GoMap.getEntries_setEntries_ne k name v m.entries hne

/-! ## Anonymous nested types -/

theorem capitalize_append (name suffix : String) (h : name ≠ "") :
    Capitalize (name ++ suffix) = Capitalize name ++ suffix := by
  cases hd : name.data with
  | nil =>
    exfalso
    apply h
    cases name
    simp_all
  | cons c cs =>
    have happ : (name ++ suffix).data = c :: (cs ++ suffix.data) := by
      simp [String.data_append, hd]
    simp only [Capitalize, hd, happ]
    apply String.ext
    simp [String.data_append]

theorem typeNameForStub_eq (domain : Domain) (stub : String) (h : stub ≠ "") :
    domain.typeNameForStub stub = some (domain.Prefix ++ Capitalize stub) := by
  simp [Domain.typeNameForStub, upperFirst_eq_capitalize _ h]

theorem typeNameForStub_item (domain : Domain) (stub : String) (h : stub ≠ "") :
    domain.typeNameForStub (stub ++ "Item") =
      some (domain.Prefix ++ Capitalize stub ++ "Item") := by
  have hne : stub ++ "Item" ≠ "" := by
    intro e
    have := congrArg String.length e
    simp at this
    exact absurd this.2 (by decide)
  rw [typeNameForStub_eq _ _ hne, capitalize_append _ _ h, String.append_assoc]

/-- C2 at a schema whose inline object `a` declares the inline object `b`: when
the loop of `build` over `ObjectTypeRequests` starts, the map holds the request
`A` only; deriving `A` records the request `B`, and the run of the loop that
ends there, without producing the entry created during the iteration, leaves the
domain with the request `B` and without a type `B`. -/
theorem build_skips_nested_request :
    (NewDomain nestedRequestSchema).isRangeOrder ["A"] = true ∧
    ((NewDomain nestedRequestSchema).build ["A"]).map
      (fun final : Domain => (final.ObjectTypeRequests.keys, final.TypeModels.keys)) =
      some (["A", "B"], ["Document", "A", "StringArray", "Any"]) := by
  constructor
  · decide
  · rfl

/-- C3 at a schema with the inline objects `a` and `b`, where `a` declares an
inline object `b` of its own: the loop of `build` may produce the two requests
`A` and `B` in either order, and the type `B` is derived from the schema of
`a.b` in one run and from the schema of `b` in the other. -/
theorem build_depends_on_range_order :
    (NewDomain sharedNameSchema).isRangeOrder ["A", "B"] = true ∧
    (NewDomain sharedNameSchema).isRangeOrder ["B", "A"] = true ∧
    ((NewDomain sharedNameSchema).build ["A", "B"]).bind (fun final => propertiesOf final "B") =
      some [("x", "string")] ∧
    ((NewDomain sharedNameSchema).build ["B", "A"]).bind (fun final => propertiesOf final "B") =
      some [("y", "bool")] := by
  refine ⟨?_, ?_, ?_, ?_⟩
  · decide
  · decide
  · rfl
  · rfl

/-- C5 fails for a schema with both a `oneOf` of a boolean and an `anyOf` of a
string and an array of strings: the type `Document` built for it is a oneOf
wrapper and a string array at once, two of the five wrapper flags. -/
theorem build_oneOfWrapper_and_stringArray :
    (NewDomain oneOfAndAnyOfSchema).isRangeOrder [] = true ∧
    (((NewDomain oneOfAndAnyOfSchema).build []).bind
      (fun final => final.TypeModels.get "Document")).map
      (fun typeModel : TypeModel =>
        (typeModel.OneOfWrapper, typeModel.IsStringArray, statedWrapperKinds typeModel)) =
      some (true, true, 2) := by
  constructor
  · decide
  · rfl

theorem nested_self (schema : jsonschema.Schema) : schema ∈ schema.nested := by
  cases schema
  simp [jsonschema.Schema.nested]

theorem nestedInList_mem (l : List jsonschema.Schema) (a : jsonschema.Schema) (h : a ∈ l) :
    ∀ inner ∈ a.nested, inner ∈ jsonschema.Schema.nestedInList l := by
  induction l with
  | nil => simp at h
  | cons b rest ih =>
    intro inner hr
    simp only [jsonschema.Schema.nestedInList, List.mem_append]
    rcases List.mem_cons.mp h with e | e
    · exact Or.inl (e ▸ hr)
    · exact Or.inr (ih e inner hr)

theorem nestedInNamedList_mem (l : List (jsonschema.NamedSchema jsonschema.Schema))
    (p : jsonschema.NamedSchema jsonschema.Schema) (h : p ∈ l) :
    ∀ inner ∈ p.Value.nested, inner ∈ jsonschema.Schema.nestedInNamedList l := by
  induction l with
  | nil => simp at h
  | cons b rest ih =>
    intro inner hr
    simp only [jsonschema.Schema.nestedInNamedList, List.mem_append]
    rcases List.mem_cons.mp h with e | e
    · subst e
      exact Or.inl (by cases p; simpa [jsonschema.Schema.nestedInNamed] using hr)
    · exact Or.inr (ih e inner hr)

theorem nested_of_property (schema : jsonschema.Schema)
    (properties : List (jsonschema.NamedSchema jsonschema.Schema))
    (pair : jsonschema.NamedSchema jsonschema.Schema)
    (h : schema.Properties = some properties) (hmem : pair ∈ properties) :
    ∀ inner ∈ pair.Value.nested, inner ∈ schema.nested := by
  intro inner hr
  cases schema
  simp only [jsonschema.Schema.Properties] at h
  simp only [jsonschema.Schema.nested, h, jsonschema.Schema.nestedInNamedLists,
    List.mem_cons, List.mem_append]
  exact Or.inr (Or.inl (nestedInNamedList_mem _ _ hmem inner hr))

theorem nested_of_patternProperty (schema : jsonschema.Schema)
    (properties : List (jsonschema.NamedSchema jsonschema.Schema))
    (pair : jsonschema.NamedSchema jsonschema.Schema)
    (h : schema.PatternProperties = some properties) (hmem : pair ∈ properties) :
    ∀ inner ∈ pair.Value.nested, inner ∈ schema.nested := by
  intro inner hr
  cases schema
  simp only [jsonschema.Schema.PatternProperties] at h
  simp only [jsonschema.Schema.nested, h, jsonschema.Schema.nestedInNamedLists,
    List.mem_cons, List.mem_append]
  exact Or.inr (Or.inr (Or.inl (nestedInNamedList_mem _ _ hmem inner hr)))

theorem nested_of_definition (schema : jsonschema.Schema)
    (definitions : List (jsonschema.NamedSchema jsonschema.Schema))
    (pair : jsonschema.NamedSchema jsonschema.Schema)
    (h : schema.Definitions = some definitions) (hmem : pair ∈ definitions) :
    ∀ inner ∈ pair.Value.nested, inner ∈ schema.nested := by
  intro inner hr
  cases schema
  simp only [jsonschema.Schema.Definitions] at h
  simp only [jsonschema.Schema.nested, h, jsonschema.Schema.nestedInNamedLists,
    List.mem_cons, List.mem_append]
  exact Or.inr (Or.inr (Or.inr (Or.inr (Or.inr (Or.inr (Or.inr
    (nestedInNamedList_mem _ _ hmem inner hr)))))))

theorem nested_of_additional (schema : jsonschema.Schema)
    (additional : jsonschema.SchemaOrBoolean jsonschema.Schema) (value : jsonschema.Schema)
    (h : schema.AdditionalProperties = some additional)
    (hvalue : additional.Schema = some value) :
    ∀ inner ∈ value.nested, inner ∈ schema.nested := by
  intro inner hr
  cases schema
  cases additional
  simp only [jsonschema.Schema.AdditionalProperties] at h
  simp only at hvalue
  simp only [jsonschema.Schema.nested, h, hvalue, jsonschema.Schema.nestedInAdditional,
    jsonschema.Schema.nestedInOption, List.mem_cons, List.mem_append]
  exact Or.inr (Or.inr (Or.inr (Or.inl hr)))

theorem nested_of_items (schema : jsonschema.Schema)
    (items : jsonschema.SchemaOrSchemaArray jsonschema.Schema) (value : jsonschema.Schema)
    (h : schema.Items = some items) (hvalue : items.Schema = some value) :
    ∀ inner ∈ value.nested, inner ∈ schema.nested := by
  intro inner hr
  cases schema
  cases items
  simp only [jsonschema.Schema.Items] at h
  simp only at hvalue
  simp only [jsonschema.Schema.nested, h, hvalue, jsonschema.Schema.nestedInItems,
    jsonschema.Schema.nestedInOption, List.mem_cons, List.mem_append]
  exact Or.inr (Or.inr (Or.inr (Or.inr (Or.inl (Or.inl hr)))))

theorem nested_of_itemsArray (schema : jsonschema.Schema)
    (items : jsonschema.SchemaOrSchemaArray jsonschema.Schema)
    (values : List jsonschema.Schema) (value : jsonschema.Schema)
    (h : schema.Items = some items) (hvalues : items.SchemaArray = some values)
    (hmem : value ∈ values) : ∀ inner ∈ value.nested, inner ∈ schema.nested := by
  intro inner hr
  cases schema
  cases items
  simp only [jsonschema.Schema.Items] at h
  simp only at hvalues
  simp only [jsonschema.Schema.nested, h, hvalues, jsonschema.Schema.nestedInItems,
    jsonschema.Schema.nestedInLists, List.mem_cons, List.mem_append]
  exact Or.inr (Or.inr (Or.inr (Or.inr (Or.inl (Or.inr
    (nestedInList_mem _ _ hmem inner hr))))))

theorem nested_of_oneOf (schema : jsonschema.Schema) (alternatives : List jsonschema.Schema)
    (alternative : jsonschema.Schema) (h : schema.OneOf = some alternatives)
    (hmem : alternative ∈ alternatives) :
    ∀ inner ∈ alternative.nested, inner ∈ schema.nested := by
  intro inner hr
  cases schema
  simp only [jsonschema.Schema.OneOf] at h
  simp only [jsonschema.Schema.nested, h, jsonschema.Schema.nestedInLists, List.mem_cons,
    List.mem_append]
  exact Or.inr (Or.inr (Or.inr (Or.inr (Or.inr (Or.inl
    (nestedInList_mem _ _ hmem inner hr))))))

theorem nested_of_anyOf (schema : jsonschema.Schema) (alternatives : List jsonschema.Schema)
    (alternative : jsonschema.Schema) (h : schema.AnyOf = some alternatives)
    (hmem : alternative ∈ alternatives) :
    ∀ inner ∈ alternative.nested, inner ∈ schema.nested := by
  intro inner hr
  cases schema
  simp only [jsonschema.Schema.AnyOf] at h
  simp only [jsonschema.Schema.nested, h, jsonschema.Schema.nestedInLists, List.mem_cons,
    List.mem_append]
  exact Or.inr (Or.inr (Or.inr (Or.inr (Or.inr (Or.inr (Or.inl
    (nestedInList_mem _ _ hmem inner hr)))))))

theorem itemSchemas_of_nested (root schema : jsonschema.Schema)
    (items : jsonschema.SchemaOrSchemaArray jsonschema.Schema) (item : jsonschema.Schema)
    (hwithin : ∀ inner ∈ schema.nested, inner ∈ root.nested) (h : schema.Items = some items)
    (hitem : item ∈ items.Schema.toList ++ items.SchemaArray.getD []) :
    item ∈ root.itemSchemas :=
  List.mem_flatMap.mpr ⟨schema, hwithin schema (nested_self schema), by
    simp only [h]
    exact hitem⟩

theorem refs_of_nested (root schema : jsonschema.Schema) (ref : String)
    (hwithin : ∀ inner ∈ schema.nested, inner ∈ root.nested) (h : schema.Ref = some ref) :
    ref ∈ root.refs :=
  List.mem_filterMap.mpr ⟨schema, hwithin schema (nested_self schema), h⟩

/-! ## Invariants of the build -/

theorem GoMap.mem_keys_set {β : Type} (m : GoMap β) (name key : String) (v : β) :
    key ∈ (m.set name v).keys ↔ key = name ∨ key ∈ m.keys := by
  simp only [GoMap.keys, GoMap.set]
  induction m.entries with
  | nil => simp [GoMap.setEntries]
  | cons e rest ih =>
    by_cases h : e.1 = name
    · simp [GoMap.setEntries, h]
    · simp only [GoMap.setEntries, h, if_false, List.map_cons, List.mem_cons, ih]
      tauto

theorem GoMap.mem_values_setEntries {β : Type} (name : String) (v w : β)
    (l : List (String × β)) (h : w ∈ (GoMap.setEntries name v l).map Prod.snd) :
    w = v ∨ w ∈ l.map Prod.snd := by
  induction l with
  | nil => simpa [GoMap.setEntries] using h
  | cons e rest ih =>
    by_cases he : e.1 = name
    · simp only [GoMap.setEntries, he, if_true, List.map_cons, List.mem_cons] at h
      rcases h with h | h
      · exact Or.inl h
      · exact Or.inr (List.mem_cons_of_mem _ h)
    · simp only [GoMap.setEntries, he, if_false, List.map_cons, List.mem_cons] at h
      rcases h with h | h
      · exact Or.inr (by rw [h]; exact List.mem_cons_self _ _)
      · rcases ih h with h | h
        · exact Or.inl h
        · exact Or.inr (List.mem_cons_of_mem _ h)

theorem GoMap.mem_values_set {β : Type} (m : GoMap β) (name : String) (v w : β)
    (h : w ∈ (m.set name v).values) : w = v ∨ w ∈ m.values :=
  GoMap.mem_values_setEntries name v w m.entries h

theorem GoMap.mem_of_getEntries {β : Type} (key : String) (v : β) (l : List (String × β))
    (h : GoMap.getEntries key l = some v) : (key, v) ∈ l := by
  induction l with
  | nil => simp [GoMap.getEntries] at h
  | cons e rest ih =>
    by_cases he : e.1 = key
    · simp only [GoMap.getEntries, he, if_true, Option.some.injEq] at h
      have : e = (key, v) := by rw [← he, ← h]
      rw [this]
      exact List.mem_cons_self _ _
    · simp only [GoMap.getEntries, he, if_false] at h
      exact List.mem_cons_of_mem _ (ih h)

theorem GoMap.mem_values_of_get {β : Type} (m : GoMap β) (key : String) (v : β)
    (h : m.get key = some v) : v ∈ m.values :=
  List.mem_map.mpr ⟨(key, v), GoMap.mem_of_getEntries key v m.entries h, rfl⟩

theorem Domain.Extends.unchanged (domain : Domain) : domain.Extends domain :=
  ⟨rfl, rfl, rfl, rfl, fun _ h => h, fun _ h => h⟩

theorem Domain.Extends.andThen {a b c : Domain} (hab : a.Extends b) (hbc : b.Extends c) :
    a.Extends c :=
  ⟨hbc.samePrefix.trans hab.samePrefix, hbc.sameTypeModels.trans hab.sameTypeModels,
    hbc.sameSchema.trans hab.sameSchema, hbc.samePatternNames.trans hab.samePatternNames,
    fun k h => hbc.requests k (hab.requests k h), fun k h => hbc.mapTypes k (hab.mapTypes k h)⟩

theorem Domain.Extends.setRequest (domain : Domain) (name : String) (request : TypeRequest) :
    domain.Extends
      { domain with ObjectTypeRequests := domain.ObjectTypeRequests.set name request } :=
  ⟨rfl, rfl, rfl, rfl, fun _ h => (GoMap.mem_keys_set _ _ _ _).mpr (Or.inr h), fun _ h => h⟩

theorem Domain.Extends.setMapType (domain : Domain) (name : String) (value : String) :
    domain.Extends { domain with MapTypeRequests := domain.MapTypeRequests.set name value } :=
  ⟨rfl, rfl, rfl, rfl, fun _ h => h, fun _ h => (GoMap.mem_keys_set _ _ _ _).mpr (Or.inr h)⟩

theorem typeNameForReference_congr (domain next : Domain) (ref : String)
    (h : next.Prefix = domain.Prefix) :
    next.typeNameForReference ref = domain.typeNameForReference ref := by
  simp [Domain.typeNameForReference, Domain.typeNameForStub, h]

theorem TracedName.monoName {domain next : Domain} {name : String} (h : TracedName domain name)
    (hext : domain.Extends next) : TracedName next name := by
  rcases h with h | ⟨ref, hmem, h⟩ | h
  · exact Or.inl h
  · exact Or.inr (Or.inl ⟨ref, by rw [hext.sameSchema]; exact hmem, by
      rw [typeNameForReference_congr domain next ref hext.samePrefix, h]⟩)
  · exact Or.inr (Or.inr (hext.requests _ h))

theorem Traced.monoProperty {domain next : Domain} {property : TypeProperty}
    (h : Traced domain property) (hext : domain.Extends next) : Traced next property := by
  rcases h with ⟨h1, h2⟩ | ⟨h1, h2, h3⟩
  · refine Or.inl ⟨h1, ?_⟩
    rcases h2 with h2 | h2
    · exact Or.inl (h2.monoName hext)
    · exact Or.inr (by rw [hext.sameSchema]; exact h2)
  · exact Or.inr ⟨hext.mapTypes _ h1, h2.monoName hext, h3⟩

theorem Derives.nothing (domain : Domain) (typeModel : TypeModel) :
    Derives domain typeModel domain typeModel :=
  ⟨Domain.Extends.unchanged domain, fun h => h, rfl, rfl, rfl, rfl, rfl, ⟨[], by simp, by simp⟩,
    fun h => h⟩

theorem Derives.followedBy {a b c : Domain} {ma mb mc : TypeModel} (hab : Derives a ma b mb)
    (hbc : Derives b mb c mc) : Derives a ma c mc := by
  obtain ⟨ps, hps, htr⟩ := hab.properties
  obtain ⟨qs, hqs, hqtr⟩ := hbc.properties
  refine ⟨hab.grows.andThen hbc.grows, fun h => hbc.mapTypes (hab.mapTypes h),
    hbc.sameName.trans hab.sameName, hbc.samePair.trans hab.samePair,
    hbc.sameBlob.trans hab.sameBlob, hbc.sameStringArray.trans hab.sameStringArray,
    hbc.sameItemArray.trans hab.sameItemArray, ⟨ps ++ qs, ?_, ?_⟩,
    fun h => hbc.named (hab.named h)⟩
  · rw [hqs, hps, List.append_assoc]
  · intro property hmem
    rcases List.mem_append.mp hmem with h | h
    · exact (htr property h).monoProperty hbc.grows
    · exact hqtr property h

theorem Derives.addProperty (domain : Domain) (typeModel : TypeModel) (property : TypeProperty)
    (h : Traced domain property) :
    Derives domain typeModel domain (typeModel.AddProperty property) :=
  ⟨Domain.Extends.unchanged domain, fun h => h, rfl, rfl, rfl, rfl, rfl,
    ⟨[property], rfl, by simpa using h⟩, fun h => h⟩

theorem requestsNamed_set (domain : Domain) (name : String) (request : TypeRequest)
    (hname : request.Name = name)
    (hwithin : ∀ inner ∈ request.Schema.nested, inner ∈ domain.Schema.nested)
    (h : RequestsNamed domain) :
    RequestsNamed
      { domain with ObjectTypeRequests := domain.ObjectTypeRequests.set name request } := by
  intro key other hget
  by_cases hkey : key = name
  · subst hkey
    have hself := GoMap.get_set_self domain.ObjectTypeRequests key request
    have hother : domain.ObjectTypeRequests.set key request =
        ({ domain with
            ObjectTypeRequests := domain.ObjectTypeRequests.set key request } :
          Domain).ObjectTypeRequests := rfl
    rw [← hother, hself] at hget
    simp only [Option.some.injEq] at hget
    rw [← hget]
    exact ⟨hname, hwithin⟩
  · have hne := GoMap.get_set_ne domain.ObjectTypeRequests key name request hkey
    have hother : domain.ObjectTypeRequests.set name request =
        ({ domain with
            ObjectTypeRequests := domain.ObjectTypeRequests.set name request } :
          Domain).ObjectTypeRequests := rfl
    rw [← hother, hne] at hget
    exact h key other hget

theorem Derives.addRequest (domain : Domain) (typeModel : TypeModel) (name : String)
    (request : TypeRequest) (property : TypeProperty) (hname : request.Name = name)
    (hwithin : ∀ inner ∈ request.Schema.nested, inner ∈ domain.Schema.nested)
    (h : Traced { domain with
      ObjectTypeRequests := domain.ObjectTypeRequests.set name request } property) :
    Derives domain typeModel
      { domain with ObjectTypeRequests := domain.ObjectTypeRequests.set name request }
      (typeModel.AddProperty property) :=
  ⟨Domain.Extends.setRequest domain name request,
    fun h key hkey => (h key hkey).monoName (Domain.Extends.setRequest domain name request),
    rfl, rfl, rfl, rfl, rfl, ⟨[property], rfl, by simpa using h⟩,
    requestsNamed_set domain name request hname hwithin⟩

theorem Derives.request (domain : Domain) (typeModel : TypeModel) (name : String)
    (request : TypeRequest) (hname : request.Name = name)
    (hwithin : ∀ inner ∈ request.Schema.nested, inner ∈ domain.Schema.nested) :
    Derives domain typeModel
      { domain with ObjectTypeRequests := domain.ObjectTypeRequests.set name request }
      typeModel :=
  ⟨Domain.Extends.setRequest domain name request,
    fun h key hkey => (h key hkey).monoName (Domain.Extends.setRequest domain name request),
    rfl, rfl, rfl, rfl, rfl, ⟨[], by simp, by simp⟩,
    requestsNamed_set domain name request hname hwithin⟩

theorem Derives.addMapProperty (domain : Domain) (typeModel : TypeModel)
    (property : TypeProperty) (hname : TracedName domain property.MapType)
    (htype : property.Type_ = "Named" ++ property.MapType ∨
      property.Type_ = "Named" ++ Title property.MapType) :
    Derives domain typeModel
      { domain with
        MapTypeRequests := domain.MapTypeRequests.set property.MapType property.MapType }
      (typeModel.AddProperty property) := by
  have hext := Domain.Extends.setMapType domain property.MapType property.MapType
  refine ⟨hext, ?_, rfl, rfl, rfl, rfl, rfl, ⟨[property], rfl, ?_⟩, fun h => h⟩
  · intro h key hkey
    rcases (GoMap.mem_keys_set _ _ _ _).mp hkey with hk | hk
    · rw [hk]
      exact hname.monoName hext
    · exact (h key hk).monoName hext
  · intro p hp
    rw [List.mem_singleton] at hp
    rw [hp]
    exact Or.inr ⟨(GoMap.mem_keys_set _ _ _ _).mpr (Or.inl rfl), hname.monoName hext, htype⟩

theorem forEach_derives {α : Type} (root : jsonschema.Schema) (l : List α)
    (body : Domain × TypeModel → α → Option (Domain × TypeModel))
    (hbody : ∀ state, ∀ a ∈ l, ∀ next, state.1.Schema = root → body state a = some next →
      Derives state.1 state.2 next.1 next.2)
    (state next : Domain × TypeModel) (hroot : state.1.Schema = root)
    (h : forEach body state l = some next) :
    Derives state.1 state.2 next.1 next.2 := by
  induction l generalizing state with
  | nil =>
    simp only [forEach, Option.some.injEq] at h
    rw [← h]
    exact Derives.nothing _ _
  | cons a rest ih =>
    simp only [forEach] at h
    cases hstep : body state a with
    | none => simp [hstep] at h
    | some middle =>
      simp only [hstep] at h
      have hd := hbody state a (List.mem_cons_self _ _) middle hroot hstep
      exact hd.followedBy
        (ih (fun s b hb n hr hs => hbody s b (List.mem_cons_of_mem _ hb) n hr hs) middle
          (hd.grows.sameSchema.trans hroot) h)

theorem forEach_derives_model {α : Type} (domain : Domain) (l : List α)
    (body : TypeModel → α → Option TypeModel)
    (hbody : ∀ typeModel, ∀ a ∈ l, ∀ next, body typeModel a = some next →
      Derives domain typeModel domain next)
    (typeModel next : TypeModel)
    (h : forEach body typeModel l = some next) :
    Derives domain typeModel domain next := by
  induction l generalizing typeModel with
  | nil =>
    simp only [forEach, Option.some.injEq] at h
    rw [← h]
    exact Derives.nothing _ _
  | cons a rest ih =>
    simp only [forEach] at h
    cases hstep : body typeModel a with
    | none => simp [hstep] at h
    | some middle =>
      simp only [hstep] at h
      exact (hbody typeModel a (List.mem_cons_self _ _) middle hstep).followedBy
        (ih (fun m b hb n hs => hbody m b (List.mem_cons_of_mem _ hb) n hs) middle h)

theorem tracedName_of_reference (domain : Domain) (ref name : String)
    (hmem : ref ∈ domain.Schema.refs)
    (h : domain.typeNameForReference ref = some name) : TracedName domain name :=
  Or.inr (Or.inl ⟨ref, hmem, h⟩)

theorem tracedName_of_request (domain : Domain) (name : String) (request : TypeRequest) :
    TracedName
      { domain with ObjectTypeRequests := domain.ObjectTypeRequests.set name request } name :=
  Or.inr (Or.inr ((GoMap.mem_keys_set _ _ _ _).mpr (Or.inl rfl)))

theorem arrayItemTypeForSchema_request (domain next : Domain) (propertyName name : String)
    (schema : jsonschema.Schema)
    (h : domain.arrayItemTypeForSchema propertyName schema = some (next, name)) :
    next = domain ∨
    ∃ items itemSchema, schema.Items = some items ∧ items.Schema = some itemSchema ∧
      next = { domain with
        ObjectTypeRequests := domain.ObjectTypeRequests.set name
          (NewTypeRequest name propertyName itemSchema) } := by
  simp only [Domain.arrayItemTypeForSchema] at h
  repeat' split at h
  all_goals
    first
    | (simp only [Option.some.injEq, Prod.mk.injEq] at h; exact Or.inl h.1.symm)
    | (simp only [Option.map_eq_some', Prod.mk.injEq] at h
       obtain ⟨a, ha, h1, h2⟩ := h
       first
       | exact Or.inl h1.symm
       | (subst h2; exact Or.inr ⟨_, _, by assumption, by assumption, h1.symm⟩))

theorem arrayItemTypeForSchema_derives (domain next : Domain) (typeModel : TypeModel)
    (propertyName name : String) (schema : jsonschema.Schema)
    (hwithin : ∀ inner ∈ schema.nested, inner ∈ domain.Schema.nested)
    (h : domain.arrayItemTypeForSchema propertyName schema = some (next, name)) :
    Derives domain typeModel next typeModel := by
  rcases arrayItemTypeForSchema_request domain next propertyName name schema h with
    hd | ⟨items, itemSchema, hitems, hitem, hd⟩
  · rw [hd]
    exact Derives.nothing _ _
  · rw [hd]
    exact Derives.request _ _ _ _ rfl
      (fun inner hr =>
        hwithin inner (nested_of_items schema items itemSchema hitems hitem inner hr))

theorem tracedName_any (domain : Domain) : TracedName domain "Any" :=
  Or.inl (by simp)

theorem arrayItemTypeForSchema_name (domain next : Domain) (propertyName name : String)
    (schema : jsonschema.Schema)
    (hwithin : ∀ inner ∈ schema.nested, inner ∈ domain.Schema.nested)
    (h : domain.arrayItemTypeForSchema propertyName schema = some (next, name)) :
    TracedName next name ∨
    ∃ item ∈ next.Schema.itemSchemas, name = Domain.itemTypeNameForTypes "Any" item.Type_ := by
  simp only [Domain.arrayItemTypeForSchema] at h
  cases hitems : schema.Items with
  | none =>
    simp only [hitems, Option.some.injEq, Prod.mk.injEq] at h
    rw [← h.2]
    exact Or.inl (tracedName_any _)
  | some items =>
    simp only [hitems] at h
    cases harray : items.SchemaArray with
    | some schemaArray =>
      simp only [harray] at h
      cases schemaArray with
      | nil =>
        simp only [Option.some.injEq, Prod.mk.injEq] at h
        rw [← h.2]
        exact Or.inl (tracedName_any _)
      | cons first rest =>
        have hfirst : ∀ inner ∈ first.nested, inner ∈ domain.Schema.nested :=
          fun inner hr => hwithin inner
            (nested_of_itemsArray schema items (first :: rest) first hitems harray
              (List.mem_cons_self _ _) inner hr)
        simp only at h
        cases href : first.Ref with
        | some ref =>
          simp only [href, Option.map_eq_some', Prod.mk.injEq] at h
          obtain ⟨typeName, htype, h1, h2⟩ := h
          subst h1
          subst h2
          exact Or.inl (tracedName_of_reference _ _ _ (refs_of_nested _ _ _ hfirst href) htype)
        | none =>
          simp only [href, Option.some.injEq, Prod.mk.injEq] at h
          obtain ⟨h1, h2⟩ := h
          subst h1
          exact Or.inr ⟨first, itemSchemas_of_nested _ schema items first hwithin hitems
            (by simp [harray]), h2.symm⟩
    | none =>
      simp only [harray] at h
      cases hitem : items.Schema with
      | none =>
        simp only [hitem, Option.some.injEq, Prod.mk.injEq] at h
        rw [← h.2]
        exact Or.inl (tracedName_any _)
      | some itemSchema =>
        have hinner : ∀ inner ∈ itemSchema.nested, inner ∈ domain.Schema.nested :=
          fun inner hr => hwithin inner
            (nested_of_items schema items itemSchema hitems hitem inner hr)
        simp only [hitem] at h
        cases href : itemSchema.Ref with
        | some ref =>
          simp only [href, Option.map_eq_some', Prod.mk.injEq] at h
          obtain ⟨typeName, htype, h1, h2⟩ := h
          subst h1
          subst h2
          exact Or.inl (tracedName_of_reference _ _ _ (refs_of_nested _ _ _ hinner href) htype)
        | none =>
          simp only [href] at h
          cases honeOf : itemSchema.OneOf with
          | some alternatives =>
            simp only [honeOf, Option.map_eq_some', Prod.mk.injEq] at h
            obtain ⟨typeName, _, h1, h2⟩ := h
            subst h1
            subst h2
            exact Or.inl (tracedName_of_request _ _ _)
          | none =>
            simp only [honeOf, Option.some.injEq, Prod.mk.injEq] at h
            obtain ⟨h1, h2⟩ := h
            subst h1
            exact Or.inr ⟨itemSchema,
              itemSchemas_of_nested _ schema items itemSchema hwithin hitems (by simp [hitem]),
              h2.symm⟩

theorem buildTypeProperty_derives (state : Domain × TypeModel)
    (pair : jsonschema.NamedSchema jsonschema.Schema) (next : Domain × TypeModel)
    (hwithin : ∀ inner ∈ pair.Value.nested, inner ∈ state.1.Schema.nested)
    (h : Domain.buildTypeProperty state pair = some next) :
    Derives state.1 state.2 next.1 next.2 := by
  simp only [Domain.buildTypeProperty] at h
  repeat' split at h
  all_goals
    first
    | (simp only [Option.some.injEq] at h
       subst h
       first
       | exact Derives.nothing _ _
       | exact Derives.addProperty _ _ _
          (Or.inl ⟨by simp [withDescription_eq, NewTypePropertyWithNameAndType, NewTypeProperty],
            Or.inl (Or.inl (by
              simp [withDescription_eq, NewTypePropertyWithNameAndType, NewTypeProperty]))⟩))
    | (simp only [Option.map_eq_some'] at h
       obtain ⟨a, ha, h1⟩ := h
       subst h1
       first
       | exact Derives.addProperty _ _ _
          (Or.inl ⟨rfl, Or.inl (tracedName_of_reference _ _ _
            (refs_of_nested _ _ _ hwithin (by assumption)) ha)⟩)
       | exact Derives.addRequest _ _ _ _ _ rfl hwithin
          (Or.inl ⟨by simp [withDescription_eq, NewTypePropertyWithNameAndType, NewTypeProperty],
            Or.inl (by
              simpa [withDescription_eq, NewTypePropertyWithNameAndType, NewTypeProperty]
                using tracedName_of_request _ _ _)⟩)
       | (obtain ⟨d, n⟩ := a
          refine (arrayItemTypeForSchema_derives _ _ _ _ _ _ hwithin ha).followedBy
            (Derives.addProperty _ _ _
              (Or.inl ⟨by
                  simp [withDescription_eq, NewTypePropertyWithNameAndType, NewTypeProperty],
                ?_⟩))
          rcases arrayItemTypeForSchema_name _ _ _ _ _ hwithin ha with hn | hn
          · exact Or.inl (by
              simpa [withDescription_eq, NewTypePropertyWithNameAndType, NewTypeProperty]
                using hn)
          · exact Or.inr (by
              simpa [withDescription_eq, NewTypePropertyWithNameAndType, NewTypeProperty]
                using hn)))

theorem buildTypeProperties_derives (domain : Domain) (typeModel : TypeModel)
    (schema : jsonschema.Schema) (next : Domain × TypeModel)
    (hwithin : ∀ inner ∈ schema.nested, inner ∈ domain.Schema.nested)
    (h : domain.buildTypeProperties typeModel schema = some next) :
    Derives domain typeModel next.1 next.2 := by
  simp only [Domain.buildTypeProperties] at h
  split at h
  · rename_i properties hproperties
    exact forEach_derives domain.Schema properties _
      (fun state pair hmem after hroot hstep =>
        buildTypeProperty_derives state pair after
          (fun inner hr => by
            rw [hroot]
            exact hwithin inner
              (nested_of_property schema properties pair hproperties hmem inner hr))
          hstep)
      _ _ rfl h
  · simp only [Option.some.injEq] at h
    rw [← h]
    exact Derives.nothing _ _

theorem Derives.update (domain : Domain) (typeModel nextModel : TypeModel)
    (hname : nextModel.Name = typeModel.Name) (hpair : nextModel.IsPair = typeModel.IsPair)
    (hblob : nextModel.IsBlob = typeModel.IsBlob)
    (hstring : nextModel.IsStringArray = typeModel.IsStringArray)
    (hitem : nextModel.IsItemArray = typeModel.IsItemArray)
    (hprops : nextModel.Properties = typeModel.Properties) :
    Derives domain typeModel domain nextModel :=
  ⟨Domain.Extends.unchanged domain, fun h => h, hname, hpair, hblob, hstring, hitem,
    ⟨[], by simp [hprops], by simp⟩, fun h => h⟩

theorem buildTypeRequirements_derives (domain : Domain) (typeModel : TypeModel)
    (schema : jsonschema.Schema) :
    Derives domain typeModel domain (domain.buildTypeRequirements typeModel schema) := by
  simp only [Domain.buildTypeRequirements]
  split
  · exact Derives.update _ _ _ rfl rfl rfl rfl rfl rfl
  · exact Derives.nothing _ _

theorem buildPatternPropertyAccessor_derives (state : Domain × TypeModel)
    (pair : jsonschema.NamedSchema jsonschema.Schema) (next : Domain × TypeModel)
    (hwithin : ∀ inner ∈ pair.Value.nested, inner ∈ state.1.Schema.nested)
    (h : Domain.buildPatternPropertyAccessor state pair = some next) :
    Derives state.1 state.2 next.1 next.2 := by
  simp only [Domain.buildPatternPropertyAccessor, Option.map_eq_some'] at h
  obtain ⟨typeName, htype, h⟩ := h
  subst h
  have hname : TracedName state.1 typeName := by
    split at htype
    · exact tracedName_of_reference _ _ _ (refs_of_nested _ _ _ hwithin (by assumption))
        htype
    · simp only [Option.some.injEq] at htype
      rw [← htype]
      exact tracedName_any _
  exact (Derives.update state.1 state.2
      { state.2 with OpenPatterns := state.2.OpenPatterns ++ [pair.Name] }
      rfl rfl rfl rfl rfl rfl).followedBy
    (Derives.addMapProperty state.1 _
      { NewTypePropertyWithNameTypeAndPattern
          ((state.1.PatternNames.get pair.Name).getD "") ("Named" ++ typeName) pair.Name
        with Implicit := true, MapType := typeName, Repeated := true }
      hname (Or.inl rfl))

theorem buildPatternPropertyAccessors_derives (domain : Domain) (typeModel : TypeModel)
    (schema : jsonschema.Schema) (next : Domain × TypeModel)
    (hwithin : ∀ inner ∈ schema.nested, inner ∈ domain.Schema.nested)
    (h : domain.buildPatternPropertyAccessors typeModel schema = some next) :
    Derives domain typeModel next.1 next.2 := by
  simp only [Domain.buildPatternPropertyAccessors] at h
  split at h
  · rename_i patterns hpatterns
    exact (Derives.update domain typeModel { typeModel with OpenPatterns := [] }
      rfl rfl rfl rfl rfl rfl).followedBy
      (forEach_derives domain.Schema patterns _
        (fun state pair hmem after hroot hstep =>
          buildPatternPropertyAccessor_derives state pair after
            (fun inner hr => by
              rw [hroot]
              exact hwithin inner
                (nested_of_patternProperty schema patterns pair hpatterns hmem inner hr))
            hstep)
        _ _ rfl h)
  · simp only [Option.some.injEq] at h
    rw [← h]
    exact Derives.nothing _ _

theorem addAdditionalProperties_derives (domain : Domain) (typeModel : TypeModel)
    (typeName mapType : String) (hname : TracedName domain mapType)
    (htype : typeName = "Named" ++ mapType ∨ typeName = "Named" ++ Title mapType) :
    Derives domain typeModel (domain.addAdditionalProperties typeModel typeName mapType).1
      (domain.addAdditionalProperties typeModel typeName mapType).2 :=
  Derives.addMapProperty domain typeModel
    { NewTypePropertyWithNameAndType "additionalProperties" typeName
      with Implicit := true, MapType := mapType, Repeated := true }
    hname htype

theorem buildAdditionalPropertyAccessors_derives (domain : Domain) (typeModel : TypeModel)
    (schema : jsonschema.Schema) (next : Domain × TypeModel)
    (hwithin : ∀ inner ∈ schema.nested, inner ∈ domain.Schema.nested)
    (h : domain.buildAdditionalPropertyAccessors typeModel schema = some next) :
    Derives domain typeModel next.1 next.2 := by
  have hopen : Derives domain typeModel domain { typeModel with Open := true } :=
    Derives.update _ _ _ rfl rfl rfl rfl rfl rfl
  simp only [Domain.buildAdditionalPropertyAccessors] at h
  repeat' split at h
  all_goals
    first
    | (simp only [Option.some.injEq] at h
       subst h
       first
       | exact Derives.nothing _ _
       | exact hopen
       | exact hopen.followedBy (addAdditionalProperties_derives _ _ _ _ (Or.inl (by simp))
          (Or.inl rfl))
       | exact hopen.followedBy (addAdditionalProperties_derives _ _ _ _ (Or.inl (by simp))
          (Or.inr (by decide))))
    | (simp only [Option.map_eq_some'] at h
       obtain ⟨a, ha, h1⟩ := h
       subst h1
       first
       | exact hopen.followedBy (addAdditionalProperties_derives _ _ _ _
          (tracedName_of_reference _ _ _
            (refs_of_nested _ _ _
              (fun inner hr => hwithin inner
                (nested_of_additional schema _ _ (by assumption) (by assumption) inner hr))
              (by assumption)) ha) (Or.inl rfl))
       | exact hopen.followedBy ((Derives.request domain _ a
            (NewTypeRequest a "additionalProperties" _) rfl
            (fun inner hr => hwithin inner
              (nested_of_additional schema _ _ (by assumption) (by assumption) inner
                hr))).followedBy
          (addAdditionalProperties_derives _ _ _ _ (tracedName_of_request _ _ _)
            (Or.inl rfl))))
    | simp at h

theorem tracedName_bool (domain : Domain) : TracedName domain "bool" :=
  Or.inl (by simp)

theorem tracedName_string (domain : Domain) : TracedName domain "string" :=
  Or.inl (by simp)

theorem buildOneOfAccessor_derives (domain : Domain) (typeModel : TypeModel)
    (oneOf : jsonschema.Schema) (next : TypeModel)
    (hwithin : ∀ inner ∈ oneOf.nested, inner ∈ domain.Schema.nested)
    (h : domain.buildOneOfAccessor typeModel oneOf = some next) :
    Derives domain typeModel domain next := by
  simp only [Domain.buildOneOfAccessor] at h
  split at h
  · rename_i ref href
    simp only [Option.map_eq_some'] at h
    obtain ⟨typeName, htype, h⟩ := h
    subst h
    split
    · exact Derives.addProperty _ _ _
        (Or.inl ⟨rfl, Or.inl (tracedName_of_reference _ _ _
          (refs_of_nested _ _ _ hwithin href) htype)⟩)
    · exact Derives.nothing _ _
  · split at h
    · simp only [Option.some.injEq] at h
      subst h
      exact Derives.addProperty _ _ _ (Or.inl ⟨rfl, Or.inl (tracedName_bool _)⟩)
    · simp only [Option.some.injEq] at h
      subst h
      exact Derives.nothing _ _

theorem buildOneOfAccessors_derives (domain : Domain) (typeModel : TypeModel)
    (schema : jsonschema.Schema) (next : TypeModel)
    (hwithin : ∀ inner ∈ schema.nested, inner ∈ domain.Schema.nested)
    (h : domain.buildOneOfAccessors typeModel schema = some next) :
    Derives domain typeModel domain next := by
  simp only [Domain.buildOneOfAccessors] at h
  split at h
  · simp only [Option.some.injEq] at h
    subst h
    exact Derives.nothing _ _
  · rename_i oneOfs honeOfs
    exact (Derives.update domain typeModel { typeModel with Open := true, OneOfWrapper := true }
      rfl rfl rfl rfl rfl rfl).followedBy
      (forEach_derives_model domain oneOfs _
        (fun model oneOf hmem after hstep =>
          buildOneOfAccessor_derives domain model oneOf after
            (fun inner hr =>
              hwithin inner (nested_of_oneOf schema oneOfs oneOf honeOfs hmem inner hr))
            hstep)
        _ _ h)

theorem buildAnyOfAccessor_derives (domain : Domain) (typeModel : TypeModel)
    (anyOf : jsonschema.Schema) (next : TypeModel)
    (hwithin : ∀ inner ∈ anyOf.nested, inner ∈ domain.Schema.nested)
    (h : domain.buildAnyOfAccessor typeModel anyOf = some next) :
    Derives domain typeModel domain next := by
  simp only [Domain.buildAnyOfAccessor] at h
  split at h
  · rename_i ref href
    simp only [Option.map_eq_some'] at h
    obtain ⟨typeName, htype, h⟩ := h
    subst h
    split
    · exact Derives.addProperty _ _ _
        (Or.inl ⟨rfl, Or.inl (tracedName_of_reference _ _ _
          (refs_of_nested _ _ _ hwithin href) htype)⟩)
    · exact Derives.nothing _ _
  · simp only [Option.some.injEq] at h
    subst h
    exact Derives.addProperty _ _ _ (Or.inl ⟨rfl, Or.inl (tracedName_bool _)⟩)

theorem arrayFlags_refl (typeModel : TypeModel) : arrayFlags typeModel typeModel :=
  Or.inl ⟨rfl, rfl⟩

theorem addAnonymousAccessorForSchema_derives (domain : Domain) (typeModel : TypeModel)
    (schema : jsonschema.Schema) (repeated : Bool) (next : TypeModel)
    (hwithin : ∀ inner ∈ schema.nested, inner ∈ domain.Schema.nested)
    (h : domain.addAnonymousAccessorForSchema typeModel schema repeated = some next) :
    Derives domain typeModel domain (withArrayFlagsOf next typeModel) ∧
    arrayFlags typeModel next := by
  simp only [Domain.addAnonymousAccessorForSchema] at h
  split at h
  · rename_i ref href
    simp only [Option.map_eq_some'] at h
    obtain ⟨typeName, htype, h⟩ := h
    subst h
    split
    · exact ⟨Derives.addProperty _ _ _
        (Or.inl ⟨rfl, Or.inl (tracedName_of_reference _ _ _
          (refs_of_nested _ _ _ hwithin href) htype)⟩),
        Or.inr (Or.inl ⟨rfl, rfl⟩)⟩
    · exact ⟨Derives.nothing _ _, arrayFlags_refl _⟩
  · simp only [Option.some.injEq] at h
    subst h
    exact ⟨Derives.addProperty _ _ _ (Or.inl ⟨rfl, Or.inl (tracedName_string _)⟩),
      Or.inr (Or.inr ⟨rfl, rfl⟩)⟩

theorem derives_withArrayFlagsOf_general {domain next : Domain} {typeModel nextModel : TypeModel}
    (h : Derives domain typeModel next nextModel) :
    Derives domain typeModel next (withArrayFlagsOf nextModel typeModel) ∧
    arrayFlags typeModel nextModel :=
  ⟨⟨h.grows, h.mapTypes, h.sameName, h.samePair, h.sameBlob, rfl, rfl, h.properties,
      h.named⟩,
    Or.inl ⟨h.sameItemArray, h.sameStringArray⟩⟩

theorem derives_withArrayFlagsOf (domain : Domain) (typeModel next : TypeModel)
    (h : Derives domain typeModel domain next) :
    Derives domain typeModel domain (withArrayFlagsOf next typeModel) ∧
    arrayFlags typeModel next :=
  derives_withArrayFlagsOf_general h

theorem buildAnyOfAccessors_derives (domain : Domain) (typeModel : TypeModel)
    (schema : jsonschema.Schema) (next : TypeModel)
    (hwithin : ∀ inner ∈ schema.nested, inner ∈ domain.Schema.nested)
    (h : domain.buildAnyOfAccessors typeModel schema = some next) :
    Derives domain typeModel domain (withArrayFlagsOf next typeModel) ∧
    arrayFlags typeModel next := by
  simp only [Domain.buildAnyOfAccessors] at h
  cases hanyOfs : schema.AnyOf with
  | none =>
    simp only [hanyOfs, Option.some.injEq] at h
    subst h
    exact derives_withArrayFlagsOf _ _ _ (Derives.nothing _ _)
  | some anyOfs =>
    have hwithinOf : ∀ anyOf ∈ anyOfs, ∀ inner ∈ anyOf.nested, inner ∈ domain.Schema.nested :=
      fun anyOf hmem inner hr =>
        hwithin inner (nested_of_anyOf schema anyOfs anyOf hanyOfs hmem inner hr)
    simp only [hanyOfs] at h
    repeat' split at h
    all_goals
      first
      | (simp only [Option.some.injEq] at h
         subst h
         exact derives_withArrayFlagsOf _ _ _ (Derives.nothing _ _))
      | exact addAnonymousAccessorForSchema_derives _ _ _ _ _ (hwithinOf _ (by simp)) h
      | exact derives_withArrayFlagsOf _ _ _
          (forEach_derives_model domain _ _
            (fun model anyOf hmem after hstep =>
              buildAnyOfAccessor_derives domain model anyOf after (hwithinOf anyOf hmem) hstep)
            _ _ h)
      | simp at h

theorem buildDefaultAccessors_derives (domain : Domain) (typeModel : TypeModel)
    (schema : jsonschema.Schema) :
    Derives domain typeModel (domain.buildDefaultAccessors typeModel schema).1
      (domain.buildDefaultAccessors typeModel schema).2 :=
  (Derives.update domain typeModel { typeModel with Open := true }
      rfl rfl rfl rfl rfl rfl).followedBy
    (Derives.addMapProperty domain _
      { NewTypePropertyWithNameAndType "additionalProperties" "NamedAny"
        with MapType := "Any", Repeated := true }
      (tracedName_any _) (Or.inl rfl))

theorem Derives.withArrayFlagsOf_left {domain next : Domain} {first middle last : TypeModel}
    (h1 : Derives domain first next middle)
    (h2 : Derives next middle next (withArrayFlagsOf last middle)) :
    Derives domain first next (withArrayFlagsOf last first) := by
  have h := h1.followedBy h2
  exact ⟨h.grows, h.mapTypes, h.sameName, h.samePair, h.sameBlob, rfl, rfl, h.properties,
    h.named⟩

theorem buildAccessors_derives (domain : Domain) (typeModel : TypeModel)
    (schema : jsonschema.Schema) (next : Domain × TypeModel)
    (hwithin : ∀ inner ∈ schema.nested, inner ∈ domain.Schema.nested)
    (h : domain.buildAccessors typeModel schema = some next) :
    Derives domain typeModel next.1 (withArrayFlagsOf next.2 typeModel) ∧
    arrayFlags typeModel next.2 := by
  simp only [Domain.buildAccessors] at h
  cases h1 : domain.buildTypeProperties typeModel schema with
  | none => simp [h1] at h
  | some s1 =>
    obtain ⟨d1, m1⟩ := s1
    simp only [h1] at h
    cases h2 : d1.buildPatternPropertyAccessors (d1.buildTypeRequirements m1 schema) schema with
    | none => simp [h2] at h
    | some s2 =>
      obtain ⟨d2, m2⟩ := s2
      simp only [h2] at h
      cases h3 : d2.buildAdditionalPropertyAccessors m2 schema with
      | none => simp [h3] at h
      | some s3 =>
        obtain ⟨d3, m3⟩ := s3
        simp only [h3] at h
        cases h4 : d3.buildOneOfAccessors m3 schema with
        | none => simp [h4] at h
        | some m4 =>
          simp only [h4] at h
          cases h5 : d3.buildAnyOfAccessors m4 schema with
          | none => simp [h5] at h
          | some m5 =>
            simp only [h5, Option.some.injEq] at h
            subst h
            have e1 := buildTypeProperties_derives domain typeModel schema _ hwithin h1
            have w1 : ∀ inner ∈ schema.nested, inner ∈ d1.Schema.nested := by
              rw [show d1.Schema = domain.Schema from e1.grows.sameSchema]
              exact hwithin
            have e2 := buildTypeRequirements_derives d1 m1 schema
            have e3 := buildPatternPropertyAccessors_derives d1 _ schema _ w1 h2
            have w2 : ∀ inner ∈ schema.nested, inner ∈ d2.Schema.nested := by
              rw [show d2.Schema = d1.Schema from e3.grows.sameSchema]
              exact w1
            have e4 := buildAdditionalPropertyAccessors_derives d2 m2 schema _ w2 h3
            have w3 : ∀ inner ∈ schema.nested, inner ∈ d3.Schema.nested := by
              rw [show d3.Schema = d2.Schema from e4.grows.sameSchema]
              exact w2
            have e5 := buildOneOfAccessors_derives d3 m3 schema _ w3 h4
            obtain ⟨e6, e7⟩ := buildAnyOfAccessors_derives d3 m4 schema _ w3 h5
            have e := ((e1.followedBy e2).followedBy e3).followedBy (e4.followedBy e5)
            refine ⟨Derives.withArrayFlagsOf_left e e6, ?_⟩
            have hi : m4.IsItemArray = typeModel.IsItemArray := e.sameItemArray
            have hs : m4.IsStringArray = typeModel.IsStringArray := e.sameStringArray
            simpa only [arrayFlags, hi, hs] using e7

theorem fresh_derived (domain next : Domain) (typeModel nextModel : TypeModel)
    (hprops : typeModel.Properties = []) (hpair : typeModel.IsPair = false)
    (hblob : typeModel.IsBlob = false) (hstring : typeModel.IsStringArray = false)
    (hitem : typeModel.IsItemArray = false)
    (h : Derives domain typeModel next (withArrayFlagsOf nextModel typeModel))
    (hflags : arrayFlags typeModel nextModel) :
    wrapperKindsOK nextModel ∧ ∀ property ∈ nextModel.Properties, Traced next property := by
  have hp : nextModel.IsPair = false := by
    have := h.samePair
    simpa [withArrayFlagsOf, hpair] using this
  have hb : nextModel.IsBlob = false := by
    have := h.sameBlob
    simpa [withArrayFlagsOf, hblob] using this
  refine ⟨⟨?_, fun _ => ⟨hp, hb⟩⟩, ?_⟩
  · simp only [arrayFlags, hstring, hitem] at hflags
    rcases hflags with ⟨h1, h2⟩ | ⟨h1, h2⟩ | ⟨h1, h2⟩ <;>
      simp [wrapperKinds, hp, hb, h1, h2]
  · obtain ⟨added, hadded, htraced⟩ := h.properties
    simp only [withArrayFlagsOf, hprops, List.nil_append] at hadded
    intro property hmem
    rw [hadded] at hmem
    exact htraced property hmem

theorem Domain.Sound.derives {domain next : Domain} {typeModel nextModel : TypeModel}
    (hs : domain.Sound) (h : Derives domain typeModel next nextModel) : next.Sound := by
  refine ⟨h.mapTypes hs.mapTypes, ?_, ?_, h.named hs.named⟩
  · intro m hm
    rw [h.grows.sameTypeModels] at hm
    exact hs.kinds m hm
  · intro m hm p hp
    rw [h.grows.sameTypeModels] at hm
    exact (hs.properties m hm p hp).monoProperty h.grows

theorem Domain.Sound.setTypeModel {domain : Domain} (hs : domain.Sound) (name : String)
    (typeModel : TypeModel) (hkinds : wrapperKindsOK typeModel)
    (hprops : ∀ property ∈ typeModel.Properties, Traced domain property) :
    Domain.Sound { domain with TypeModels := domain.TypeModels.set name typeModel } := by
  refine ⟨hs.mapTypes, ?_, ?_, hs.named⟩
  · intro m hm
    rcases GoMap.mem_values_set _ _ _ _ hm with h | h
    · rw [h]
      exact hkinds
    · exact hs.kinds m h
  · intro m hm p hp
    rcases GoMap.mem_values_set _ _ _ _ hm with h | h
    · rw [h] at hp
      exact hprops p hp
    · exact hs.properties m h p hp

theorem buildTypeForDefinitionObject_sound (domain : Domain) (typeName propertyName : String)
    (schema : jsonschema.Schema) (next : Domain × TypeModel) (hs : domain.Sound)
    (hwithin : ∀ inner ∈ schema.nested, inner ∈ domain.Schema.nested)
    (h : domain.buildTypeForDefinitionObject typeName propertyName schema = some next) :
    next.1.Sound ∧ domain.Extends next.1 ∧ wrapperKindsOK next.2 ∧
    ∀ property ∈ next.2.Properties, Traced next.1 property := by
  simp only [Domain.buildTypeForDefinitionObject] at h
  split at h
  · simp only [Option.some.injEq] at h
    subst h
    have hd := buildDefaultAccessors_derives domain { NewTypeModel with Name := typeName } schema
    obtain ⟨h1, h2⟩ := derives_withArrayFlagsOf_general hd
    exact ⟨hs.derives hd, hd.grows, fresh_derived _ _ _ _ rfl rfl rfl rfl rfl h1 h2⟩
  · obtain ⟨h1, h2⟩ := buildAccessors_derives _ _ _ _ hwithin h
    refine ⟨hs.derives h1, h1.grows, ?_⟩
    cases hd : schema.Description <;> simp only [hd] at h1 h2 <;>
      exact fresh_derived _ _ _ _ rfl rfl rfl rfl rfl h1 h2

theorem forEach_sound {α : Type} (root : jsonschema.Schema) (l : List α)
    (body : Domain → α → Option Domain)
    (hbody : ∀ domain, ∀ a ∈ l, ∀ next, body domain a = some next → domain.Sound →
      domain.Schema = root → next.Sound ∧ next.Schema = root)
    (domain next : Domain) (h : forEach body domain l = some next)
    (hs : domain.Sound) (hroot : domain.Schema = root) : next.Sound ∧ next.Schema = root := by
  induction l generalizing domain with
  | nil =>
    simp only [forEach, Option.some.injEq] at h
    rw [← h]
    exact ⟨hs, hroot⟩
  | cons a rest ih =>
    simp only [forEach] at h
    cases hstep : body domain a with
    | none => simp [hstep] at h
    | some middle =>
      simp only [hstep] at h
      obtain ⟨hm, hr⟩ := hbody domain a (List.mem_cons_self _ _) middle hstep hs hroot
      exact ih (fun d b hb n hn hd hdr => hbody d b (List.mem_cons_of_mem _ hb) n hn hd hdr)
        middle h hm hr

theorem buildTypeForDefinition_sound (domain : Domain) (typeName propertyName : String)
    (schema : jsonschema.Schema) (next : Domain × Option TypeModel) (hs : domain.Sound)
    (hwithin : ∀ inner ∈ schema.nested, inner ∈ domain.Schema.nested)
    (h : domain.buildTypeForDefinition typeName propertyName schema = some next) :
    next.1.Sound ∧ next.1.Schema = domain.Schema ∧
    ∀ typeModel, next.2 = some typeModel →
      wrapperKindsOK typeModel ∧ ∀ property ∈ typeModel.Properties, Traced next.1 property := by
  simp only [Domain.buildTypeForDefinition] at h
  repeat' split at h
  all_goals
    first
    | (simp only [Option.map_eq_some'] at h
       obtain ⟨result, hresult, h⟩ := h
       subst h
       obtain ⟨h1, hext, h2, h3⟩ :=
         buildTypeForDefinitionObject_sound _ _ _ _ _ hs hwithin hresult
       refine ⟨h1, hext.sameSchema, ?_⟩
       intro typeModel he
       simp only [Option.some.injEq] at he
       subst he
       exact ⟨h2, h3⟩)
    | (simp only [Option.some.injEq] at h
       subst h
       exact ⟨hs, rfl, by simp⟩)
    | simp at h

theorem buildDefinition_sound (domain : Domain)
    (pair : jsonschema.NamedSchema jsonschema.Schema) (next : Domain)
    (hwithin : ∀ inner ∈ pair.Value.nested, inner ∈ domain.Schema.nested)
    (h : domain.buildDefinition pair = some next) (hs : domain.Sound) :
    next.Sound ∧ next.Schema = domain.Schema := by
  simp only [Domain.buildDefinition] at h
  split at h
  · simp at h
  · split at h
    · simp at h
    · rename_i d m hbuild
      simp only [Option.some.injEq] at h
      subst h
      obtain ⟨h1, hschema, h2⟩ := buildTypeForDefinition_sound _ _ _ _ _ hs hwithin hbuild
      obtain ⟨h3, h4⟩ := h2 m rfl
      exact ⟨h1.setTypeModel _ _ h3 h4, hschema⟩
    · rename_i d hbuild
      simp only [Option.some.injEq] at h
      subst h
      obtain ⟨h1, hschema, _⟩ := buildTypeForDefinition_sound _ _ _ _ _ hs hwithin hbuild
      exact ⟨h1, hschema⟩

theorem buildTypeRequest_sound (domain : Domain) (typeName : String) (next : Domain)
    (h : domain.buildTypeRequest typeName = some next) (hs : domain.Sound) :
    next.Sound ∧ next.Schema = domain.Schema := by
  simp only [Domain.buildTypeRequest] at h
  split at h
  · simp only [Option.some.injEq] at h
    rw [← h]
    exact ⟨hs, rfl⟩
  · rename_i request hget
    split at h
    · simp at h
    · rename_i d m hbuild
      simp only [Option.some.injEq] at h
      subst h
      obtain ⟨h1, hext, h2, h3⟩ := buildTypeForDefinitionObject_sound _ _ _ _ _ hs
        (hs.named typeName request hget).2 hbuild
      exact ⟨h1.setTypeModel _ _ h2 h3, hext.sameSchema⟩

theorem buildNamedTypes_sound (domain next : Domain) (h : domain.buildNamedTypes = some next)
    (hs : domain.Sound) : next.Sound ∧ next.Schema = domain.Schema := by
  simp only [Domain.buildNamedTypes] at h
  split at h
  · simp at h
  · rename_i d m hbuild
    obtain ⟨h1, h2⟩ := buildAccessors_derives _ _ _ _ (fun _ hr => hr) hbuild
    obtain ⟨h3, h4⟩ := fresh_derived _ _ _ _ rfl rfl rfl rfl rfl h1 h2
    have hset := (hs.derives h1).setTypeModel (domain.Prefix ++ "Document") m h3 h4
    have hschema : d.Schema = domain.Schema := h1.grows.sameSchema
    split at h
    · simp at h
    · rename_i definitions hdefinitions
      exact forEach_sound domain.Schema definitions _
        (fun current pair hmem after hstep hsound hroot => by
          have hpair : ∀ inner ∈ pair.Value.nested, inner ∈ current.Schema.nested := by
            intro inner hr
            rw [hroot, ← hschema]
            exact nested_of_definition d.Schema definitions pair hdefinitions hmem inner hr
          obtain ⟨e1, e2⟩ := buildDefinition_sound current pair after hpair hstep hsound
          exact ⟨e1, e2.trans hroot⟩)
        _ _ h hset hschema

theorem buildRequestedTypes_sound (domain next : Domain) (order : List String)
    (h : domain.buildRequestedTypes order = some next) (hs : domain.Sound) :
    next.Sound ∧ next.Schema = domain.Schema :=
  forEach_sound domain.Schema order _
    (fun current key _ after hstep hsound hroot =>
      ⟨(buildTypeRequest_sound current key after hstep hsound).1,
        (buildTypeRequest_sound current key after hstep hsound).2.trans hroot⟩)
    _ _ h hs rfl

theorem mem_insertSorted (s x : String) (l : List String) :
    x ∈ insertSorted s l ↔ x = s ∨ x ∈ l := by
  induction l with
  | nil => simp [insertSorted]
  | cons t ts ih =>
    simp only [insertSorted]
    split
    · simp only [List.mem_cons, ih]
      tauto
    · simp

theorem mem_sortStrings (x : String) (l : List String) : x ∈ sortStrings l ↔ x ∈ l := by
  induction l with
  | nil => simp [sortStrings]
  | cons s ss ih => simp [sortStrings, mem_insertSorted, ih]

theorem buildMapType_extends (domain : Domain) (mapTypeName : String) :
    (domain.buildMapType mapTypeName).Prefix = domain.Prefix ∧
    (domain.buildMapType mapTypeName).ObjectTypeRequests = domain.ObjectTypeRequests ∧
    (domain.buildMapType mapTypeName).MapTypeRequests = domain.MapTypeRequests ∧
    ∀ key, key ∈ (domain.buildMapType mapTypeName).TypeModels.keys ↔
      key = "Named" ++ Title mapTypeName ∨ key ∈ domain.TypeModels.keys :=
  ⟨rfl, rfl, rfl, fun _ => GoMap.mem_keys_set _ _ _ _⟩

theorem TracedName.congrName {domain next : Domain} {name : String} (h : TracedName domain name)
    (hp : next.Prefix = domain.Prefix) (hschema : next.Schema = domain.Schema)
    (hr : next.ObjectTypeRequests = domain.ObjectTypeRequests) : TracedName next name := by
  rcases h with h | ⟨ref, hmem, h⟩ | h
  · exact Or.inl h
  · exact Or.inr (Or.inl ⟨ref, by rw [hschema]; exact hmem, by
      rw [typeNameForReference_congr domain next ref hp, h]⟩)
  · exact Or.inr (Or.inr (by rw [hr]; exact h))

theorem Traced.congrProperty {domain next : Domain} {property : TypeProperty}
    (h : Traced domain property) (hp : next.Prefix = domain.Prefix)
    (hschema : next.Schema = domain.Schema)
    (hr : next.ObjectTypeRequests = domain.ObjectTypeRequests)
    (hm : next.MapTypeRequests = domain.MapTypeRequests) : Traced next property := by
  rcases h with ⟨h1, h2⟩ | ⟨h1, h2, h3⟩
  · refine Or.inl ⟨h1, ?_⟩
    rcases h2 with h2 | h2
    · exact Or.inl (h2.congrName hp hschema hr)
    · exact Or.inr (by rw [hschema]; exact h2)
  · exact Or.inr ⟨by rw [hm]; exact h1, h2.congrName hp hschema hr, h3⟩

theorem buildMapType_sound (domain : Domain) (mapTypeName : String) (hs : domain.Sound)
    (hname : TracedName domain mapTypeName) : (domain.buildMapType mapTypeName).Sound := by
  apply hs.setTypeModel
  · constructor
    · simp [wrapperKinds, NewTypeModel, TypeModel.AddProperty]
    · intro h
      simp [NewTypeModel, TypeModel.AddProperty] at h
  · intro property hmem
    simp only [TypeModel.AddProperty, NewTypeModel, List.nil_append, List.cons_append,
      List.mem_cons, List.mem_singleton, List.not_mem_nil, or_false] at hmem
    rcases hmem with h | h
    · rw [h]
      exact Or.inl ⟨rfl, Or.inl (tracedName_string _)⟩
    · rw [h]
      exact Or.inl ⟨rfl, Or.inl hname⟩

theorem foldl_buildMapType (names : List String) (domain : Domain) (hs : domain.Sound)
    (hnames : ∀ name ∈ names, TracedName domain name) :
    (names.foldl Domain.buildMapType domain).Sound ∧
    (names.foldl Domain.buildMapType domain).Prefix = domain.Prefix ∧
    (names.foldl Domain.buildMapType domain).ObjectTypeRequests = domain.ObjectTypeRequests ∧
    (names.foldl Domain.buildMapType domain).MapTypeRequests = domain.MapTypeRequests ∧
    (∀ key ∈ domain.TypeModels.keys,
      key ∈ (names.foldl Domain.buildMapType domain).TypeModels.keys) ∧
    (∀ name ∈ names,
      "Named" ++ Title name ∈ (names.foldl Domain.buildMapType domain).TypeModels.keys) := by
  induction names generalizing domain with
  | nil => exact ⟨hs, rfl, rfl, rfl, fun _ h => h, by simp⟩
  | cons name rest ih =>
    obtain ⟨e1, e2, e3, e4⟩ := buildMapType_extends domain name
    have hsound := buildMapType_sound domain name hs (hnames name (by simp))
    have hrest : ∀ other ∈ rest, TracedName (domain.buildMapType name) other :=
      fun other hmem => (hnames other (by simp [hmem])).congrName e1 rfl e2
    obtain ⟨i1, i2, i3, i4, i5, i6⟩ := ih (domain.buildMapType name) hsound hrest
    simp only [List.foldl_cons]
    refine ⟨i1, i2.trans e1, i3.trans e2, i4.trans e3, ?_, ?_⟩
    · intro key hkey
      exact i5 key ((e4 key).mpr (Or.inr hkey))
    · intro other hmem
      rcases List.mem_cons.mp hmem with h | h
      · rw [h]
        exact i5 _ ((e4 _).mpr (Or.inl rfl))
      · exact i6 other h

theorem buildMapAndBuiltinTypes_sound (domain : Domain) (hs : domain.Sound) :
    domain.buildMapAndBuiltinTypes.Sound ∧
    domain.buildMapAndBuiltinTypes.Prefix = domain.Prefix ∧
    domain.buildMapAndBuiltinTypes.ObjectTypeRequests = domain.ObjectTypeRequests ∧
    domain.buildMapAndBuiltinTypes.MapTypeRequests = domain.MapTypeRequests ∧
    (∀ key ∈ domain.TypeModels.keys, key ∈ domain.buildMapAndBuiltinTypes.TypeModels.keys) ∧
    (∀ name ∈ domain.MapTypeRequests.keys,
      "Named" ++ Title name ∈ domain.buildMapAndBuiltinTypes.TypeModels.keys) ∧
    "StringArray" ∈ domain.buildMapAndBuiltinTypes.TypeModels.keys ∧
    "Any" ∈ domain.buildMapAndBuiltinTypes.TypeModels.keys := by
  have hnames : ∀ name ∈ sortStrings domain.MapTypeRequests.keys, TracedName domain name :=
    fun name hmem => hs.mapTypes name ((mem_sortStrings _ _).mp hmem)
  obtain ⟨i1, i2, i3, i4, i5, i6⟩ :=
    foldl_buildMapType (sortStrings domain.MapTypeRequests.keys) domain hs hnames
  have hstring := i1.setTypeModel "StringArray"
    ({ NewTypeModel with Name := "StringArray" }.AddProperty
      { NewTypeProperty with Name := "value", Type_ := "string", Repeated := true })
    ⟨by simp [wrapperKinds, NewTypeModel, TypeModel.AddProperty],
      by simp [NewTypeModel, TypeModel.AddProperty]⟩
    (by
      intro property hmem
      simp only [TypeModel.AddProperty, NewTypeModel, List.nil_append,
        List.mem_singleton] at hmem
      rw [hmem]
      exact Or.inl ⟨rfl, Or.inl (tracedName_string _)⟩)
  have hany := hstring.setTypeModel "Any"
    ({ NewTypeModel with Name := "Any", Open := true, IsBlob := true }.AddProperty
      { NewTypeProperty with Name := "value", Type_ := "blob" })
    ⟨by simp [wrapperKinds, NewTypeModel, TypeModel.AddProperty],
      by simp [NewTypeModel, TypeModel.AddProperty]⟩
    (by
      intro property hmem
      simp only [TypeModel.AddProperty, NewTypeModel, List.nil_append,
        List.mem_singleton] at hmem
      rw [hmem]
      exact Or.inl ⟨rfl, Or.inl (Or.inl (by simp [NewTypeProperty]))⟩)
  refine ⟨hany, i2, i3, i4, ?_, ?_, ?_, ?_⟩
  · intro key hkey
    exact (GoMap.mem_keys_set _ _ _ _).mpr (Or.inr ((GoMap.mem_keys_set _ _ _ _).mpr
      (Or.inr (i5 key hkey))))
  · intro name hname
    exact (GoMap.mem_keys_set _ _ _ _).mpr (Or.inr ((GoMap.mem_keys_set _ _ _ _).mpr
      (Or.inr (i6 name ((mem_sortStrings _ _).mpr hname)))))
  · exact (GoMap.mem_keys_set _ _ _ _).mpr (Or.inr ((GoMap.mem_keys_set _ _ _ _).mpr
      (Or.inl rfl)))
  · exact (GoMap.mem_keys_set _ _ _ _).mpr (Or.inl rfl)

/-! ## The loop over the type requests -/

theorem buildTypeRequest_keys (domain next : Domain) (key : String) (hs : domain.Sound)
    (h : domain.buildTypeRequest key = some next) :
    (∀ name ∈ domain.TypeModels.keys, name ∈ next.TypeModels.keys) ∧
    (domain.ObjectTypeRequests.contains key = true → key ∈ next.TypeModels.keys) := by
  simp only [Domain.buildTypeRequest] at h
  split at h
  · rename_i hget
    simp only [Option.some.injEq] at h
    subst h
    exact ⟨fun _ hname => hname, by simp [GoMap.contains, hget]⟩
  · rename_i request hget
    split at h
    · simp at h
    · rename_i d m hbuild
      simp only [Option.some.injEq] at h
      subst h
      obtain ⟨_, hext, _, _⟩ := buildTypeForDefinitionObject_sound _ _ _ _ _ hs
        (hs.named key request hget).2 hbuild
      have hmodels : d.TypeModels = domain.TypeModels := hext.sameTypeModels
      have hname : request.Name = key := (hs.named key request hget).1
      constructor
      · intro name hmem
        exact (GoMap.mem_keys_set _ _ _ _).mpr (Or.inr (by rw [hmodels]; exact hmem))
      · intro _
        exact (GoMap.mem_keys_set _ _ _ _).mpr (Or.inl hname.symm)

theorem rangeOrderFrom_produces (order : List String) (initial produced : List String)
    (domain final : Domain) (hs : domain.Sound)
    (hlegal : Domain.rangeOrderFrom initial produced domain order = true)
    (hrun : forEach Domain.buildTypeRequest domain order = some final)
    (hproduced : ∀ key ∈ produced, key ∈ domain.TypeModels.keys) :
    ∀ key ∈ initial, key ∈ final.TypeModels.keys := by
  induction order generalizing produced domain with
  | nil =>
    simp only [forEach, Option.some.injEq] at hrun
    subst hrun
    simp only [Domain.rangeOrderFrom, List.all_eq_true] at hlegal
    intro key hkey
    exact hproduced key (by simpa using hlegal key hkey)
  | cons key rest ih =>
    simp only [forEach] at hrun
    cases hstep : domain.buildTypeRequest key with
    | none => simp [hstep] at hrun
    | some next =>
      simp only [hstep] at hrun
      simp only [Domain.rangeOrderFrom, hstep, Bool.and_eq_true] at hlegal
      obtain ⟨⟨_, hcontains⟩, hrest⟩ := hlegal
      obtain ⟨hkeep, hnew⟩ := buildTypeRequest_keys domain next key hs hstep
      apply ih (key :: produced) next (buildTypeRequest_sound domain key next hstep hs).1 hrest
        hrun
      intro other hother
      rcases List.mem_cons.mp hother with e | e
      · rw [e]
        exact hnew hcontains
      · exact hkeep other (hproduced other e)

/-- What the loop of `build` over `ObjectTypeRequests` does guarantee: in every
run that Go allows, every type request that is recorded when the loop starts has
a type model under its name when `build` returns. -/
theorem build_produces_started_requests (domain started final : Domain) (order : List String)
    (hs : domain.Sound) (hstarted : domain.buildNamedTypes = some started)
    (hlegal : domain.isRangeOrder order = true) (h : domain.build order = some final) :
    ∀ key ∈ started.ObjectTypeRequests.keys, key ∈ final.TypeModels.keys := by
  simp only [Domain.isRangeOrder, hstarted] at hlegal
  simp only [Domain.build, hstarted] at h
  cases hrun : started.buildRequestedTypes order with
  | none => simp [hrun] at h
  | some requested =>
    simp only [hrun, Option.some.injEq] at h
    subst h
    have hsound := (buildNamedTypes_sound domain started hstarted hs).1
    have hkeys := rangeOrderFrom_produces order _ [] started requested hsound hlegal hrun
      (by simp)
    obtain ⟨_, _, _, _, hkeep, _⟩ := buildMapAndBuiltinTypes_sound requested
      (buildRequestedTypes_sound started requested order hrun hsound).1
    intro key hkey
    exact hkeep key (hkeys key hkey)

theorem NewDomain_sound (schema : jsonschema.Schema) (typePrefix : String)
    (patternNames : GoMap String) :
    Domain.Sound { NewDomain schema with Prefix := typePrefix, PatternNames := patternNames } :=
  ⟨by simp [NewDomain, GoMap.empty, GoMap.keys], by simp [NewDomain, GoMap.empty, GoMap.values],
    by simp [NewDomain, GoMap.empty, GoMap.values],
    by intro key request h; simp [NewDomain, GoMap.empty, GoMap.get, GoMap.getEntries] at h⟩

theorem build_sound (domain final : Domain) (order : List String) (hs : domain.Sound)
    (h : domain.build order = some final) :
    final.Sound ∧
    (∀ name ∈ final.MapTypeRequests.keys, "Named" ++ Title name ∈ final.TypeModels.keys) ∧
    "StringArray" ∈ final.TypeModels.keys ∧ "Any" ∈ final.TypeModels.keys := by
  simp only [Domain.build] at h
  cases h1 : domain.buildNamedTypes with
  | none => simp [h1] at h
  | some named =>
    simp only [h1] at h
    cases h2 : named.buildRequestedTypes order with
    | none => simp [h2] at h
    | some requested =>
      simp only [h2, Option.some.injEq] at h
      subst h
      have hsound := (buildRequestedTypes_sound named requested order h2
        (buildNamedTypes_sound domain named h1 hs).1).1
      obtain ⟨i1, _, _, i4, _, i6, i7, i8⟩ := buildMapAndBuiltinTypes_sound requested hsound
      refine ⟨i1, ?_, i7, i8⟩
      intro name hname
      rw [i4] at hname
      exact i6 name hname

/-- C5 as amended, wrapper kinds: for every schema, prefix and pattern-name
configuration, and whatever the order in which the loop of `build` produces the
type requests, every TypeModel in the Domain after `build` has at most one of
the wrapper flags `IsPair`, `IsStringArray`, `IsItemArray`, `IsBlob` set to true,
and `OneOfWrapper` is not set together with `IsPair` or `IsBlob`. -/
theorem build_wrapper_kinds (schema : jsonschema.Schema) (typePrefix : String)
    (patternNames : GoMap String) (order : List String) (final : Domain)
    (h : Domain.build { NewDomain schema with Prefix := typePrefix, PatternNames := patternNames }
      order = some final) :
    ∀ typeModel ∈ final.TypeModels.values,
      wrapperKinds typeModel ≤ 1 ∧
      (typeModel.OneOfWrapper = true → typeModel.IsPair = false ∧ typeModel.IsBlob = false) :=
  (build_sound _ final order (NewDomain_sound schema typePrefix patternNames) h).1.kinds

/-- C5 as amended, at the catalog schema: the run produces both type requests,
`build` completes, and every type of the domain has the wrapper kinds stated. -/
theorem build_wrapper_kinds_witness :
    catalogDomain.isRangeOrder catalogOrder = true ∧
    ∃ final, catalogDomain.build catalogOrder = some final ∧
      final.TypeModels.keys = ["OpenAPIDocument", "OpenAPIParameter", "OpenAPIInfo",
        "OpenAPIChoiceItem", "NamedAny", "StringArray", "Any"] ∧
      ∀ typeModel ∈ final.TypeModels.values,
        wrapperKinds typeModel ≤ 1 ∧
        (typeModel.OneOfWrapper = true →
          typeModel.IsPair = false ∧ typeModel.IsBlob = false) := by
  refine ⟨by decide, ?_⟩
  have hkeys : (catalogDomain.build catalogOrder).map (fun final : Domain =>
      final.TypeModels.keys) = some ["OpenAPIDocument", "OpenAPIParameter", "OpenAPIInfo",
        "OpenAPIChoiceItem", "NamedAny", "StringArray", "Any"] := by rfl
  cases h : catalogDomain.build catalogOrder with
  | none =>
    rw [h] at hkeys
    exact absurd hkeys (by simp)
  | some final =>
    rw [h] at hkeys
    simp only [Option.map_some', Option.some.injEq] at hkeys
    exact ⟨final, rfl, hkeys,
      build_wrapper_kinds catalogSchema "OpenAPI" catalogPatternNames catalogOrder final h⟩

/-- The two conditions of the closure theorem are needed. In the run of `build`
on `nestedRequestSchema` that produces only the request `A`, the request `B` gets
no type and the property `b` of type `B` is not closed; with the prefix
`swagger`, the map property of `pathsSchema` is typed `NamedswaggerPathItem`,
which no type of the domain is named: in both runs the conclusion of the closure
theorem fails. -/
theorem closure_needs_conditions :
    (∃ final, (NewDomain nestedRequestSchema).build ["A"] = some final ∧
      ¬ (∀ typeModel ∈ final.TypeModels.values, ∀ property ∈ typeModel.Properties,
        (Closed final property.Type_ ∨
          (∃ ref ∈ nestedRequestSchema.refs,
            final.typeNameForReference ref = some property.Type_) ∨
          (property.MapType = "" ∧ property.Repeated = true ∧ property.Implicit = false ∧
            ∃ item ∈ nestedRequestSchema.itemSchemas,
              property.Type_ = Domain.itemTypeNameForTypes "Any" item.Type_)) ∧
        (property.MapType = "" ∨ Closed final property.MapType ∨
          ∃ ref ∈ nestedRequestSchema.refs,
            final.typeNameForReference ref = some property.MapType))) ∧
    (∃ final, (pathsDomain "swagger").build [] = some final ∧
      (∀ key ∈ final.ObjectTypeRequests.keys, key ∈ final.TypeModels.keys) ∧
      ¬ (∀ typeModel ∈ final.TypeModels.values, ∀ property ∈ typeModel.Properties,
        (Closed final property.Type_ ∨
          (∃ ref ∈ pathsSchema.refs, final.typeNameForReference ref = some property.Type_) ∨
          (property.MapType = "" ∧ property.Repeated = true ∧ property.Implicit = false ∧
            ∃ item ∈ pathsSchema.itemSchemas,
              property.Type_ = Domain.itemTypeNameForTypes "Any" item.Type_)) ∧
        (property.MapType = "" ∨ Closed final property.MapType ∨
          ∃ ref ∈ pathsSchema.refs,
            final.typeNameForReference ref = some property.MapType))) := by
  refine ⟨⟨_, rfl, ?_⟩, ⟨_, rfl, ?_, ?_⟩⟩
  · unfold Closed
    decide
  · decide
  · unfold Closed
    decide

/-! ## Array properties -/

theorem typeNameForStub_item_any (domain : Domain) (stub : String) :
    domain.typeNameForStub (stub ++ "Item") =
      some (domain.Prefix ++ Capitalize stub ++ "Item") := by
  by_cases h : stub = ""
  · subst h
    have h1 : ("" ++ "Item" : String) = "Item" := by decide
    have h2 : Capitalize "Item" = "Item" := by decide
    have h3 : Capitalize "" = "" := by decide
    rw [h1, typeNameForStub_eq _ _ (by decide), h2, h3, String.append_empty]
  · exact typeNameForStub_item domain stub h

theorem forEach_preserves {σ α β : Type} (f : σ → β) (body : σ → α → Option σ)
    (hbody : ∀ state a next, body state a = some next → f next = f state)
    (l : List α) (state next : σ) (h : forEach body state l = some next) :
    f next = f state := by
  induction l generalizing state with
  | nil =>
    simp only [forEach, Option.some.injEq] at h
    rw [h]
  | cons a rest ih =>
    simp only [forEach] at h
    cases hstep : body state a with
    | none => simp [hstep] at h
    | some middle =>
      simp only [hstep] at h
      rw [ih middle h, hbody state a middle hstep]

theorem buildTypeProperty_required (state : Domain × TypeModel)
    (pair : jsonschema.NamedSchema jsonschema.Schema) (next : Domain × TypeModel)
    (h : Domain.buildTypeProperty state pair = some next) :
    next.2.Required = state.2.Required := by
  simp only [Domain.buildTypeProperty] at h
  repeat' split at h
  all_goals
    first
    | (simp only [Option.some.injEq] at h
       subst h
       rfl)
    | (simp only [Option.map_eq_some'] at h
       obtain ⟨a, _, h1⟩ := h
       subst h1
       rfl)

theorem buildTypeProperties_required (domain : Domain) (typeModel : TypeModel)
    (schema : jsonschema.Schema) (next : Domain × TypeModel)
    (h : domain.buildTypeProperties typeModel schema = some next) :
    next.2.Required = typeModel.Required := by
  simp only [Domain.buildTypeProperties] at h
  split at h
  · exact forEach_preserves (fun state : Domain × TypeModel => state.2.Required) _
      buildTypeProperty_required _ _ _ h
  · simp only [Option.some.injEq] at h
    rw [← h]

theorem buildPatternPropertyAccessors_required (domain : Domain) (typeModel : TypeModel)
    (schema : jsonschema.Schema) (next : Domain × TypeModel)
    (h : domain.buildPatternPropertyAccessors typeModel schema = some next) :
    next.2.Required = typeModel.Required := by
  simp only [Domain.buildPatternPropertyAccessors] at h
  split at h
  · refine forEach_preserves (fun state : Domain × TypeModel => state.2.Required) _ ?_ _ _ _ h
    intro state pair middle hstep
    simp only [Domain.buildPatternPropertyAccessor, Option.map_eq_some'] at hstep
    obtain ⟨_, _, hstep⟩ := hstep
    subst hstep
    rfl
  · simp only [Option.some.injEq] at h
    rw [← h]

theorem buildAdditionalPropertyAccessors_required (domain : Domain) (typeModel : TypeModel)
    (schema : jsonschema.Schema) (next : Domain × TypeModel)
    (h : domain.buildAdditionalPropertyAccessors typeModel schema = some next) :
    next.2.Required = typeModel.Required := by
  simp only [Domain.buildAdditionalPropertyAccessors] at h
  repeat' split at h
  all_goals
    first
    | (simp only [Option.some.injEq] at h
       subst h
       rfl)
    | (simp only [Option.map_eq_some'] at h
       obtain ⟨a, _, h1⟩ := h
       subst h1
       rfl)
    | simp at h

theorem buildOneOfAccessor_required (domain : Domain) (model : TypeModel)
    (oneOf : jsonschema.Schema) (middle : TypeModel)
    (hstep : domain.buildOneOfAccessor model oneOf = some middle) :
    middle.Required = model.Required := by
  simp only [Domain.buildOneOfAccessor] at hstep
  split at hstep
  · simp only [Option.map_eq_some'] at hstep
    obtain ⟨a, _, h1⟩ := hstep
    subst h1
    split <;> rfl
  · split at hstep
    all_goals
      simp only [Option.some.injEq] at hstep
      subst hstep
      rfl

theorem buildOneOfAccessors_required (domain : Domain) (typeModel : TypeModel)
    (schema : jsonschema.Schema) (next : TypeModel)
    (h : domain.buildOneOfAccessors typeModel schema = some next) :
    next.Required = typeModel.Required := by
  simp only [Domain.buildOneOfAccessors] at h
  split at h
  · simp only [Option.some.injEq] at h
    rw [← h]
  · exact (forEach_preserves (fun model : TypeModel => model.Required) _
      (buildOneOfAccessor_required domain) _
      { typeModel with Open := true, OneOfWrapper := true } _ h).trans rfl

theorem addAnonymousAccessorForSchema_required (domain : Domain) (typeModel : TypeModel)
    (schema : jsonschema.Schema) (repeated : Bool) (next : TypeModel)
    (h : domain.addAnonymousAccessorForSchema typeModel schema repeated = some next) :
    next.Required = typeModel.Required := by
  simp only [Domain.addAnonymousAccessorForSchema] at h
  split at h
  · simp only [Option.map_eq_some'] at h
    obtain ⟨a, _, h1⟩ := h
    subst h1
    first | rfl | (split <;> rfl)
  · simp only [Option.some.injEq] at h
    subst h
    rfl

theorem buildAnyOfAccessor_required (domain : Domain) (model : TypeModel)
    (anyOf : jsonschema.Schema) (middle : TypeModel)
    (hstep : domain.buildAnyOfAccessor model anyOf = some middle) :
    middle.Required = model.Required := by
  simp only [Domain.buildAnyOfAccessor] at hstep
  split at hstep
  · simp only [Option.map_eq_some'] at hstep
    obtain ⟨a, _, h1⟩ := hstep
    subst h1
    first | rfl | (split <;> rfl)
  · simp only [Option.some.injEq] at hstep
    subst hstep
    rfl

theorem buildAnyOfAccessors_required (domain : Domain) (typeModel : TypeModel)
    (schema : jsonschema.Schema) (next : TypeModel)
    (h : domain.buildAnyOfAccessors typeModel schema = some next) :
    next.Required = typeModel.Required := by
  simp only [Domain.buildAnyOfAccessors] at h
  repeat' split at h
  all_goals
    first
    | (simp only [Option.some.injEq] at h
       subst h
       rfl)
    | exact addAnonymousAccessorForSchema_required _ _ _ _ _ h
    | exact forEach_preserves (fun model : TypeModel => model.Required) _
        (buildAnyOfAccessor_required domain) _ _ _ h
    | simp at h

theorem buildTypeRequirements_eq (domain : Domain) (typeModel : TypeModel)
    (schema : jsonschema.Schema) :
    (domain.buildTypeRequirements typeModel schema).Required =
      schema.Required.getD typeModel.Required := by
  cases hr : schema.Required <;> simp [Domain.buildTypeRequirements, hr]

theorem buildAccessors_required (domain : Domain) (typeModel : TypeModel)
    (schema : jsonschema.Schema) (next : Domain × TypeModel)
    (h : domain.buildAccessors typeModel schema = some next) :
    next.2.Required = schema.Required.getD typeModel.Required := by
  simp only [Domain.buildAccessors] at h
  cases h1 : domain.buildTypeProperties typeModel schema with
  | none => simp [h1] at h
  | some s1 =>
    obtain ⟨d1, m1⟩ := s1
    simp only [h1] at h
    cases h2 : d1.buildPatternPropertyAccessors (d1.buildTypeRequirements m1 schema) schema with
    | none => simp [h2] at h
    | some s2 =>
      obtain ⟨d2, m2⟩ := s2
      simp only [h2] at h
      cases h3 : d2.buildAdditionalPropertyAccessors m2 schema with
      | none => simp [h3] at h
      | some s3 =>
        obtain ⟨d3, m3⟩ := s3
        simp only [h3] at h
        cases h4 : d3.buildOneOfAccessors m3 schema with
        | none => simp [h4] at h
        | some m4 =>
          simp only [h4] at h
          cases h5 : d3.buildAnyOfAccessors m4 schema with
          | none => simp [h5] at h
          | some m5 =>
            simp only [h5, Option.some.injEq] at h
            subst h
            have e1 := buildTypeProperties_required domain typeModel schema _ h1
            have e2 := buildTypeRequirements_eq d1 m1 schema
            have e3 := buildPatternPropertyAccessors_required d1 _ schema _ h2
            have e4 := buildAdditionalPropertyAccessors_required d2 m2 schema _ h3
            have e5 := buildOneOfAccessors_required d3 m3 schema _ h4
            have e6 := buildAnyOfAccessors_required d3 m4 schema _ h5
            simp only at e1 e3 e4
            rw [e6, e5, e4, e3, e2, e1]

/-- C12, required list: the type model that the derivation rules derive from a
schema has `Required` equal to the required list of the schema, element for
element in the same order, and an empty `Required` when the schema has no
required list: so for the type model that `build` derives from the top-level
schema (the six rules applied to a new type model), and so for the type model
that `buildTypeForDefinitionObject` and `buildTypeForDefinition` derive for a
definition or an anonymous object type, whenever they return one. -/
theorem build_required (domain : Domain) (typeName propertyName : String)
    (schema : jsonschema.Schema) :
    (∀ next, domain.buildAccessors { NewTypeModel with Name := typeName } schema = some next →
      next.2.Required = schema.Required.getD []) ∧
    (∀ next, domain.buildTypeForDefinitionObject typeName propertyName schema = some next →
      next.2.Required = schema.Required.getD []) ∧
    (∀ next typeModel,
      domain.buildTypeForDefinition typeName propertyName schema = some (next, some typeModel) →
      typeModel.Required = schema.Required.getD []) := by
  have hobject : ∀ next,
      domain.buildTypeForDefinitionObject typeName propertyName schema = some next →
      next.2.Required = schema.Required.getD [] := by
    intro next h
    simp only [Domain.buildTypeForDefinitionObject] at h
    split at h
    · rename_i hempty
      simp only [Option.some.injEq] at h
      subst h
      have hnone : schema.Required = none := by
        simp only [jsonschema.Schema.IsEmpty, Bool.and_eq_true,
          Option.isNone_iff_eq_none] at hempty
        exact hempty.1.1.1.1.1.1.1.2
      simp [hnone, Domain.buildDefaultAccessors, TypeModel.AddProperty, NewTypeModel]
    · have hr := buildAccessors_required _ _ _ _ h
      cases hd : schema.Description <;> simpa [hd, NewTypeModel] using hr
  refine ⟨?_, hobject, ?_⟩
  · intro next h
    simpa [NewTypeModel] using buildAccessors_required _ _ _ _ h
  · intro next typeModel h
    simp only [Domain.buildTypeForDefinition] at h
    repeat' split at h
    all_goals
      first
      | (simp only [Option.map_eq_some', Prod.mk.injEq, Option.some.injEq] at h
         obtain ⟨result, hresult, _, h2⟩ := h
         rw [← h2]
         exact hobject result hresult)
      | simp at h

/-- C12 at an object schema requiring `url` and `name`: the type derived for
it requires `url` and `name`, in this order. -/
theorem build_required_witness :
    ∃ next, (NewDomain requiredSchema).buildTypeForDefinitionObject "Contact" "contact"
        requiredSchema = some next ∧
      next.2.Required = ["url", "name"] :=
  ⟨_, rfl, (build_required (NewDomain requiredSchema) "Contact" "contact" requiredSchema).2.1 _ rfl⟩

/-! ## Pattern properties -/

theorem patternMapType_congr (d domain : Domain) (hp : d.Prefix = domain.Prefix)
    (schema : jsonschema.Schema) : patternMapType d schema = patternMapType domain schema := by
  simp only [patternMapType, Domain.typeNameForReference, Domain.typeNameForStub, hp]

theorem buildPatternPropertyAccessor_eq (d : Domain) (m : TypeModel)
    (pair : jsonschema.NamedSchema jsonschema.Schema) :
    Domain.buildPatternPropertyAccessor (d, m) pair =
      (patternMapType d pair.Value).map fun typeName =>
        ({ d with MapTypeRequests := d.MapTypeRequests.set typeName typeName },
         { m with
           OpenPatterns := m.OpenPatterns ++ [pair.Name]
           Properties := m.Properties ++
             [{ Name := (d.PatternNames.get pair.Name).getD "", Type_ := "Named" ++ typeName,
                MapType := typeName, Repeated := true, Pattern := pair.Name, Implicit := true,
                Description := "" }] }) := rfl

theorem forEach_buildPatternPropertyAccessor (domain : Domain)
    (patterns : List (jsonschema.NamedSchema jsonschema.Schema))
    (hdefined : ∀ pair ∈ patterns, (patternMapType domain pair.Value).isSome = true)
    (d : Domain) (m : TypeModel) (hp : d.Prefix = domain.Prefix)
    (hn : d.PatternNames = domain.PatternNames) :
    forEach Domain.buildPatternPropertyAccessor (d, m) patterns =
      some ({ d with MapTypeRequests := recordPatternTypes domain patterns d.MapTypeRequests },
            { m with
              OpenPatterns := m.OpenPatterns ++ patterns.map fun pair => pair.Name
              Properties := m.Properties ++ patterns.map (patternProperty domain) }) := by
  induction patterns generalizing d m with
  | nil => simp [forEach, recordPatternTypes]
  | cons pair rest ih =>
    obtain ⟨typeName, htype⟩ := Option.isSome_iff_exists.mp (hdefined pair (List.mem_cons_self _ _))
    have htype2 : patternMapType d pair.Value = some typeName := by
      rw [patternMapType_congr d domain hp, htype]
    rw [forEach, buildPatternPropertyAccessor_eq, htype2]
    simp only [Option.map_some']
    refine (ih (fun other hother => hdefined other (List.mem_cons_of_mem _ hother))
      { d with MapTypeRequests := d.MapTypeRequests.set typeName typeName } _ hp hn).trans ?_
    simp [recordPatternTypes, patternProperty, htype, hn]

theorem recordPatternTypes_get (domain : Domain)
    (patterns : List (jsonschema.NamedSchema jsonschema.Schema)) (requests : GoMap String)
    (key : String) :
    (recordPatternTypes domain patterns requests).get key =
      if key ∈ patterns.map (fun pair => (patternMapType domain pair.Value).getD "") then some key
      else requests.get key := by
  induction patterns generalizing requests with
  | nil => simp [recordPatternTypes]
  | cons pair rest ih =>
    have hstep : recordPatternTypes domain (pair :: rest) requests =
        recordPatternTypes domain rest
          (requests.set ((patternMapType domain pair.Value).getD "")
            ((patternMapType domain pair.Value).getD "")) := rfl
    rw [hstep, ih]
    by_cases hrest : key ∈ rest.map (fun pair => (patternMapType domain pair.Value).getD "")
    · simp only [List.map_cons, List.mem_cons, hrest, or_true, if_true]
    · rw [if_neg hrest]
      by_cases hkey : key = (patternMapType domain pair.Value).getD ""
      · rw [if_pos (by simp [hkey]), ← hkey, GoMap.get_set_self]
      · rw [GoMap.get_set_ne _ _ _ _ hkey, if_neg (by simp [hrest, hkey])]

/-- C13, pattern properties: for a schema with the pattern-property list
`patterns`, where the map type `Ti` of every pattern property has a value (the
type named after the `$ref` of its schema, or `Any` when the schema has no
`$ref`), `buildPatternPropertyAccessors` returns the type model with
`OpenPatterns` equal to the patterns in order and with one more property for
each pattern property, in order, appended to the properties it had; the
property of the pattern `pi` has `Pattern = pi`, `Implicit = true`,
`Repeated = true`, `MapType = Ti`, `Type` equal to `Named` followed by `Ti`, and
the name that `PatternNames` has for `pi` (the empty name when it has none);
`MapTypeRequests` then has every `Ti` recorded under itself, its other entries
are unchanged, and nothing else of the domain changes. -/
theorem buildPatternPropertyAccessors_patterns (domain : Domain) (typeModel : TypeModel)
    (schema : jsonschema.Schema) (patterns : List (jsonschema.NamedSchema jsonschema.Schema))
    (hpatterns : schema.PatternProperties = some patterns)
    (hdefined : ∀ pair ∈ patterns, (patternMapType domain pair.Value).isSome = true) :
    domain.buildPatternPropertyAccessors typeModel schema =
      some ({ domain with
              MapTypeRequests := recordPatternTypes domain patterns domain.MapTypeRequests },
            { typeModel with
              OpenPatterns := patterns.map fun pair => pair.Name
              Properties := typeModel.Properties ++ patterns.map (patternProperty domain) }) ∧
    (∀ pair ∈ patterns, ∃ mapType,
      patternMapType domain pair.Value = some mapType ∧
      (∀ ref, pair.Value.Ref = some ref → domain.typeNameForReference ref = some mapType) ∧
      (pair.Value.Ref = none → mapType = "Any") ∧
      patternProperty domain pair =
        { Name := (domain.PatternNames.get pair.Name).getD "", Type_ := "Named" ++ mapType,
          MapType := mapType, Repeated := true, Pattern := pair.Name, Implicit := true,
          Description := "" } ∧
      (∀ name, domain.PatternNames.get pair.Name = some name →
        (patternProperty domain pair).Name = name) ∧
      (recordPatternTypes domain patterns domain.MapTypeRequests).get mapType = some mapType) ∧
    (∀ key, key ∉ patterns.map (fun pair => (patternMapType domain pair.Value).getD "") →
      (recordPatternTypes domain patterns domain.MapTypeRequests).get key =
        domain.MapTypeRequests.get key) := by
  refine ⟨?_, ?_, ?_⟩
  · simp only [Domain.buildPatternPropertyAccessors, hpatterns]
    refine (forEach_buildPatternPropertyAccessor domain patterns hdefined domain _ rfl rfl).trans ?_
    simp
  · intro pair hpair
    obtain ⟨mapType, htype⟩ := Option.isSome_iff_exists.mp (hdefined pair hpair)
    refine ⟨mapType, htype, ?_, ?_, ?_, ?_, ?_⟩
    · intro ref href
      simpa [patternMapType, href] using htype
    · intro href
      simpa [patternMapType, href] using htype.symm
    · simp [patternProperty, htype]
    · intro name hname
      simp [patternProperty, hname]
    · rw [recordPatternTypes_get, if_pos]
      exact List.mem_map.mpr ⟨pair, hpair, by simp [htype]⟩
  · intro key hkey
    rw [recordPatternTypes_get, if_neg hkey]

/-- C13 at a schema with the two pattern properties `^x-`, of any value, and
`^/`, referring to `#/definitions/pathItem`, under the prefix `OpenAPI`. -/
theorem buildPatternPropertyAccessors_patterns_witness :
    (patternsDomain.buildPatternPropertyAccessors NewTypeModel patternsSchema).map
      (fun state : Domain × TypeModel =>
        (state.1.MapTypeRequests.entries, state.2.OpenPatterns,
         state.2.Properties.map fun property : TypeProperty =>
          (property.Name, property.Type_, property.MapType, property.Pattern,
           property.Implicit, property.Repeated))) =
      some ([("Any", "Any"), ("OpenAPIPathItem", "OpenAPIPathItem")], ["^x-", "^/"],
            [("vendorExtension", "NamedAny", "Any", "^x-", true, true),
             ("path", "NamedOpenAPIPathItem", "OpenAPIPathItem", "^/", true, true)]) := by
  rw [(buildPatternPropertyAccessors_patterns patternsDomain NewTypeModel patternsSchema
    [⟨"^x-", jsonschema.emptySchema⟩, ⟨"^/", jsonschema.refSchema "#/definitions/pathItem"⟩]
    rfl (by decide)).1]
  rfl

/-! ## Additional properties -/

/-- C14, additional properties given by a boolean: when `additionalProperties` is
the boolean `true`, `buildAdditionalPropertyAccessors` returns the type model
with `Open = true` and with the one property `additionalProperties` of type
`NamedAny` and map type `Any`, implicit and repeated, appended to the
properties it had, and the domain with `Any` recorded in `MapTypeRequests` and
nothing else changed; when `additionalProperties` is the boolean `false`, or is
absent, it returns the domain and the type model unchanged. -/
theorem buildAdditionalPropertyAccessors_boolean (domain : Domain) (typeModel : TypeModel)
    (schema : jsonschema.Schema) :
    (∀ other, schema.AdditionalProperties = some ⟨other, some true⟩ →
      domain.buildAdditionalPropertyAccessors typeModel schema =
        some ({ domain with MapTypeRequests := domain.MapTypeRequests.set "Any" "Any" },
              { typeModel with
                Open := true
                Properties := typeModel.Properties ++ [additionalProperty "NamedAny" "Any"] }) ∧
      ({ domain with MapTypeRequests := domain.MapTypeRequests.set "Any" "Any" } :
        Domain).MapTypeRequests.get "Any" = some "Any") ∧
    (∀ other, schema.AdditionalProperties = some ⟨other, some false⟩ →
      domain.buildAdditionalPropertyAccessors typeModel schema = some (domain, typeModel)) ∧
    (schema.AdditionalProperties = none →
      domain.buildAdditionalPropertyAccessors typeModel schema = some (domain, typeModel)) := by
  refine ⟨?_, ?_, ?_⟩
  · intro other h
    refine ⟨?_, GoMap.get_set_self _ _ _⟩
    simp only [Domain.buildAdditionalPropertyAccessors, h]
    rfl
  · intro other h
    simp only [Domain.buildAdditionalPropertyAccessors, h]
    rfl
  · intro h
    simp only [Domain.buildAdditionalPropertyAccessors, h]

/-- C14 at `catalogSchema`, whose `additionalProperties` is `true`. -/
theorem buildAdditionalPropertyAccessors_boolean_witness :
    (catalogDomain.buildAdditionalPropertyAccessors NewTypeModel catalogSchema).map
      (fun state : Domain × TypeModel =>
        (state.1.MapTypeRequests.entries, state.2.Open,
         state.2.Properties.map fun property : TypeProperty =>
          (property.Name, property.Type_, property.MapType, property.Implicit,
           property.Repeated))) =
      some ([("Any", "Any")], true, [("additionalProperties", "NamedAny", "Any", true, true)]) := by
  rw [((buildAdditionalPropertyAccessors_boolean catalogDomain NewTypeModel catalogSchema).1
    none rfl).1]
  rfl

/-- C15 fails for a schema `S` that has an inline `oneOf` and a type: with
`additionalProperties` equal to `{"type": "object", "oneOf": [...]}`,
`buildAdditionalPropertyAccessors` makes the type model open and appends no
property, records no map type and no type request. -/
theorem buildAdditionalPropertyAccessors_typed_oneOf :
    typedOneOfSchema.OneOf.isSome = true ∧
    ((NewDomain (mapSchema typedOneOfSchema)).buildAdditionalPropertyAccessors
        { NewTypeModel with Name := "Catalog" } (mapSchema typedOneOfSchema)).map
      (fun state : Domain × TypeModel =>
        (state.1.MapTypeRequests.entries, state.1.ObjectTypeRequests.keys, state.2.Open,
         state.2.Properties)) =
      some ([], [], true, []) :=
  ⟨rfl, rfl⟩

theorem buildAdditionalPropertyAccessors_returns (domain : Domain) (typeModel : TypeModel)
    (schema S : jsonschema.Schema)
    (hadditional : schema.AdditionalProperties = some ⟨some S, none⟩) :
    (domain.buildAdditionalPropertyAccessors typeModel schema).isSome =
      match S.Ref with
      | some ref => (domain.typeNameForReference ref).isSome
      | none => hasSingleTypeNames S := by
  simp only [Domain.buildAdditionalPropertyAccessors, hadditional, hasSingleTypeNames]
  cases hr : S.Ref with
  | some ref => simp
  | none =>
    cases ht : S.Type_ with
    | none =>
      cases ho : S.OneOf with
      | none => simp
      | some alternatives => simp [typeNameForStub_item_any]
    | some type =>
      cases hs : type.String with
      | none => simp [hs]
      | some typeName =>
        by_cases h1 : typeName = "string"
        · subst h1
          simp [hs]
        · by_cases h2 : typeName = "array"
          · subst h2
            cases hi : S.Items with
            | none => simp [hs]
            | some items =>
              cases his : items.Schema with
              | none => simp [hs, his]
              | some itemSchema =>
                cases hit : itemSchema.Type_ with
                | none => simp [hs, his, hit]
                | some itemTypes =>
                  cases hits : itemTypes.String with
                  | none => simp [hs, his, hit, hits]
                  | some itemType =>
                    by_cases h3 : itemType = "string" <;> simp [hs, his, hit, hits, h3]
          · simp [hs, h1, h2]

theorem buildAdditionalPropertyAccessors_open (domain : Domain) (typeModel : TypeModel)
    (schema S : jsonschema.Schema) (next : Domain × TypeModel)
    (hadditional : schema.AdditionalProperties = some ⟨some S, none⟩)
    (h : domain.buildAdditionalPropertyAccessors typeModel schema = some next) :
    next.2.Open = true := by
  simp only [Domain.buildAdditionalPropertyAccessors, hadditional] at h
  repeat' split at h
  all_goals
    first
    | (simp only [Option.some.injEq] at h
       subst h
       rfl)
    | (simp only [Option.map_eq_some'] at h
       obtain ⟨a, _, h1⟩ := h
       subst h1
       rfl)
    | simp at h

theorem buildAdditionalPropertyAccessors_other (domain : Domain) (typeModel : TypeModel)
    (schema S : jsonschema.Schema)
    (hadditional : schema.AdditionalProperties = some ⟨some S, none⟩)
    (href : S.Ref = none) (hnames : hasSingleTypeNames S = true)
    (hstring : isStringShape S = false) (harray : isStringArrayShape S = false)
    (honeOf : isInlineOneOfShape S = false) :
    domain.buildAdditionalPropertyAccessors typeModel schema =
      some (domain, { typeModel with Open := true }) := by
  simp only [Domain.buildAdditionalPropertyAccessors, hadditional, href]
  simp only [hasSingleTypeNames] at hnames
  simp only [isStringShape, isStringArrayShape, isInlineOneOfShape, href, Option.isNone_none,
    Bool.true_and] at hstring harray honeOf
  cases ht : S.Type_ with
  | none =>
    cases ho : S.OneOf with
    | none => rfl
    | some alternatives => simp [ht, ho] at honeOf
  | some type =>
    cases hs : type.String with
    | none => simp [ht, hs] at hnames
    | some typeName =>
      by_cases h1 : typeName = "string"
      · subst h1
        simp [ht, hs] at hstring
      · by_cases h2 : typeName = "array"
        · subst h2
          cases hi : S.Items with
          | none => simp [hs]
          | some items =>
            cases his : items.Schema with
            | none => simp [ht, hs, hi, his] at hnames
            | some itemSchema =>
              cases hit : itemSchema.Type_ with
              | none => simp [ht, hs, hi, his, hit] at hnames
              | some itemTypes =>
                cases hits : itemTypes.String with
                | none => simp [ht, hs, hi, his, hit, hits] at hnames
                | some itemType =>
                  by_cases h3 : itemType = "string"
                  · subst h3
                    simp [ht, hs, hi, his, hit, hits] at harray
                  · simp [hs, his, hit, hits, h3]
        · simp [hs, h1, h2]

/-- C15 as amended, additional properties given by a schema `S`. When `S`
carries a `$ref` whose type name has a value; or has no `$ref` and the single
type name `string`; or has no `$ref`, the single type name `array` and as items
one schema whose type is the single name `string`; or has no `$ref`, no type and
an inline `oneOf`, then `buildAdditionalPropertyAccessors` returns the type model
with `Open = true` and with the one implicit, repeated property
`additionalProperties` appended, whose `MapType` is respectively the type named
by the reference, `string`, `StringArray`, or the type name of the stub made of
the name of the enclosing type and `Item`, and whose `Type` is `NamedString` for
`string` and `Named` followed by the `MapType` otherwise; the `MapType` is
recorded in `MapTypeRequests`, and for the `oneOf` shape a type request for `S`,
with the property name `additionalProperties`, is recorded under the `MapType`
name; nothing else of the domain changes. For every `S`: the call returns
exactly when the names it dereferences are there (the type name of the `$ref`,
or without `$ref` the single type names); whenever it returns, `Open = true`;
and for an `S` without `$ref` that is of none of the shapes above it returns the
domain unchanged and the type model with `Open = true` and nothing else
changed. -/
theorem buildAdditionalPropertyAccessors_schema (domain : Domain) (typeModel : TypeModel)
    (schema S : jsonschema.Schema)
    (hadditional : schema.AdditionalProperties = some ⟨some S, none⟩) :
    (∀ ref mapType, S.Ref = some ref → domain.typeNameForReference ref = some mapType →
      domain.buildAdditionalPropertyAccessors typeModel schema =
        some (recordMapType domain mapType,
              withAdditionalProperty typeModel ("Named" ++ mapType) mapType)) ∧
    (∀ names, S.Ref = none → S.Type_ = some ⟨names, some "string"⟩ →
      domain.buildAdditionalPropertyAccessors typeModel schema =
        some (recordMapType domain "string",
              withAdditionalProperty typeModel "NamedString" "string")) ∧
    (∀ names itemNames itemSchemas itemSchema, S.Ref = none →
      S.Type_ = some ⟨names, some "array"⟩ → S.Items = some ⟨some itemSchema, itemSchemas⟩ →
      itemSchema.Type_ = some ⟨itemNames, some "string"⟩ →
      domain.buildAdditionalPropertyAccessors typeModel schema =
        some (recordMapType domain "StringArray",
              withAdditionalProperty typeModel "NamedStringArray" "StringArray")) ∧
    (S.Ref = none → S.Type_ = none → S.OneOf.isSome = true →
      domain.typeNameForStub (typeModel.Name ++ "Item") =
        some (domain.Prefix ++ Capitalize typeModel.Name ++ "Item") ∧
      ∀ mapType, domain.typeNameForStub (typeModel.Name ++ "Item") = some mapType →
        domain.buildAdditionalPropertyAccessors typeModel schema =
          some ({ recordMapType domain mapType with
                  ObjectTypeRequests := domain.ObjectTypeRequests.set mapType
                    { Name := mapType, PropertyName := "additionalProperties", Schema := S,
                      OneOfWrapper := false } },
                withAdditionalProperty typeModel ("Named" ++ mapType) mapType)) ∧
    (∀ mapType, (recordMapType domain mapType).MapTypeRequests.get mapType = some mapType) ∧
    ((domain.buildAdditionalPropertyAccessors typeModel schema).isSome =
      match S.Ref with
      | some ref => (domain.typeNameForReference ref).isSome
      | none => hasSingleTypeNames S) ∧
    (∀ next, domain.buildAdditionalPropertyAccessors typeModel schema = some next →
      next.2.Open = true) ∧
    (S.Ref = none → hasSingleTypeNames S = true → isStringShape S = false →
      isStringArrayShape S = false → isInlineOneOfShape S = false →
      domain.buildAdditionalPropertyAccessors typeModel schema =
        some (domain, { typeModel with Open := true })) := by
  refine ⟨?_, ?_, ?_, ?_, fun mapType => GoMap.get_set_self _ _ _,
    buildAdditionalPropertyAccessors_returns domain typeModel schema S hadditional,
    fun next h => buildAdditionalPropertyAccessors_open domain typeModel schema S next
      hadditional h,
    buildAdditionalPropertyAccessors_other domain typeModel schema S hadditional⟩
  · intro ref mapType href htype
    simp only [Domain.buildAdditionalPropertyAccessors, hadditional, href, htype]
    rfl
  · intro names href htype
    simp only [Domain.buildAdditionalPropertyAccessors, hadditional, href, htype]
    rfl
  · intro names itemNames itemSchemas itemSchema href htype hitems hitem
    simp only [Domain.buildAdditionalPropertyAccessors, hadditional, href, htype, hitems, hitem]
    rfl
  · intro href htype honeOf
    refine ⟨typeNameForStub_item_any domain typeModel.Name, ?_⟩
    intro mapType hstub
    obtain ⟨alternatives, halternatives⟩ := Option.isSome_iff_exists.mp honeOf
    simp only [Domain.buildAdditionalPropertyAccessors, hadditional, href, htype, halternatives,
      hstub]
    rfl

/-- C15 as amended, at a type named `catalog` under the empty prefix: with an
inline `oneOf` as `additionalProperties` the type gets the property and the
request `CatalogItem`; with `{"type": "object", "oneOf": [...]}` it is only made
open. -/
theorem buildAdditionalPropertyAccessors_schema_witness :
    ((NewDomain jsonschema.emptySchema).buildAdditionalPropertyAccessors
        { NewTypeModel with Name := "catalog" }
        (mapSchema (jsonschema.oneOfSchema [jsonschema.typeSchema "boolean"]))).map
      (fun state : Domain × TypeModel =>
        (state.1.MapTypeRequests.entries,
         state.1.ObjectTypeRequests.entries.map fun entry : String × TypeRequest =>
          (entry.1, entry.2.Name, entry.2.PropertyName),
         state.2.Open,
         state.2.Properties.map fun property : TypeProperty =>
          (property.Name, property.Type_, property.MapType, property.Implicit,
           property.Repeated))) =
      some ([("CatalogItem", "CatalogItem")],
            [("CatalogItem", "CatalogItem", "additionalProperties")], true,
            [("additionalProperties", "NamedCatalogItem", "CatalogItem", true, true)]) ∧
    (NewDomain jsonschema.emptySchema).buildAdditionalPropertyAccessors
        { NewTypeModel with Name := "catalog" } (mapSchema typedOneOfSchema) =
      some (NewDomain jsonschema.emptySchema,
        { NewTypeModel with Name := "catalog", Open := true }) := by
  constructor
  · rw [((buildAdditionalPropertyAccessors_schema (NewDomain jsonschema.emptySchema)
      { NewTypeModel with Name := "catalog" }
      (mapSchema (jsonschema.oneOfSchema [jsonschema.typeSchema "boolean"]))
      (jsonschema.oneOfSchema [jsonschema.typeSchema "boolean"]) rfl).2.2.2.1 rfl rfl rfl).2
      "CatalogItem" rfl]
    rfl
  · exact (buildAdditionalPropertyAccessors_schema (NewDomain jsonschema.emptySchema)
      { NewTypeModel with Name := "catalog" } (mapSchema typedOneOfSchema) typedOneOfSchema
      rfl).2.2.2.2.2.2.2 rfl rfl rfl rfl rfl

/-! ## Pair types and built-in types -/

theorem named_append_inj (a b : String) (h : "Named" ++ a = "Named" ++ b) : a = b := by
  have hdata := congrArg String.data h
  simp only [String.data_append, List.append_cancel_left_eq] at hdata
  exact String.ext hdata

theorem named_ne_stringArray (a : String) : "Named" ++ a ≠ "StringArray" := by
  intro h
  have hdata := congrArg String.data h
  simp [String.data_append] at hdata

theorem named_ne_any (a : String) : "Named" ++ a ≠ "Any" := by
  intro h
  have hdata := congrArg String.data h
  simp [String.data_append] at hdata

theorem buildMapType_get (domain : Domain) (mapTypeName : String) :
    (domain.buildMapType mapTypeName).TypeModels.get ("Named" ++ Title mapTypeName) =
      some (pairType mapTypeName) :=
  GoMap.get_set_self _ _ _

theorem buildMapType_get_ne (domain : Domain) (mapTypeName key : String)
    (hne : key ≠ "Named" ++ Title mapTypeName) :
    (domain.buildMapType mapTypeName).TypeModels.get key = domain.TypeModels.get key :=
  GoMap.get_set_ne _ _ _ _ hne

theorem foldl_buildMapType_get (T : String) (names : List String) (domain : Domain)
    (hT : T ∈ names ∨ domain.TypeModels.get ("Named" ++ Title T) = some (pairType T))
    (hunique : ∀ other ∈ names, Title other = Title T → other = T) :
    (names.foldl Domain.buildMapType domain).TypeModels.get ("Named" ++ Title T) =
      some (pairType T) := by
  induction names generalizing domain with
  | nil =>
    rcases hT with hT | hT
    · simp at hT
    · exact hT
  | cons name rest ih =>
    rw [List.foldl_cons]
    have hrest : ∀ other ∈ rest, Title other = Title T → other = T :=
      fun other hother => hunique other (List.mem_cons_of_mem _ hother)
    by_cases htitle : Title name = Title T
    · have hname : name = T := hunique name (List.mem_cons_self _ _) htitle
      subst hname
      exact ih _ (Or.inr (buildMapType_get domain name)) hrest
    · rcases hT with hT | hT
      · rcases List.mem_cons.mp hT with hT | hT
        · exact absurd (by rw [hT]) htitle
        · exact ih _ (Or.inl hT) hrest
      · refine ih _ (Or.inr ?_) hrest
        rw [buildMapType_get_ne domain name _ (fun h => htitle (named_append_inj _ _ h).symm)]
        exact hT

theorem foldl_buildMapType_requests (names : List String) (domain : Domain) :
    (names.foldl Domain.buildMapType domain).MapTypeRequests = domain.MapTypeRequests := by
  induction names generalizing domain with
  | nil => rfl
  | cons name rest ih =>
    rw [List.foldl_cons, ih]
    rfl

theorem buildMapAndBuiltinTypes_get (domain : Domain) (key : String)
    (hstring : key ≠ "StringArray") (hany : key ≠ "Any") :
    domain.buildMapAndBuiltinTypes.TypeModels.get key =
      ((sortStrings domain.MapTypeRequests.keys).foldl Domain.buildMapType
        domain).TypeModels.get key := by
  exact (GoMap.get_set_ne _ _ _ _ hany).trans (GoMap.get_set_ne _ _ _ _ hstring)

theorem build_eq (domain final : Domain) (order : List String)
    (h : domain.build order = some final) :
    ∃ requested : Domain, final = requested.buildMapAndBuiltinTypes := by
  simp only [Domain.build] at h
  cases h1 : domain.buildNamedTypes with
  | none => simp [h1] at h
  | some named =>
    simp only [h1] at h
    cases h2 : named.buildRequestedTypes order with
    | none => simp [h2] at h
    | some requested =>
      simp only [h2, Option.some.injEq] at h
      exact ⟨requested, h.symm⟩

/-- C16 fails when two recorded map-value types differ in the case of their first
letter only: the top-level schema maps names to strings, which records the
map-value type `string`, and its definition `thing` maps names to
`#/definitions/string`, which under the empty prefix records the map-value type
`String`; after `build` the domain has one pair type only, `NamedString` with
values of type `string`, and no pair type for `String`. -/
theorem build_shared_pair_type :
    ((NewDomain stringMapsSchema).build []).map
      (fun final : Domain => (final.MapTypeRequests.keys, pairTypesOf final)) =
      some (["string", "String"], [("NamedString", "string")]) ∧
    (NewDomain stringMapsSchema).isRangeOrder [] = true := by
  refine ⟨?_, ?_⟩ <;> rfl

/-- C16 as amended, pair types: after `build`, for every map-value type name `T`
recorded in `MapTypeRequests` whose title-cased name no other recorded
map-value type shares, `TypeModels` has under the name `Named` followed by the
title-cased `T` the pair type of `T`: `IsPair = true`, `PairValueType = T`, and
exactly two properties that are not repeated, in order `name` of type `string`
and `value` of type `T`; every other recorded map-value type is registered
under another name. -/
theorem build_pair_types (domain final : Domain) (order : List String) (T : String)
    (hbuild : domain.build order = some final)
    (hT : T ∈ final.MapTypeRequests.keys)
    (hunique : ∀ other ∈ final.MapTypeRequests.keys, Title other = Title T → other = T) :
    final.TypeModels.get ("Named" ++ Title T) = some (pairType T) ∧
    (pairType T).IsPair = true ∧
    (pairType T).PairValueType = T ∧
    ((pairType T).Properties.map fun property : TypeProperty =>
      (property.Name, property.Type_, property.Repeated)) =
      [("name", "string", false), ("value", T, false)] ∧
    (∀ other ∈ final.MapTypeRequests.keys, other ≠ T →
      "Named" ++ Title other ≠ "Named" ++ Title T) := by
  obtain ⟨requested, hfinal⟩ := build_eq domain final order hbuild
  have hrequests : final.MapTypeRequests = requested.MapTypeRequests := by
    rw [hfinal]
    simp only [Domain.buildMapAndBuiltinTypes]
    exact foldl_buildMapType_requests _ _
  rw [hrequests] at hT hunique
  refine ⟨?_, rfl, rfl, rfl, ?_⟩
  · rw [hfinal, buildMapAndBuiltinTypes_get _ _ (named_ne_stringArray _) (named_ne_any _)]
    exact foldl_buildMapType_get T _ requested (Or.inl ((mem_sortStrings _ _).mpr hT))
      (fun other hother => hunique other ((mem_sortStrings _ _).mp hother))
  · intro other hother hne hnamed
    rw [hrequests] at hother
    exact hne (hunique other hother (named_append_inj _ _ hnamed))

/-- C16 as amended, at `catalogSchema`: the pair type of the map-value type
`Any`. -/
theorem build_pair_types_witness :
    ∃ final, catalogDomain.build catalogOrder = some final ∧
      final.MapTypeRequests.keys = ["Any"] ∧
      final.TypeModels.get "NamedAny" = some (pairType "Any") :=
  ⟨_, rfl, rfl, (build_pair_types catalogDomain _ catalogOrder "Any" rfl (by decide)
    (by decide)).1⟩

/-- C17, built-in types: whenever `build` completes, whatever the schema, its
definitions and the prefix, `TypeModels` has under `StringArray` the type model
with exactly one property, `value` of type `string` with `Repeated = true`, and
under `Any` the type model with `Open = true`, `IsBlob = true` and exactly one
property, `value` of type `blob`. -/
theorem build_builtin_types (domain final : Domain) (order : List String)
    (hbuild : domain.build order = some final) :
    final.TypeModels.get "StringArray" = some stringArrayType ∧
    final.TypeModels.get "Any" = some anyType ∧
    (stringArrayType.Properties.map fun property : TypeProperty =>
      (property.Name, property.Type_, property.Repeated)) = [("value", "string", true)] ∧
    anyType.Open = true ∧ anyType.IsBlob = true ∧
    (anyType.Properties.map fun property : TypeProperty =>
      (property.Name, property.Type_, property.Repeated)) = [("value", "blob", false)] := by
  obtain ⟨requested, hfinal⟩ := build_eq domain final order hbuild
  refine ⟨?_, ?_, rfl, rfl, rfl, rfl⟩
  · rw [hfinal]
    exact (GoMap.get_set_ne _ "StringArray" "Any" _ (by decide)).trans (GoMap.get_set_self _ _ _)
  · rw [hfinal]
    exact GoMap.get_set_self _ _ _

/-- C17 at `catalogSchema`: `build` completes and registers the two built-in
types. -/
theorem build_builtin_types_witness :
    ∃ final, catalogDomain.build catalogOrder = some final ∧
      final.TypeModels.get "StringArray" = some stringArrayType ∧
      final.TypeModels.get "Any" = some anyType :=
  ⟨_, rfl, (build_builtin_types catalogDomain _ catalogOrder rfl).1,
    (build_builtin_types catalogDomain _ catalogOrder rfl).2.1⟩

/-! ## The document reader -/

theorem splitChars_append_sep (sep : Char) (key more : List Char) (h : sep ∉ key) :
    splitChars sep (key ++ sep :: more) = key :: splitChars sep more := by
  induction key with
  | nil => simp [splitChars]
  | cons c cs ih =>
    have hc : c ≠ sep := fun hc => h (by simp [hc])
    have hcs : sep ∉ cs := fun hcs => h (List.mem_cons_of_mem _ hcs)
    simp [splitChars, hc, ih hcs]

theorem splitChars_pointerChars (keys : List String)
    (hkeys : ∀ key ∈ keys, '/' ∉ key.data) :
    splitChars '/' (pointerChars keys) = [] :: keys.map String.data := by
  induction keys with
  | nil => simp [pointerChars, splitChars]
  | cons key rest ih =>
    have hkey := hkeys key (List.mem_cons_self _ _)
    have hrest := ih fun other hother => hkeys other (List.mem_cons_of_mem _ hother)
    cases rest with
    | nil =>
      simp [pointerChars, splitChars, splitChars_of_not_mem _ _ hkey]
    | cons next others =>
      simp only [pointerChars, splitChars, if_true, List.map_cons] at hrest ⊢
      rw [splitChars_append_sep _ _ _ hkey]
      simp only [List.cons.injEq, true_and] at hrest
      rw [hrest]

theorem not_mem_pointerChars (keys : List String) (hkeys : ∀ key ∈ keys, '#' ∉ key.data) :
    '#' ∉ pointerChars keys := by
  induction keys with
  | nil => simp [pointerChars]
  | cons key rest ih =>
    have hkey := hkeys key (List.mem_cons_self _ _)
    have hrest := ih fun other hother => hkeys other (List.mem_cons_of_mem _ hother)
    simp [pointerChars, hkey, hrest]

theorem isSegment_iff (key : String) :
    isSegment key = true ↔ '/' ∉ key.data ∧ '#' ∉ key.data := by
  simp [isSegment]

theorem splitHash_pointerRef (keys : List String) (hkeys : ∀ key ∈ keys, isSegment key = true) :
    splitHash (pointerRef keys) = ["", String.mk (pointerChars keys)] := by
  have hnot := not_mem_pointerChars keys fun key hkey => ((isSegment_iff key).mp (hkeys key hkey)).2
  simp only [splitHash, pointerRef, splitChars, if_true, splitChars_of_not_mem _ _ hnot]
  rfl

theorem splitSlash_pointerChars (keys : List String)
    (hkeys : ∀ key ∈ keys, isSegment key = true) :
    splitSlash (String.mk (pointerChars keys)) = "" :: keys := by
  have hsplit := splitChars_pointerChars keys
    fun key hkey => ((isSegment_iff key).mp (hkeys key hkey)).1
  simp only [splitSlash, hsplit, List.map_cons, List.map_map]
  congr 1
  exact List.map_id _

theorem walkPath_succ (i : Nat) (info : yaml.Value) (path : List String) :
    walkPath (i + 1) info path = path.foldl applySegment info := by
  induction path generalizing i info with
  | nil => rfl
  | cons key rest ih => simp [walkPath, ih]

theorem walkPath_zero (info : yaml.Value) (first : String) (rest : List String) :
    walkPath 0 info (first :: rest) = rest.foldl applySegment info := by
  simp [walkPath, walkPath_succ]

/-- The scan of one level ends on the value of the last section whose key is the
segment, or on the fragment it started from when there is none. -/
theorem scanSections_eq (key : String) (info : yaml.Value)
    (sections : List (yaml.MapItem yaml.Value)) :
    scanSections key info sections =
      (((sections.filter fun item => keyIs item.Key key).getLast?).map
        fun item => item.Value).getD info := by
  induction sections generalizing info with
  | nil => rfl
  | cons item rest ih =>
    rw [scanSections, ih]
    by_cases hkey : keyIs item.Key key = true
    · simp only [hkey, if_true, List.filter_cons_of_pos]
      cases hrest : rest.filter fun item => keyIs item.Key key with
      | nil => simp
      | cons other others =>
        obtain ⟨last, hlast⟩ : ∃ last, (other :: others).getLast? = some last :=
          ⟨_, List.getLast?_eq_getLast _ (List.cons_ne_nil _ _)⟩
        simp [List.getLast?_cons_cons, hlast]
    · simp [hkey]

theorem applySegment_of_lookupOnce (value next : yaml.Value) (key : String)
    (h : lookupOnce value key = some next) : applySegment value key = next := by
  cases value with
  | map items =>
    simp only [lookupOnce] at h
    simp only [applySegment, scanSections_eq]
    split at h
    · rename_i item hfilter
      simp only [Option.some.injEq] at h
      simp [hfilter, h]
    · simp at h
  | _ => simp [lookupOnce] at h

theorem foldl_applySegment_of_lookups (keys : List String) (value result : yaml.Value)
    (h : lookups value keys = some result) : keys.foldl applySegment value = result := by
  induction keys generalizing value with
  | nil =>
    simp only [lookups, Option.some.injEq] at h
    exact h
  | cons key rest ih =>
    simp only [lookups] at h
    cases hstep : lookupOnce value key with
    | none => simp [hstep] at h
    | some next =>
      simp only [hstep] at h
      rw [List.foldl_cons, applySegment_of_lookupOnce value next key hstep]
      exact ih next h

theorem ReadFile_with (world : World) (globals : Globals) (filename : String)
    (cache : Option (GoMap yaml.Value)) (count : Int) :
    ReadFile world { globals with info_cache := cache, count := count } filename =
      (ReadFile world globals filename).map fun result =>
        ({ result.1 with info_cache := cache, count := count }, result.2) := by
  simp only [ReadFile, FetchFile]
  cases world.urlScheme filename with
  | none => rfl
  | some scheme =>
    by_cases hscheme : scheme = ""
    · simp only [hscheme, ne_eq, not_true_eq_false, if_false]
      cases world.readFile filename <;> rfl
    · simp only [hscheme, ne_eq, not_false_eq_true, if_true]
      cases (globals.file_cache.getD GoMap.empty).get filename with
      | some bytes =>
        simp only []
        cases (world.unmarshal bytes).2 <;> rfl
      | none =>
        simp only []
        cases world.httpGet filename with
        | error err => rfl
        | ok response =>
          simp only []
          cases response.2 with
          | some err => rfl
          | none =>
            simp only []
            cases (world.unmarshal response.1).2 <;> rfl

theorem splitSlash_ne_nil (s : String) : splitSlash s ≠ [] := by
  simp [splitSlash, splitChars_ne_nil]

theorem walkPath_splitSlash (info : yaml.Value) (pointer : String) :
    walkPath 0 info (splitSlash pointer) = (splitSlash pointer).tail.foldl applySegment info := by
  cases hsplit : splitSlash pointer with
  | nil => exact absurd hsplit (splitSlash_ne_nil pointer)
  | cons first rest => exact walkPath_zero info first rest

theorem Globals.info_cache_of_cached (globals : Globals) (ref : String) (value : yaml.Value)
    (h : globals.cached ref = some value) :
    ∃ cache, globals.info_cache = some cache ∧ cache.get ref = some value := by
  cases hcache : globals.info_cache with
  | none => simp [Globals.cached, hcache, GoMap.get, GoMap.empty, GoMap.getEntries] at h
  | some cache => exact ⟨cache, rfl, by simpa [Globals.cached, hcache] using h⟩

theorem ReadInfoForRef_hit (world : World) (globals : Globals) (basefile ref : String)
    (value : yaml.Value) (h : globals.cached ref = some value) :
    ReadInfoForRef world globals basefile ref = some (globals, value) := by
  obtain ⟨cache, hcache, hget⟩ := globals.info_cache_of_cached ref value h
  simp only [ReadInfoForRef, hcache, Option.getD_some, hget]
  rw [← hcache]

theorem ReadInfoForRef_miss (world : World) (globals : Globals) (basefile ref : String)
    (h : globals.cached ref = none) :
    ReadInfoForRef world globals basefile ref =
      (ReadFile world globals (targetFile basefile ref)).map fun result =>
        ({ result.1 with
            count := addInt64 globals.count 1
            info_cache := some ((globals.info_cache.getD GoMap.empty).set ref
              (pointedAt ref result.2.1 result.2.2)) },
         pointedAt ref result.2.1 result.2.2) := by
  have hget : (globals.info_cache.getD GoMap.empty).get ref = none := h
  simp only [ReadInfoForRef, hget, ReadFile_with, targetFile]
  cases ReadFile world globals
      (if (splitHash ref).headD "" ≠ "" then filepathSplitDir basefile ++ (splitHash ref).headD ""
       else basefile) with
  | none => rfl
  | some result =>
    obtain ⟨next, info, err⟩ := result
    simp only [Option.map_some', pointedAt]
    cases err with
    | some err => rfl
    | none =>
      simp only []
      split <;> simp [walkPath_splitSlash]

theorem targetFile_pointerRef (basefile : String) (keys : List String)
    (hkeys : ∀ key ∈ keys, isSegment key = true) :
    targetFile basefile (pointerRef keys) = basefile := by
  simp [targetFile, splitHash_pointerRef keys hkeys]

theorem pointedAt_pointerRef (keys : List String) (info : yaml.Value)
    (hkeys : ∀ key ∈ keys, isSegment key = true) :
    pointedAt (pointerRef keys) info none = keys.foldl applySegment info := by
  simp [pointedAt, splitHash_pointerRef keys hkeys, splitSlash_pointerChars keys hkeys]

/-- C18 fails for a key with a `/` in it: in the document
`{paths: {/pets: {get: listPets}}}` the keys `paths` and `/pets` each occur
exactly once in the map reached before them, and the successive lookups give
`{get: listPets}`; for the ref `#/paths//pets` `ReadInfoForRef` returns the map
`{/pets: {get: listPets}}` of `paths`, as the segments it looks up are `paths`,
the empty segment and `pets`. -/
theorem ReadInfoForRef_pointer_slash_key :
    pointerRef ["paths", "/pets"] = "#/paths//pets" ∧
    lookups (.map petsDocument) ["paths", "/pets"] =
      some (.map [⟨.str "get", .str "listPets"⟩]) ∧
    (ReadInfoForRef (localWorld petsDocument) Globals.initial "openapi.yaml" "#/paths//pets").map
      (fun result : Globals × yaml.Value => result.2) =
      some (.map [⟨.str "/pets", .map [⟨.str "get", .str "listPets"⟩]⟩]) :=
  ⟨by decide, rfl, rfl⟩

/-- C18 as amended, pointer traversal: when the ref `#/k1/.../kn`, each `ki` a
key with no `/` and no `#` in it, is not in the fragment cache, as when the
cache is empty, and reading the base locator gives the document `D`, an ordered
key-value tree, and each `ki` occurs exactly once as a key of the map reached
after `k1`, ..., `k(i-1)`, then `ReadInfoForRef` returns the value obtained by
the successive lookups of `k1`, ..., `kn` in `D`, and caches it under the
ref. -/
theorem ReadInfoForRef_pointer (world : World) (globals next : Globals) (basefile : String)
    (D : List (yaml.MapItem yaml.Value)) (keys : List String) (result : yaml.Value)
    (hmiss : globals.cached (pointerRef keys) = none)
    (hdocument : ReadFile world globals basefile = some (next, .map D, none))
    (hkeys : ∀ key ∈ keys, isSegment key = true)
    (hlookups : lookups (.map D) keys = some result) :
    ReadInfoForRef world globals basefile (pointerRef keys) =
      some ({ next with
              count := addInt64 globals.count 1
              info_cache := some ((globals.info_cache.getD GoMap.empty).set (pointerRef keys)
                result) },
            result) := by
  rw [ReadInfoForRef_miss world globals basefile _ hmiss, targetFile_pointerRef basefile keys hkeys,
    hdocument]
  simp only [Option.map_some', pointedAt_pointerRef keys _ hkeys,
    foldl_applySegment_of_lookups keys _ result hlookups]

/-- C18 as amended, at the document `{definitions: {Foo: {type: string}}}` and the
ref `#/definitions/Foo`, from the state in which the program starts: the
fragment returned is `{type: string}`. -/
theorem ReadInfoForRef_pointer_witness :
    pointerRef ["definitions", "Foo"] = "#/definitions/Foo" ∧
    (ReadInfoForRef (localWorld fooDocument) Globals.initial "openapi.yaml"
        (pointerRef ["definitions", "Foo"])).map
      (fun result : Globals × yaml.Value => (result.2, result.1.cached "#/definitions/Foo")) =
      some (.map [⟨.str "type", .str "string"⟩], some (.map [⟨.str "type", .str "string"⟩])) := by
  refine ⟨by decide, ?_⟩
  rw [ReadInfoForRef_pointer (localWorld fooDocument) Globals.initial _ "openapi.yaml" fooDocument
    ["definitions", "Foo"] (.map [⟨.str "type", .str "string"⟩]) rfl rfl (by decide) rfl]
  rfl

/-! ## Missing keys -/

theorem scanSections_of_not_hasKey (key : String) (info : yaml.Value)
    (sections : List (yaml.MapItem yaml.Value))
    (h : (sections.any fun item => keyIs item.Key key) = false) :
    scanSections key info sections = info := by
  induction sections with
  | nil => rfl
  | cons item rest ih =>
    simp only [List.any_cons, Bool.or_eq_false_iff] at h
    simp [scanSections, h.1, ih h.2]

theorem applySegment_of_not_hasKey (info : yaml.Value) (key : String)
    (h : hasKey info key = false) : applySegment info key = info := by
  cases info with
  | map items => exact scanSections_of_not_hasKey key _ items h
  | _ => rfl

theorem ReadInfoForRef_isSome (world : World) (globals : Globals) (basefile ref : String)
    (h : globals.cached ref = none) :
    (ReadInfoForRef world globals basefile ref).isSome =
      (ReadFile world globals (targetFile basefile ref)).isSome := by
  rw [ReadInfoForRef_miss world globals basefile ref h]
  cases ReadFile world globals (targetFile basefile ref) <;> rfl

/-- C19, silent partial match: a pointer segment that is not a key of the current
fragment, or that is applied to a fragment that is not a map, leaves the
fragment unchanged, and the walk continues with the next segment, at every
position of the path; a call of `ReadInfoForRef` for a ref that is not cached
returns a fragment whenever reading the target document returns (with a
document or with an error), whatever keys the document has; and when `x` is not
a top-level key of the document read, the fragment returned for `#/x/k1/.../kn`
is the fragment returned for `#/k1/.../kn` (`x` and the `ki` being segments
with no `/` and no `#` in them, and neither ref being cached). -/
theorem ReadInfoForRef_missing_key (world : World) (globals : Globals) (basefile x : String)
    (keys : List String)
    (hx : isSegment x = true) (hkeys : ∀ key ∈ keys, isSegment key = true)
    (hmiss : globals.cached (pointerRef (x :: keys)) = none)
    (hmissing : globals.cached (pointerRef keys) = none) :
    (∀ info key, hasKey info key = false → applySegment info key = info) ∧
    (∀ i info key rest, hasKey info key = false →
      walkPath (i + 1) info (key :: rest) = walkPath (i + 2) info rest) ∧
    (∀ info before key after, hasKey (before.foldl applySegment info) key = false →
      (before ++ key :: after).foldl applySegment info =
        (before ++ after).foldl applySegment info) ∧
    (ReadInfoForRef world globals basefile (pointerRef (x :: keys))).isSome =
      (ReadFile world globals basefile).isSome ∧
    (∀ result, ReadFile world globals basefile = some result → hasKey result.2.1 x = false →
      (ReadInfoForRef world globals basefile (pointerRef (x :: keys))).map
          (fun returned : Globals × yaml.Value => returned.2) =
        (ReadInfoForRef world globals basefile (pointerRef keys)).map
          (fun returned : Globals × yaml.Value => returned.2)) := by
  have hall : ∀ key ∈ x :: keys, isSegment key = true := by
    intro key hkey
    rcases List.mem_cons.mp hkey with hkey | hkey
    · rw [hkey]
      exact hx
    · exact hkeys key hkey
  refine ⟨applySegment_of_not_hasKey, ?_, ?_, ?_, ?_⟩
  · intro i info key rest hkey
    simp [walkPath, applySegment_of_not_hasKey info key hkey]
  · intro info before key after hkey
    simp [List.foldl_append, applySegment_of_not_hasKey _ key hkey]
  · rw [ReadInfoForRef_isSome world globals basefile _ hmiss,
      targetFile_pointerRef basefile _ hall]
  · intro result hresult hkey
    obtain ⟨next, info, err⟩ := result
    rw [ReadInfoForRef_miss world globals basefile _ hmiss,
      ReadInfoForRef_miss world globals basefile _ hmissing,
      targetFile_pointerRef basefile _ hall, targetFile_pointerRef basefile _ hkeys, hresult]
    cases err with
    | some err => rfl
    | none =>
      simp only [Option.map_some', pointedAt_pointerRef _ _ hall,
        pointedAt_pointerRef _ _ hkeys, List.foldl_cons]
      rw [applySegment_of_not_hasKey info x hkey]

/-- C19 at the document `{definitions: {Foo: {type: string}}}`: `missing` is not
a top-level key, and the refs `#/missing/definitions` and `#/definitions` give
the same fragment, the map of `definitions`. -/
theorem ReadInfoForRef_missing_key_witness :
    (ReadInfoForRef (localWorld fooDocument) Globals.initial "openapi.yaml"
        (pointerRef ["missing", "definitions"])).map
      (fun returned : Globals × yaml.Value => returned.2) =
      some (.map [⟨.str "Foo", .map [⟨.str "type", .str "string"⟩]⟩]) := by
  rw [(ReadInfoForRef_missing_key (localWorld fooDocument) Globals.initial "openapi.yaml"
    "missing" ["definitions"] (by decide) (by decide) rfl rfl).2.2.2.2 _ rfl rfl]
  rfl

/-! ## The fragment cache -/

theorem ReadInfoForRef_stores (world : World) (globals next : Globals) (basefile ref : String)
    (value : yaml.Value) (h : ReadInfoForRef world globals basefile ref = some (next, value)) :
    next.cached ref = some value ∧ ∀ key, key ≠ ref → next.cached key = globals.cached key := by
  cases hcached : globals.cached ref with
  | some found =>
    rw [ReadInfoForRef_hit world globals basefile ref found hcached] at h
    simp only [Option.some.injEq, Prod.mk.injEq] at h
    rw [← h.1, ← h.2]
    exact ⟨hcached, fun _ _ => rfl⟩
  | none =>
    rw [ReadInfoForRef_miss world globals basefile ref hcached] at h
    simp only [Option.map_eq_some', Prod.mk.injEq] at h
    obtain ⟨result, _, hnext, hvalue⟩ := h
    rw [← hnext, ← hvalue]
    exact ⟨GoMap.get_set_self _ _ _, fun key hkey => GoMap.get_set_ne _ _ _ _ hkey⟩

theorem ReadInfoForRef_keeps (world : World) (globals next : Globals) (basefile ref other : String)
    (value returned : yaml.Value) (hcached : globals.cached ref = some value)
    (h : ReadInfoForRef world globals basefile other = some (next, returned)) :
    next.cached ref = some value := by
  by_cases hother : ref = other
  · subst hother
    rw [ReadInfoForRef_hit world globals basefile ref value hcached] at h
    simp only [Option.some.injEq, Prod.mk.injEq] at h
    rw [← h.1]
    exact hcached
  · rw [(ReadInfoForRef_stores world globals next basefile other returned h).2 ref hother]
    exact hcached

theorem resolveAll_keeps (calls : List (World × String × String)) (globals later : Globals)
    (ref : String) (value : yaml.Value) (hcached : globals.cached ref = some value)
    (h : resolveAll globals calls = some later) : later.cached ref = some value := by
  induction calls generalizing globals with
  | nil =>
    simp only [resolveAll, Option.some.injEq] at h
    rw [← h]
    exact hcached
  | cons call rest ih =>
    simp only [resolveAll] at h
    cases hcall : ReadInfoForRef call.1 globals call.2.1 call.2.2 with
    | none => simp [hcall] at h
    | some result =>
      simp only [hcall] at h
      exact ih result.1
        (ReadInfoForRef_keeps call.1 globals result.1 call.2.1 ref call.2.2 value result.2 hcached
          hcall) h

/-- C20, fragment cache keyed by the raw ref: once a call of `ReadInfoForRef` with
the base locator `b1` and the ref `r` has returned `v`, the fragment cache has
`v` under the key `r` and every other entry of the cache is as it was before the
call; and after any further calls of `ReadInfoForRef`, with any worlds, base
locators and refs, a call with any base locator `b2` and the ref `r` returns
`v` in any world, whatever the documents at `b1` and `b2` are, and leaves the
variables of the reader unchanged: in particular it reads no document (the
trace of the reads and the raw-bytes cache are unchanged). -/
theorem ReadInfoForRef_cache (world : World) (globals next : Globals) (b1 r : String)
    (v : yaml.Value) (hreturn : ReadInfoForRef world globals b1 r = some (next, v)) :
    next.cached r = some v ∧
    (∀ key, key ≠ r → next.cached key = globals.cached key) ∧
    (∀ calls later, resolveAll next calls = some later →
      ∀ other b2, ReadInfoForRef other later b2 r = some (later, v)) := by
  obtain ⟨hstored, hothers⟩ := ReadInfoForRef_stores world globals next b1 r v hreturn
  refine ⟨hstored, hothers, ?_⟩
  intro calls later hlater other b2
  exact ReadInfoForRef_hit other later b2 r v (resolveAll_keeps calls next later r v hstored hlater)

/-- C20 at the ref `#/paths`: resolved first against `openapi.yaml`, the
document `{definitions: {Foo: {type: string}}}`, which has no key `paths`, it
gives the whole document; resolved then against `other/openapi.yaml`, the
document `{paths: {/pets: {get: listPets}}}`, after a call for another ref, it
still gives the first document, and the trace of the reads does not grow. -/
theorem ReadInfoForRef_cache_witness :
    ∃ next later,
      ReadInfoForRef (localWorld fooDocument) Globals.initial "openapi.yaml" "#/paths" =
        some (next, .map fooDocument) ∧
      resolveAll next [(otherWorld, "other/openapi.yaml", "#/paths//pets")] = some later ∧
      later.reads = ["openapi.yaml", "other/openapi.yaml"] ∧
      ReadInfoForRef otherWorld later "other/openapi.yaml" "#/paths" =
        some (later, .map fooDocument) :=
  ⟨_, _, rfl, rfl, rfl,
    (ReadInfoForRef_cache (localWorld fooDocument) Globals.initial _ "openapi.yaml" "#/paths"
      (.map fooDocument) rfl).2.2 [(otherWorld, "other/openapi.yaml", "#/paths//pets")] _ rfl
      otherWorld "other/openapi.yaml"⟩

/-! ## Load failures and the raw-bytes cache -/

theorem ReadFile_error (world : World) (globals next : Globals) (filename : String)
    (info : yaml.Value) (err : String)
    (h : ReadFile world globals filename = some (next, info, some err)) : info = .null := by
  simp only [ReadFile] at h
  repeat' split at h
  all_goals
    first
    | (simp only [Option.some.injEq, Prod.mk.injEq] at h
       exact h.2.1.symm)
    | simp at h

/-- C21, load failure: when the ref is not in the fragment cache and reading the
target document returns an error, `ReadInfoForRef` returns the nil fragment (its
one result: it has no error result) and stores the nil fragment in the fragment
cache under the ref, leaving the other entries of the cache as they were. -/
theorem ReadInfoForRef_load_failure (world : World) (globals next : Globals)
    (basefile ref : String) (info : yaml.Value) (err : String)
    (hmiss : globals.cached ref = none)
    (hload : ReadFile world globals (targetFile basefile ref) = some (next, info, some err)) :
    ∃ final, ReadInfoForRef world globals basefile ref = some (final, .null) ∧
      final.cached ref = some .null ∧
      ∀ key, key ≠ ref → final.cached key = globals.cached key := by
  have hinfo := ReadFile_error world globals next _ info err hload
  subst hinfo
  have hcall : ReadInfoForRef world globals basefile ref =
      some ({ next with
              count := addInt64 globals.count 1
              info_cache := some ((globals.info_cache.getD GoMap.empty).set ref .null) },
            .null) := by
    rw [ReadInfoForRef_miss world globals basefile ref hmiss, hload]
    rfl
  exact ⟨_, hcall, ReadInfoForRef_stores world globals _ basefile ref _ hcall⟩

/-- C21 at a base locator that is not a file of the world: the fragment returned
for `#/definitions` is nil, and nil is cached under the ref. -/
theorem ReadInfoForRef_load_failure_witness :
    (ReadInfoForRef (localWorld fooDocument) Globals.initial "missing.yaml" "#/definitions").map
      (fun result : Globals × yaml.Value =>
        (result.2, result.1.cached "#/definitions")) = some (.null, some .null) := by
  obtain ⟨final, hcall, hcached, _⟩ :=
    ReadInfoForRef_load_failure (localWorld fooDocument) Globals.initial _ "missing.yaml"
      "#/definitions" .null "no such file" rfl rfl
  rw [hcall]
  simp [hcached]

/-- C22 fails for a local path: the three bytes of the local file `broken.yaml`
are read and do not parse, and `ReadFile` returns a document, the empty map,
and no error; for the network locator with the same bytes it returns no document
and the error of the parser. -/
theorem ReadFile_local_parse_failure :
    (brokenWorld.readFile "broken.yaml" = .ok [58, 32, 58] ∧
      (brokenWorld.unmarshal [58, 32, 58]).2 = some "yaml: did not find expected key") ∧
    (ReadFile brokenWorld Globals.initial "broken.yaml").map
      (fun result : Globals × yaml.Value × Option String => result.2) =
      some (.map [], none) ∧
    (ReadFile brokenWorld Globals.initial "http://example.com/broken.yaml").map
      (fun result : Globals × yaml.Value × Option String => result.2) =
      some (.null, some "yaml: did not find expected key") :=
  ⟨⟨rfl, rfl⟩, rfl, rfl⟩

theorem ReadFile_network_miss (world : World) (globals : Globals) (u scheme : String)
    (bytes : Bytes) (hscheme : world.urlScheme u = some scheme) (hnetwork : scheme ≠ "")
    (hmiss : globals.fetched u = none) (hread : world.httpGet u = .ok (bytes, none)) :
    ReadFile world globals u =
      some ({ globals with
              file_cache := some ((globals.file_cache.getD GoMap.empty).set u bytes)
              reads := globals.reads ++ [u] },
            world.decoded bytes) := by
  have hget : (globals.file_cache.getD GoMap.empty).get u = none := hmiss
  simp only [ReadFile, FetchFile, hscheme, hnetwork, ne_eq, not_false_eq_true, if_true, hget,
    hread, World.decoded]
  cases (world.unmarshal bytes).2 <;> rfl

theorem ReadFile_network_hit (world : World) (globals : Globals) (u scheme : String)
    (bytes : Bytes) (hscheme : world.urlScheme u = some scheme) (hnetwork : scheme ≠ "")
    (hhit : globals.fetched u = some bytes) :
    ReadFile world globals u = some (globals, world.decoded bytes) := by
  have hcache : ∃ cache, globals.file_cache = some cache ∧ cache.get u = some bytes := by
    cases hcache : globals.file_cache with
    | none => simp [Globals.fetched, hcache, GoMap.get, GoMap.empty, GoMap.getEntries] at hhit
    | some cache => exact ⟨cache, rfl, by simpa [Globals.fetched, hcache] using hhit⟩
  obtain ⟨cache, hcache, hget⟩ := hcache
  have hsame : ({ globals with file_cache := some cache } : Globals) = globals := by
    rw [← hcache]
  simp only [ReadFile, FetchFile, hscheme, hnetwork, ne_eq, not_false_eq_true, if_true, hcache,
    Option.getD_some, hget, World.decoded, hsame]
  cases (world.unmarshal bytes).2 <;> rfl

theorem ReadFile_network_failure (world : World) (globals : Globals) (u scheme err : String)
    (hscheme : world.urlScheme u = some scheme) (hnetwork : scheme ≠ "")
    (hmiss : globals.fetched u = none)
    (hfail : world.httpGet u = .error err ∨ ∃ bytes, world.httpGet u = .ok (bytes, some err)) :
    ReadFile world globals u =
      some ({ globals with
              file_cache := some (globals.file_cache.getD GoMap.empty)
              reads := globals.reads ++ [u] },
            .null, some err) := by
  have hget : (globals.file_cache.getD GoMap.empty).get u = none := hmiss
  rcases hfail with hfail | ⟨bytes, hfail⟩ <;>
    simp only [ReadFile, FetchFile, hscheme, hnetwork, ne_eq, not_false_eq_true, if_true, hget,
      hfail]

theorem ReadFile_local (world : World) (globals : Globals) (path : String)
    (hscheme : world.urlScheme path = some "") :
    ∃ result, ReadFile world globals path =
      some ({ globals with reads := globals.reads ++ [path] }, result) := by
  simp only [ReadFile, hscheme, ne_eq, not_true_eq_false, if_false]
  cases world.readFile path with
  | error err => exact ⟨_, rfl⟩
  | ok file => exact ⟨_, rfl⟩

/-- C23, fetch caching. For a network locator `u` (its scheme is not empty)
without an entry in the raw-bytes cache: when the network read succeeds with
`bytes`, the first call of `ReadFile` makes one network read, caches the bytes
under `u` and decodes them, and a second call, in any later world, makes no
read, leaves the variables unchanged and decodes the same bytes; when the
network read fails, the call returns the error and the cache has the entries it
had. For a local path (empty scheme), every call of `ReadFile` makes one read of
the file and leaves the raw-bytes cache as it was, so two calls make two
reads. -/
theorem ReadFile_fetch_caching (world later : World) (globals : Globals) (u : String) :
    (∀ scheme other bytes, world.urlScheme u = some scheme → scheme ≠ "" →
      later.urlScheme u = some other → other ≠ "" → globals.fetched u = none →
      world.httpGet u = .ok (bytes, none) →
      ∃ next, ReadFile world globals u = some (next, world.decoded bytes) ∧
        next.reads = globals.reads ++ [u] ∧ next.fetched u = some bytes ∧
        ReadFile later next u = some (next, later.decoded bytes)) ∧
    (∀ scheme err, world.urlScheme u = some scheme → scheme ≠ "" → globals.fetched u = none →
      (world.httpGet u = .error err ∨ ∃ bytes, world.httpGet u = .ok (bytes, some err)) →
      ∃ next, ReadFile world globals u = some (next, .null, some err) ∧
        next.reads = globals.reads ++ [u] ∧ ∀ key, next.fetched key = globals.fetched key) ∧
    (world.urlScheme u = some "" → later.urlScheme u = some "" →
      ∃ next final first second, ReadFile world globals u = some (next, first) ∧
        ReadFile later next u = some (final, second) ∧
        final.reads = globals.reads ++ [u, u] ∧
        next.file_cache = globals.file_cache ∧ final.file_cache = globals.file_cache) := by
  refine ⟨?_, ?_, ?_⟩
  · intro scheme other bytes hscheme hnetwork hother hnetwork2 hmiss hread
    refine ⟨_, ReadFile_network_miss world globals u scheme bytes hscheme hnetwork hmiss hread,
      rfl, GoMap.get_set_self _ _ _, ?_⟩
    exact ReadFile_network_hit later _ u other bytes hother hnetwork2 (GoMap.get_set_self _ _ _)
  · intro scheme err hscheme hnetwork hmiss hfail
    exact ⟨_, ReadFile_network_failure world globals u scheme err hscheme hnetwork hmiss hfail,
      rfl, fun _ => rfl⟩
  · intro hlocal hlater
    obtain ⟨first, hfirst⟩ := ReadFile_local world globals u hlocal
    obtain ⟨second, hsecond⟩ := ReadFile_local later _ u hlater
    exact ⟨_, _, first, second, hfirst, hsecond, by simp, rfl, rfl⟩

/-- C23 at the network document `http://example.com/openapi.yaml`, from the state
in which the program starts: after two calls of `ReadFile` the trace has one
read, and the second call, made in a world without the document, gives the
document of the first. -/
theorem ReadFile_fetch_caching_witness :
    ∃ next, ReadFile networkWorld Globals.initial "http://example.com/openapi.yaml" =
        some (next, .map fooDocument, none) ∧
      next.reads = ["http://example.com/openapi.yaml"] ∧
      ReadFile { networkWorld with httpGet := fun _ => .error "offline" } next
        "http://example.com/openapi.yaml" = some (next, .map fooDocument, none) := by
  obtain ⟨next, hfirst, hreads, _, hsecond⟩ :=
    (ReadFile_fetch_caching networkWorld { networkWorld with httpGet := fun _ => .error "offline" }
      Globals.initial "http://example.com/openapi.yaml").1 "http" "http" [102, 111, 111]
      rfl (by decide) rfl (by decide) rfl rfl
  exact ⟨next, hfirst, hreads, hsecond⟩

/-! ## Sorted names -/

theorem lessChars_asymm (a b : List Char) (h : lessChars a b = true) : lessChars b a = false := by
  induction a generalizing b with
  | nil =>
    cases b with
    | nil => simp [lessChars] at h
    | cons d ds => simp [lessChars]
  | cons c cs ih =>
    cases b with
    | nil => simp [lessChars] at h
    | cons d ds =>
      simp only [lessChars] at h ⊢
      by_cases h1 : c.toNat < d.toNat
      · have h2 : ¬ d.toNat < c.toNat := by omega
        simp [h1, h2]
      · by_cases h2 : d.toNat < c.toNat
        · simp [h1, h2] at h
        · simp only [h1, h2, if_false] at h ⊢
          exact ih ds h

theorem lessChars_le_trans (a b c : List Char) (hab : lessChars b a = false)
    (hbc : lessChars c b = false) : lessChars c a = false := by
  induction a generalizing b c with
  | nil => cases c <;> simp [lessChars]
  | cons x xs ih =>
    cases b with
    | nil => simp [lessChars] at hab
    | cons d ds =>
      cases c with
      | nil => simp [lessChars] at hbc
      | cons e es =>
        simp only [lessChars] at hab hbc ⊢
        by_cases h1 : d.toNat < x.toNat
        · simp [h1] at hab
        · by_cases h2 : x.toNat < d.toNat
          · by_cases h3 : e.toNat < d.toNat
            · simp [h3] at hbc
            · have h4 : ¬ e.toNat < x.toNat := by omega
              have h5 : x.toNat < e.toNat := by omega
              simp [h4, h5]
          · simp only [h1, h2, if_false] at hab
            by_cases h3 : e.toNat < d.toNat
            · simp [h3] at hbc
            · by_cases h4 : d.toNat < e.toNat
              · have h5 : ¬ e.toNat < x.toNat := by omega
                have h6 : x.toNat < e.toNat := by omega
                simp [h5, h6]
              · simp only [h3, h4, if_false] at hbc
                have h5 : ¬ e.toNat < x.toNat := by omega
                have h6 : ¬ x.toNat < e.toNat := by omega
                simp only [h5, h6, if_false]
                exact ih ds es hab hbc

theorem insertSorted_perm (s : String) (l : List String) : (insertSorted s l).Perm (s :: l) := by
  induction l with
  | nil => exact List.Perm.refl _
  | cons t ts ih =>
    simp only [insertSorted]
    split
    · exact (List.Perm.cons t ih).trans (List.Perm.swap s t ts)
    · exact List.Perm.refl _

theorem sortStrings_perm (l : List String) : (sortStrings l).Perm l := by
  induction l with
  | nil => exact List.Perm.refl _
  | cons s ss ih => exact (insertSorted_perm s _).trans (List.Perm.cons s ih)

theorem insertSorted_ascending (s : String) (l : List String) (h : Ascending l) :
    Ascending (insertSorted s l) := by
  induction l with
  | nil => simp [insertSorted, Ascending]
  | cons t ts ih =>
    simp only [Ascending, List.pairwise_cons] at h
    simp only [insertSorted]
    by_cases hts : lessChars t.data s.data = true
    · simp only [hts, if_true, Ascending, List.pairwise_cons]
      refine ⟨?_, ih h.2⟩
      intro u hu
      rcases (mem_insertSorted s u ts).mp hu with hu | hu
      · rw [hu]
        exact lessChars_asymm _ _ hts
      · exact h.1 u hu
    · have hst : lessChars t.data s.data = false := by simpa using hts
      simp only [hst, Bool.false_eq_true, if_false, Ascending, List.pairwise_cons]
      refine ⟨?_, h.1, h.2⟩
      intro u hu
      rcases List.mem_cons.mp hu with hu | hu
      · rw [hu]
        exact hst
      · exact lessChars_le_trans s.data t.data u.data hst (h.1 u hu)

theorem sortStrings_ascending (l : List String) : Ascending (sortStrings l) := by
  induction l with
  | nil => simp [sortStrings, Ascending]
  | cons s ss ih => exact insertSorted_ascending s _ ih

/-! ## The generated code -/

theorem Code.PrintLines_lines (code : Code) (lines : List String) :
    (code.PrintLines lines).lines = code.lines ++ lines := by
  induction lines generalizing code with
  | nil => simp [Code.PrintLines]
  | cons line rest ih =>
    have hstep : code.PrintLines (line :: rest) = (code.Print line).PrintLines rest := rfl
    rw [hstep, ih]
    simp [Code.Print]

theorem Code.PrintLines_eq (code : Code) (lines : List String) :
    code.PrintLines lines = ⟨code.lines ++ lines⟩ := by
  have h := Code.PrintLines_lines code lines
  cases hc : code.PrintLines lines with
  | mk l =>
    rw [hc] at h
    simp only at h
    rw [h]

theorem string_append_ne_empty (a b : String) (h : b ≠ "") : a ++ b ≠ "" := by
  intro hab
  apply h
  have hdata := congrArg String.data hab
  simp only [String.data_append] at hdata
  have hb : b.data = [] := (List.append_eq_nil.mp hdata).2
  exact String.ext hb

theorem quote_ne_empty (k : String) : "\"" ++ k ++ "\"" ≠ "" :=
  string_append_ne_empty _ _ (by decide)

theorem foldl_quotedKeys (keys : List String) (acc : String) (hacc : acc ≠ "") :
    keys.foldl (fun keyString k =>
      (if keyString ≠ "" then keyString ++ "," else keyString) ++ "\"" ++ k ++ "\"") acc =
      String.intercalate.go acc "," (keys.map fun k => "\"" ++ k ++ "\"") := by
  induction keys generalizing acc with
  | nil => simp [String.intercalate.go]
  | cons k rest ih =>
    simp only [List.foldl_cons, List.map_cons, String.intercalate.go, hacc, ne_eq,
      not_false_eq_true, if_true]
    rw [ih _ (string_append_ne_empty _ _ (by decide))]
    simp only [String.append_assoc]

theorem quotedKeys_eq (keys : List String) : quotedKeys keys = quotedList keys := by
  cases keys with
  | nil => rfl
  | cons k rest =>
    simp only [quotedKeys, quotedList, List.foldl_cons, List.map_cons, String.intercalate]
    have hfirst : ((if "" ≠ "" then "" ++ "," else "") ++ "\"" ++ k ++ "\"" : String) =
        "\"" ++ k ++ "\"" := by
      simp
    rw [hfirst]
    exact foldl_quotedKeys rest _ (quote_ne_empty k)

theorem sortStrings_required (typeModel : TypeModel) :
    (if typeModel.Required.length > 0 then
        { typeModel with Required := sortStrings typeModel.Required }
      else typeModel) = typeModel.withSortedRequired := by
  cases hr : typeModel.Required with
  | nil =>
    simp only [List.length_nil, gt_iff_lt, lt_self_iff_false, if_false,
      TypeModel.withSortedRequired, hr, sortStrings]
    rw [← hr]
  | cons name rest => simp [TypeModel.withSortedRequired, hr]

theorem generateConstructorForType_lines (camelCaseToSnakeCase : String → String)
    (domain : Domain) (code : Code) (typeName : String) (typeModel : TypeModel)
    (hget : domain.TypeModels.get typeName = some typeModel)
    (hmap : typeModel.readFromMap = true) :
    domain.generateConstructorForType camelCaseToSnakeCase code typeName =
      some (domain.withSortedRequired typeName typeModel,
        ⟨code.lines ++ constructorHeader typeName ++
          Domain.mapConstructor camelCaseToSnakeCase
            (domain.withSortedRequired typeName typeModel) typeName
            typeModel.withSortedRequired ++
          constructorFooter⟩) := by
  simp only [TypeModel.readFromMap, Bool.and_eq_true, Bool.not_eq_true', bne_iff_ne, ne_eq] at hmap
  obtain ⟨⟨⟨hs, hi⟩, hb⟩, hn⟩ := hmap
  simp only [Domain.generateConstructorForType, hget, sortStrings_required]
  simp only [hs, hi, hb, hn, Bool.false_eq_true, if_false, Code.PrintLines_eq, Code.Print,
    Domain.withSortedRequired, constructorHeader, constructorFooter, List.append_assoc,
    List.cons_append, List.nil_append]

theorem mapConstructor_eq (camelCaseToSnakeCase : String → String) (domain : Domain)
    (typeName : String) (typeModel : TypeModel) :
    Domain.mapConstructor camelCaseToSnakeCase domain typeName typeModel.withSortedRequired =
      unpackMap typeName ++
      (if typeModel.Required = [] then [] else missingKeyCheck (sortStrings typeModel.Required)) ++
      (if typeModel.Open = true then []
       else invalidKeyCheck (sortStrings typeModel.declaredNames) typeModel.OpenPatterns) ++
      Domain.constructorProperties camelCaseToSnakeCase domain typeName typeModel.OneOfWrapper 0
        typeModel.Properties ++
      ["\x7d"] := by
  have hrequired : (if (sortStrings typeModel.Required).length > 0 then
        Domain.requiredKeysCheck (sortStrings typeModel.Required) else []) =
      (if typeModel.Required = [] then [] else missingKeyCheck (sortStrings typeModel.Required)) := by
    have hlength : (sortStrings typeModel.Required).length = typeModel.Required.length :=
      (sortStrings_perm _).length_eq
    by_cases hr : typeModel.Required = []
    · simp [hr, sortStrings]
    · have hpos : (sortStrings typeModel.Required).length > 0 := by
        rw [hlength]
        exact List.length_pos.mpr hr
      simp only [hpos, if_true, hr, if_false, Domain.requiredKeysCheck, missingKeyCheck,
        quotedKeys_eq]
  have hallowed : (if (!typeModel.Open) = true then
        Domain.allowedKeysCheck typeModel.withSortedRequired else []) =
      (if typeModel.Open = true then []
       else invalidKeyCheck (sortStrings typeModel.declaredNames) typeModel.OpenPatterns) := by
    cases typeModel.Open <;>
      simp [Domain.allowedKeysCheck, invalidKeyCheck, quotedKeys_eq, TypeModel.declaredNames,
        TypeModel.withSortedRequired]
  simp only [Domain.mapConstructor, unpackMap]
  rw [show typeModel.withSortedRequired.Required = sortStrings typeModel.Required from rfl,
    show typeModel.withSortedRequired.Open = typeModel.Open from rfl,
    show typeModel.withSortedRequired.OneOfWrapper = typeModel.OneOfWrapper from rfl,
    show typeModel.withSortedRequired.Properties = typeModel.Properties from rfl,
    hrequired, hallowed]

/-- C27, required-key check: for a type that `generateConstructorForType` reads
from a map, the constructor printed is the header, the lines that unpack the
map, then the missing-key check if and only if `Required` is not empty, then the
invalid-key check, the code of the properties and the footer. The required-key
list of the check is the names of `Required`, each as often as it is listed, in
ascending order, and the check appends one error, under the guard
`len(missingKeys) > 0`. -/
theorem generateConstructorForType_required_keys (camelCaseToSnakeCase : String → String)
    (domain : Domain) (code : Code) (typeName : String) (typeModel : TypeModel)
    (hget : domain.TypeModels.get typeName = some typeModel)
    (hmap : typeModel.readFromMap = true) :
    domain.generateConstructorForType camelCaseToSnakeCase code typeName =
      some (domain.withSortedRequired typeName typeModel,
        ⟨code.lines ++ constructorHeader typeName ++
          (unpackMap typeName ++
            (if typeModel.Required = [] then []
             else missingKeyCheck (sortStrings typeModel.Required)) ++
            (if typeModel.Open = true then []
             else invalidKeyCheck (sortStrings typeModel.declaredNames) typeModel.OpenPatterns) ++
            Domain.constructorProperties camelCaseToSnakeCase
              (domain.withSortedRequired typeName typeModel) typeName typeModel.OneOfWrapper 0
              typeModel.Properties ++
            ["\x7d"]) ++
          constructorFooter⟩) ∧
    (sortStrings typeModel.Required).Perm typeModel.Required ∧
    Ascending (sortStrings typeModel.Required) ∧
    (missingKeyCheck (sortStrings typeModel.Required)).head? =
      some ("requiredKeys := []string\x7b" ++ quotedList (sortStrings typeModel.Required) ++
        "\x7d") ∧
    (missingKeyCheck (sortStrings typeModel.Required)).tail =
      ["missingKeys := compiler.MissingKeysInMap(m, requiredKeys)",
       "if len(missingKeys) > 0 \x7b",
       "  message := fmt.Sprintf(\"is missing required %s: %+v\", " ++
         "compiler.PluralProperties(len(missingKeys)), strings.Join(missingKeys, \", \"))",
       "  errors = append(errors, compiler.NewError(context, message))",
       "\x7d"] := by
  refine ⟨?_, sortStrings_perm _, sortStrings_ascending _, rfl, rfl⟩
  rw [generateConstructorForType_lines camelCaseToSnakeCase domain code typeName typeModel hget hmap,
    mapConstructor_eq]

/-- C27 at the type `Pet`, which requires `name` and `id`: the ninth line of the
constructor is the required-key list, in ascending order. -/
theorem generateConstructorForType_required_keys_witness :
    (petDomain.generateConstructorForType id ⟨[]⟩ "Pet").map
      (fun result : Domain × Code => (result.2.lines.drop 8).take 3) =
      some ["requiredKeys := []string\x7b\"id\",\"name\"\x7d",
            "missingKeys := compiler.MissingKeysInMap(m, requiredKeys)",
            "if len(missingKeys) > 0 \x7b"] := by
  rw [(generateConstructorForType_required_keys id petDomain ⟨[]⟩ "Pet" _ rfl rfl).1]
  rfl

/-- C26, closed-key check: for a type that `generateConstructorForType` reads
from a map, the constructor printed is the header, the lines that unpack the
map, the missing-key check, then the invalid-key check if and only if the type
is not `Open`, then the code of the properties and the footer. The allowed-key
list of the check is the names of the properties that are not implicit, one for
each such property, in ascending order; its allowed-pattern list is
`OpenPatterns`, in order; and the check appends one error, under the guard
`len(invalidKeys) > 0`. -/
theorem generateConstructorForType_allowed_keys (camelCaseToSnakeCase : String → String)
    (domain : Domain) (code : Code) (typeName : String) (typeModel : TypeModel)
    (hget : domain.TypeModels.get typeName = some typeModel)
    (hmap : typeModel.readFromMap = true) :
    domain.generateConstructorForType camelCaseToSnakeCase code typeName =
      some (domain.withSortedRequired typeName typeModel,
        ⟨code.lines ++ constructorHeader typeName ++
          (unpackMap typeName ++
            (if typeModel.Required = [] then []
             else missingKeyCheck (sortStrings typeModel.Required)) ++
            (if typeModel.Open = true then []
             else invalidKeyCheck (sortStrings typeModel.declaredNames) typeModel.OpenPatterns) ++
            Domain.constructorProperties camelCaseToSnakeCase
              (domain.withSortedRequired typeName typeModel) typeName typeModel.OneOfWrapper 0
              typeModel.Properties ++
            ["\x7d"]) ++
          constructorFooter⟩) ∧
    (sortStrings typeModel.declaredNames).Perm
      ((typeModel.Properties.filter fun property => !property.Implicit).map fun property =>
        property.Name) ∧
    Ascending (sortStrings typeModel.declaredNames) ∧
    (invalidKeyCheck (sortStrings typeModel.declaredNames) typeModel.OpenPatterns).take 2 =
      ["allowedKeys := []string\x7b" ++ quotedList (sortStrings typeModel.declaredNames) ++ "\x7d",
       "allowedPatterns := []string\x7b" ++ quotedList typeModel.OpenPatterns ++ "\x7d"] ∧
    (invalidKeyCheck (sortStrings typeModel.declaredNames) typeModel.OpenPatterns).drop 2 =
      ["invalidKeys := compiler.InvalidKeysInMap(m, allowedKeys, allowedPatterns)",
       "if len(invalidKeys) > 0 \x7b",
       "  message := fmt.Sprintf(\"has invalid %s: %+v\", " ++
         "compiler.PluralProperties(len(invalidKeys)), strings.Join(invalidKeys, \", \"))",
       "  errors = append(errors, compiler.NewError(context, message))",
       "\x7d"] := by
  refine ⟨?_, sortStrings_perm _, sortStrings_ascending _, rfl, rfl⟩
  rw [generateConstructorForType_lines camelCaseToSnakeCase domain code typeName typeModel hget hmap,
    mapConstructor_eq]

/-- C26 at the type `Pet`, which is not open: the allowed keys are the three
declared names in ascending order, without the implicit map property, and the
allowed patterns are the one open pattern. -/
theorem generateConstructorForType_allowed_keys_witness :
    (petDomain.generateConstructorForType id ⟨[]⟩ "Pet").map
      (fun result : Domain × Code => (result.2.lines.drop 14).take 4) =
      some ["allowedKeys := []string\x7b\"id\",\"name\",\"tags\"\x7d",
            "allowedPatterns := []string\x7b\"^x-\"\x7d",
            "invalidKeys := compiler.InvalidKeysInMap(m, allowedKeys, allowedPatterns)",
            "if len(invalidKeys) > 0 \x7b"] := by
  rw [(generateConstructorForType_allowed_keys id petDomain ⟨[]⟩ "Pet" _ rfl rfl).1]
  rfl

/-! ## The generated `ResolveReferences` methods -/

theorem generateResolveReferencesMethodsForType_lines (domain : Domain) (code : Code)
    (typeName : String) (typeModel : TypeModel)
    (hget : domain.TypeModels.get typeName = some typeModel) :
    domain.generateResolveReferencesMethodsForType code typeName =
      some ⟨code.lines ++ [resolveHeader typeName] ++
        (if typeModel.OneOfWrapper = true then
          typeModel.Properties.flatMap fun propertyModel =>
            domain.resolveAlternative typeName propertyModel
         else
          typeModel.Properties.flatMap fun propertyModel =>
            domain.resolveProperty typeName typeModel propertyModel) ++
        resolveFooter⟩ := by
  simp only [Domain.generateResolveReferencesMethodsForType, hget]
  cases typeModel.OneOfWrapper <;>
    simp [Code.PrintLines_eq, Code.Print, resolveHeader, resolveFooter]

theorem isReceiverAssignment_resolveHeader (typeName : String) :
    isReceiverAssignment (resolveHeader typeName) = false := by
  simp [isReceiverAssignment, resolveHeader, String.data_append]

theorem isReceiverAssignment_resolveField (domain : Domain) (propertyModel : TypeProperty)
    (line : String) (h : line ∈ domain.resolveField propertyModel "XRef") :
    isReceiverAssignment line = false := by
  simp only [Domain.resolveField] at h
  repeat' split at h
  all_goals
    first
    | (simp only [List.mem_cons, List.mem_singleton, List.not_mem_nil, or_false] at h
       rcases h with h | h | h | h | h <;> (subst h; decide))
    | (simp only [List.mem_cons, List.mem_singleton, List.not_mem_nil, or_false] at h
       rcases h with h | h | h <;> (subst h; decide))
    | simp at h

/-- C28, reference field resolution: for a type without `OneOfWrapper`, the method
printed is the header, the lines of each property in order, and the footer. The
lines of a property named `$ref` start with the guard `if m.XRef != ""` and the
lookup `compiler.ReadInfoForRef(root, m.XRef)`; when the type has a property
other than `$ref`, they go on with the code that, for a fragment that is not
nil, builds a replacement from the fragment, overwrites the receiver with it and
returns the result of resolving the receiver again; and when `$ref` is the only
property of the type, the whole method is the guard, the lookup and the return
of the fragment, followed by the calls on the field, and no line of it assigns
to the receiver. -/
theorem generateResolveReferencesMethodsForType_reference (domain : Domain) (code : Code)
    (typeName : String) (typeModel : TypeModel)
    (hget : domain.TypeModels.get typeName = some typeModel)
    (hwrapper : typeModel.OneOfWrapper = false) :
    domain.generateResolveReferencesMethodsForType code typeName =
      some ⟨code.lines ++ [resolveHeader typeName] ++
        (typeModel.Properties.flatMap fun propertyModel =>
          domain.resolveProperty typeName typeModel propertyModel) ++
        resolveFooter⟩ ∧
    (∀ property ∈ typeModel.Properties, property.Name = "$ref" →
      (∃ other ∈ typeModel.Properties, other.Name ≠ "$ref") →
      domain.resolveProperty typeName typeModel property =
        ["if m.XRef != \"\" \x7b",
         "info := compiler.ReadInfoForRef(root, m.XRef)",
         "if info != nil \x7b",
         "replacement, _ := New" ++ typeName ++ "(info, nil)",
         "*m = *replacement",
         "return m.ResolveReferences(root)",
         "\x7d",
         "return info, nil",
         "\x7d"] ++
        domain.resolveField property "XRef") ∧
    (∀ property, typeModel.Properties = [property] → property.Name = "$ref" →
      domain.generateResolveReferencesMethodsForType code typeName =
        some ⟨code.lines ++
          ([resolveHeader typeName,
            "if m.XRef != \"\" \x7b",
            "info := compiler.ReadInfoForRef(root, m.XRef)",
            "return info, nil",
            "return info, nil",
            "\x7d"] ++
           domain.resolveField property "XRef" ++ resolveFooter)⟩ ∧
      ∀ line ∈ [resolveHeader typeName,
            "if m.XRef != \"\" \x7b",
            "info := compiler.ReadInfoForRef(root, m.XRef)",
            "return info, nil",
            "return info, nil",
            "\x7d"] ++
           domain.resolveField property "XRef" ++ resolveFooter,
        isReceiverAssignment line = false) := by
  have hlines := generateResolveReferencesMethodsForType_lines domain code typeName typeModel hget
  simp only [hwrapper, Bool.false_eq_true, if_false] at hlines
  refine ⟨hlines, ?_, ?_⟩
  · intro property hproperty hname hother
    obtain ⟨other, hmem, hne⟩ := hother
    have hlength : typeModel.Properties.length > 1 := by
      cases hp : typeModel.Properties with
      | nil => simp [hp] at hproperty
      | cons first rest =>
        cases rest with
        | nil =>
          simp only [hp, List.mem_singleton] at hproperty hmem
          rw [hmem, ← hproperty] at hne
          exact absurd hname hne
        | cons second others => simp
    simp [Domain.resolveProperty, Domain.resolveReference, hname, hlength]
  · intro property hproperties hname
    refine ⟨?_, ?_⟩
    · rw [hlines, hproperties]
      simp [Domain.resolveProperty, Domain.resolveReference, hname, hproperties]
    · intro line hline
      simp only [List.cons_append, List.nil_append, List.mem_cons, List.mem_append] at hline
      rcases hline with h | h | h | h | h | h | h | h
      · rw [h]
        exact isReceiverAssignment_resolveHeader typeName
      · subst h
        decide
      · subst h
        decide
      · subst h
        decide
      · subst h
        decide
      · subst h
        decide
      · exact isReceiverAssignment_resolveField domain property line h
      · simp only [resolveFooter, List.mem_cons, List.mem_singleton, List.not_mem_nil,
          or_false] at h
        rcases h with h | h <;> (subst h; decide)

/-- C28 at the types of `jsonReferenceSchema`: `Parameter`, with the properties
`$ref` and `name`, is rebuilt from the fragment in place; `JsonReference`, with
the one property `$ref`, returns the fragment. -/
theorem generateResolveReferencesMethodsForType_reference_witness :
    (jsonReferenceDomain.generateResolveReferencesMethodsForType ⟨[]⟩ "Parameter").map
      (fun code : Code => code.lines) =
      some ["func (m *Parameter) ResolveReferences(root string) (interface\x7b\x7d, error) \x7b",
            "if m.XRef != \"\" \x7b",
            "info := compiler.ReadInfoForRef(root, m.XRef)",
            "if info != nil \x7b",
            "replacement, _ := NewParameter(info, nil)",
            "*m = *replacement",
            "return m.ResolveReferences(root)",
            "\x7d",
            "return info, nil",
            "\x7d",
            "  return nil, nil",
            "\x7d\n"] ∧
    (jsonReferenceDomain.generateResolveReferencesMethodsForType ⟨[]⟩ "JsonReference").map
      (fun code : Code => code.lines) =
      some ["func (m *JsonReference) ResolveReferences(root string) (interface\x7b\x7d, error) \x7b",
            "if m.XRef != \"\" \x7b",
            "info := compiler.ReadInfoForRef(root, m.XRef)",
            "return info, nil",
            "return info, nil",
            "\x7d",
            "  return nil, nil",
            "\x7d\n"] := by
  refine ⟨?_, ?_⟩
  · rw [(generateResolveReferencesMethodsForType_reference jsonReferenceDomain ⟨[]⟩ "Parameter" _
      rfl rfl).1]
    rfl
  · rw [((generateResolveReferencesMethodsForType_reference jsonReferenceDomain ⟨[]⟩
      "JsonReference" _ rfl rfl).2.2 _ rfl rfl).1]
    rfl

/-- C29 fails for a reference holder that is not named `JsonReference`: the type
`Reference` has the one property `$ref`, and for the alternative `Reference` of
the wrapper `ParameterOrReference` the method printed only calls the resolution
of the alternative; no line rebuilds the wrapper or assigns to the receiver. -/
theorem generateResolveReferencesMethodsForType_other_name :
    (referenceDomain.TypeModels.get "ParameterOrReference").map
      (fun typeModel : TypeModel => typeModel.OneOfWrapper) = some true ∧
    (referenceDomain.TypeModels.get "Reference").map
      (fun typeModel : TypeModel =>
        typeModel.Properties.map fun property : TypeProperty => property.Name) =
      some ["$ref"] ∧
    (referenceDomain.generateResolveReferencesMethodsForType ⟨[]⟩ "ParameterOrReference").map
      (fun code : Code => code.lines) =
      some ["func (m *ParameterOrReference) ResolveReferences(root string) " ++
              "(interface\x7b\x7d, error) \x7b",
            "\x7b",
            "p, ok := m.Oneof.(*ParameterOrReference_Parameter)",
            "if ok \x7b",
            "p.Parameter.ResolveReferences(root)",
            "\x7d",
            "\x7d",
            "\x7b",
            "p, ok := m.Oneof.(*ParameterOrReference_Reference)",
            "if ok \x7b",
            "p.Reference.ResolveReferences(root)",
            "\x7d",
            "\x7d",
            "  return nil, nil",
            "\x7d\n"] :=
  ⟨rfl, rfl, rfl⟩

/-- C29 as amended, resolution of a `oneOf` wrapper: for a type with
`OneOfWrapper`, the method printed is the header, one block for each property
whose type is a type of the domain, in order, and the footer. The block of an
alternative `A` tests that the alternative is the populated one
(`p, ok := m.Oneof.(*T_A)`) and then calls `p.A.ResolveReferences(root)`; when
the alternative is the type named `JsonReference`, the block takes the result of
the call and, for a result that is not nil, builds the wrapper's own type from
it, replaces the receiver in place and returns; for an alternative of any other
name, whatever its properties, the block is the call alone. -/
theorem generateResolveReferencesMethodsForType_wrapper (domain : Domain) (code : Code)
    (typeName : String) (typeModel : TypeModel)
    (hget : domain.TypeModels.get typeName = some typeModel)
    (hwrapper : typeModel.OneOfWrapper = true) :
    domain.generateResolveReferencesMethodsForType code typeName =
      some ⟨code.lines ++ [resolveHeader typeName] ++
        (typeModel.Properties.flatMap fun propertyModel =>
          domain.resolveAlternative typeName propertyModel) ++
        resolveFooter⟩ ∧
    (∀ property ∈ typeModel.Properties, domain.TypeModels.contains property.Type_ = false →
      domain.resolveAlternative typeName property = []) ∧
    (∀ property ∈ typeModel.Properties, domain.TypeModels.contains property.Type_ = true →
      property.Type_ ≠ "JsonReference" →
      domain.resolveAlternative typeName property =
        ["\x7b",
         "p, ok := m.Oneof.(*" ++ typeName ++ "_" ++ property.Type_ ++ ")",
         "if ok \x7b",
         "p." ++ property.Type_ ++ ".ResolveReferences(root)",
         "\x7d",
         "\x7d"]) ∧
    (∀ property ∈ typeModel.Properties, domain.TypeModels.contains property.Type_ = true →
      property.Type_ = "JsonReference" →
      domain.resolveAlternative typeName property =
        ["\x7b",
         "p, ok := m.Oneof.(*" ++ typeName ++ "_" ++ property.Type_ ++ ")",
         "if ok \x7b",
         "info, err := p." ++ property.Type_ ++ ".ResolveReferences(root)",
         "if err != nil \x7b",
         "  return nil, err",
         "\x7d else if info != nil \x7b",
         "  n, err := New" ++ typeName ++ "(info, nil)",
         "  if err != nil \x7b",
         "    return nil, err",
         "  \x7d else if n != nil \x7b",
         "    *m = *n",
         "    return nil, nil",
         "  \x7d",
         "\x7d",
         "\x7d",
         "\x7d"]) := by
  have hlines := generateResolveReferencesMethodsForType_lines domain code typeName typeModel hget
  simp only [hwrapper, if_true] at hlines
  refine ⟨hlines, ?_, ?_, ?_⟩
  · intro property _ hfound
    simp [Domain.resolveAlternative, hfound]
  · intro property _ hfound hname
    simp [Domain.resolveAlternative, hfound, hname]
  · intro property _ hfound hname
    rw [hname] at hfound
    simp [Domain.resolveAlternative, hfound, hname]

/-- C29 as amended, at the wrapper `ParameterOrReference` of
`jsonReferenceSchema`, whose second alternative is the type `JsonReference`. -/
theorem generateResolveReferencesMethodsForType_wrapper_witness :
    (jsonReferenceDomain.generateResolveReferencesMethodsForType ⟨[]⟩
        "ParameterOrReference").map (fun code : Code => code.lines) =
      some ["func (m *ParameterOrReference) ResolveReferences(root string) " ++
              "(interface\x7b\x7d, error) \x7b",
            "\x7b",
            "p, ok := m.Oneof.(*ParameterOrReference_Parameter)",
            "if ok \x7b",
            "p.Parameter.ResolveReferences(root)",
            "\x7d",
            "\x7d",
            "\x7b",
            "p, ok := m.Oneof.(*ParameterOrReference_JsonReference)",
            "if ok \x7b",
            "info, err := p.JsonReference.ResolveReferences(root)",
            "if err != nil \x7b",
            "  return nil, err",
            "\x7d else if info != nil \x7b",
            "  n, err := NewParameterOrReference(info, nil)",
            "  if err != nil \x7b",
            "    return nil, err",
            "  \x7d else if n != nil \x7b",
            "    *m = *n",
            "    return nil, nil",
            "  \x7d",
            "\x7d",
            "\x7d",
            "\x7d",
            "  return nil, nil",
            "\x7d\n"] := by
  rw [(generateResolveReferencesMethodsForType_wrapper jsonReferenceDomain ⟨[]⟩
    "ParameterOrReference" _ rfl rfl).1]
  rfl

/-! ## Return statements of the generated constructors -/

theorem returnStatements_append (a b : List String) :
    returnStatements (a ++ b) = returnStatements a ++ returnStatements b := by
  simp [returnStatements]

theorem returnStatements_eq_nil (lines : List String)
    (h : ∀ line ∈ lines, isReturnStatement line = false) : returnStatements lines = [] := by
  simp only [returnStatements, List.filter_eq_nil_iff]
  intro line hline
  simp [h line hline]

theorem messageProperty_no_return (parentTypeName : String) (oneOfWrapper : Bool)
    (fieldNumber : Nat) (propertyModel : TypeProperty) (fieldName : String)
    (typeModel : TypeModel) :
    ∀ line ∈ Domain.messageProperty parentTypeName oneOfWrapper fieldNumber propertyModel
      fieldName typeModel, isReturnStatement line = false := by
  simp only [Domain.messageProperty]
  split_ifs <;> simp [isReturnStatement, String.data_append]

theorem unexpectedValue_no_return (propertyName v : String) :
    ∀ line ∈ Domain.unexpectedValue propertyName v, isReturnStatement line = false := by
  simp [Domain.unexpectedValue, isReturnStatement, String.data_append]

theorem scalarProperty_no_return (fieldNumber : Nat) (propertyName fieldName goType : String) :
    ∀ line ∈ Domain.scalarProperty fieldNumber propertyName fieldName goType,
      isReturnStatement line = false := by
  simp [Domain.scalarProperty, Domain.unexpectedValue, isReturnStatement, String.data_append]

theorem stringProperty_no_return (fieldNumber : Nat) (propertyModel : TypeProperty)
    (fieldName : String) :
    ∀ line ∈ Domain.stringProperty fieldNumber propertyModel fieldName,
      isReturnStatement line = false := by
  simp only [Domain.stringProperty]
  split_ifs
  · simp [Domain.unexpectedValue, isReturnStatement, String.data_append]
  · exact scalarProperty_no_return _ _ _ _

theorem boolProperty_no_return (parentTypeName : String) (oneOfWrapper : Bool)
    (fieldNumber : Nat) (propertyName fieldName : String) :
    ∀ line ∈ Domain.boolProperty parentTypeName oneOfWrapper fieldNumber propertyName fieldName,
      isReturnStatement line = false := by
  simp only [Domain.boolProperty]
  split_ifs <;> simp [Domain.unexpectedValue, isReturnStatement, String.data_append]

theorem mapProperty_no_return (propertyType : String) (propertyModel : TypeProperty)
    (fieldName : String) :
    ∀ line ∈ Domain.mapProperty propertyType propertyModel fieldName,
      isReturnStatement line = false := by
  simp only [Domain.mapProperty]
  split_ifs <;> simp [isReturnStatement, String.data_append]

theorem propertyComment_no_return (camelCaseToSnakeCase : String → String) (fieldNumber : Nat)
    (propertyModel : TypeProperty) :
    isReturnStatement (Domain.propertyComment camelCaseToSnakeCase fieldNumber propertyModel) =
      false := by
  simp [Domain.propertyComment, isReturnStatement, String.data_append]

theorem constructorProperty_no_return (camelCaseToSnakeCase : String → String)
    (domain : Domain) (parentTypeName : String) (oneOfWrapper : Bool) (fieldNumber : Nat)
    (propertyModel : TypeProperty) :
    ∀ line ∈ domain.constructorProperty camelCaseToSnakeCase parentTypeName oneOfWrapper
      fieldNumber propertyModel, isReturnStatement line = false := by
  intro line hline
  simp only [Domain.constructorProperty, List.singleton_append, List.mem_cons] at hline
  rcases hline with hline | hline
  · rw [hline]
    exact propertyComment_no_return _ _ _
  · split at hline
    · exact messageProperty_no_return _ _ _ _ _ _ line hline
    · split_ifs at hline
      all_goals
        first
        | exact stringProperty_no_return _ _ _ line hline
        | exact scalarProperty_no_return _ _ _ _ line hline
        | exact boolProperty_no_return _ _ _ _ _ line hline
        | exact mapProperty_no_return _ _ _ line hline

theorem constructorProperties_no_return (camelCaseToSnakeCase : String → String)
    (domain : Domain) (parentTypeName : String) (oneOfWrapper : Bool) (fieldNumber : Nat)
    (properties : List TypeProperty) :
    ∀ line ∈ domain.constructorProperties camelCaseToSnakeCase parentTypeName oneOfWrapper
      fieldNumber properties, isReturnStatement line = false := by
  induction properties generalizing fieldNumber with
  | nil => simp [Domain.constructorProperties]
  | cons property rest ih =>
    intro line hline
    simp only [Domain.constructorProperties, List.mem_append] at hline
    rcases hline with hline | hline
    · exact constructorProperty_no_return _ _ _ _ _ _ line hline
    · exact ih _ line hline

theorem mapConstructor_no_return (camelCaseToSnakeCase : String → String) (domain : Domain)
    (typeName : String) (typeModel : TypeModel) :
    ∀ line ∈ domain.mapConstructor camelCaseToSnakeCase typeName typeModel,
      isReturnStatement line = false := by
  intro line hline
  simp only [Domain.mapConstructor, List.mem_append] at hline
  rcases hline with ((hline | hline) | hline) | hline
  · rcases hline with hline | hline
    · revert line
      simp [isReturnStatement, String.data_append]
    · split_ifs at hline
      · revert line
        simp [Domain.requiredKeysCheck, isReturnStatement, String.data_append]
      · simp at hline
  · split_ifs at hline
    · revert line
      simp [Domain.allowedKeysCheck, isReturnStatement, String.data_append]
    · simp at hline
  · exact constructorProperties_no_return _ _ _ _ _ _ line hline
  · revert line
    simp [isReturnStatement]

theorem constructorHeader_no_return (typeName : String) :
    ∀ line ∈ constructorHeader typeName, isReturnStatement line = false := by
  simp [constructorHeader, isReturnStatement, String.data_append]

theorem returnStatements_constructorFooter :
    returnStatements constructorFooter = ["  return x, compiler.NewErrorGroupOrNil(errors)"] := by
  decide

/-- Outside of the branch for item arrays, a constructor has one `return`
statement, its last statement: for a type that is a string array or is no item
array, the lines printed are the header, a body without `return` statement, and
the footer `return x, compiler.NewErrorGroupOrNil(errors)`. -/
theorem generateConstructorForType_one_return (camelCaseToSnakeCase : String → String)
    (domain : Domain) (code : Code) (typeName : String) (typeModel : TypeModel)
    (hget : domain.TypeModels.get typeName = some typeModel)
    (hbranch : typeModel.IsStringArray = true ∨ typeModel.IsItemArray = false) :
    ∃ final body,
      domain.generateConstructorForType camelCaseToSnakeCase code typeName =
        some (final, ⟨code.lines ++ (constructorHeader typeName ++ body ++ constructorFooter)⟩) ∧
      returnStatements (constructorHeader typeName ++ body ++ constructorFooter) =
        ["  return x, compiler.NewErrorGroupOrNil(errors)"] := by
  have hreturns : ∀ body : List String, (∀ line ∈ body, isReturnStatement line = false) →
      returnStatements (constructorHeader typeName ++ body ++ constructorFooter) =
        ["  return x, compiler.NewErrorGroupOrNil(errors)"] := by
    intro body hbody
    rw [returnStatements_append, returnStatements_append,
      returnStatements_eq_nil _ (constructorHeader_no_return typeName),
      returnStatements_eq_nil _ hbody, returnStatements_constructorFooter]
    rfl
  by_cases hs : typeModel.IsStringArray = true
  · refine ⟨domain, Domain.stringArrayConstructor, ?_, hreturns _ (by decide)⟩
    simp [Domain.generateConstructorForType, hget, hs, Code.PrintLines_eq, Code.Print,
      constructorHeader, constructorFooter]
  · have hi : typeModel.IsItemArray = false := by
      rcases hbranch with h | h
      · exact absurd h hs
      · exact h
    have hs2 : typeModel.IsStringArray = false := by simpa using hs
    by_cases hb : typeModel.IsBlob = true
    · refine ⟨domain, Domain.blobConstructor, ?_, hreturns _ (by decide)⟩
      simp [Domain.generateConstructorForType, hget, hs2, hi, hb, Code.PrintLines_eq, Code.Print,
        constructorHeader, constructorFooter]
    · have hb2 : typeModel.IsBlob = false := by simpa using hb
      by_cases hn : typeModel.Name = "StringArray"
      · refine ⟨domain, Domain.namedStringArrayConstructor, ?_, hreturns _ (by decide)⟩
        simp [Domain.generateConstructorForType, hget, hs2, hi, hb2, hn, Code.PrintLines_eq,
          Code.Print, constructorHeader, constructorFooter]
      · have hmap : typeModel.readFromMap = true := by
          simp [TypeModel.readFromMap, hs2, hi, hb2, hn]
        refine ⟨domain.withSortedRequired typeName typeModel,
          Domain.mapConstructor camelCaseToSnakeCase
            (domain.withSortedRequired typeName typeModel) typeName typeModel.withSortedRequired,
          ?_, hreturns _ (mapConstructor_no_return camelCaseToSnakeCase
            (domain.withSortedRequired typeName typeModel) typeName
            typeModel.withSortedRequired)⟩
        rw [generateConstructorForType_lines camelCaseToSnakeCase domain code typeName typeModel
          hget hmap]
        simp

/-- C24 at the type `ItemsItem` of the domain built for `metaSchema`, an item
array: the constructor printed has two `return` statements; the first,
`return nil, err`, is in the branch that reads the map and returns no instance
when the constructor of the item fails. For `Schema`, read from a map, and
`TypeItem`, a string array, the one `return` statement is the last one. -/
theorem generateConstructorForType_item_array_return :
    (metaDomain.TypeModels.get "ItemsItem").map
      (fun typeModel : TypeModel => typeModel.IsItemArray) = some true ∧
    (metaDomain.generateConstructorForType id ⟨[]⟩ "ItemsItem").map
      (fun result : Domain × Code => result.2.lines) =
      some ["func NewItemsItem(in interface\x7b\x7d, context *compiler.Context) " ++
              "(*ItemsItem, error) \x7b",
            "errors := make([]error, 0)",
            "x := &ItemsItem\x7b\x7d",
            "m, ok := compiler.UnpackMap(in)",
            "if !ok \x7b",
            "  message := fmt.Sprintf(\"has unexpected value for item array: %+v\", in)",
            "  errors = append(errors, compiler.NewError(context, message))",
            "\x7d else \x7b",
            "  x.Schema = make([]*Schema, 0)",
            "  y, err := NewSchema(m, compiler.NewContext(\"<array>\", context))",
            "  if err != nil \x7b",
            "    return nil, err",
            "  \x7d",
            "  x.Schema = append(x.Schema, y)",
            "\x7d",
            "  return x, compiler.NewErrorGroupOrNil(errors)",
            "\x7d\n"] ∧
    (metaDomain.generateConstructorForType id ⟨[]⟩ "ItemsItem").map
      (fun result : Domain × Code => returnStatements result.2.lines) =
      some ["    return nil, err", "  return x, compiler.NewErrorGroupOrNil(errors)"] ∧
    (metaDomain.generateConstructorForType id ⟨[]⟩ "Schema").map
      (fun result : Domain × Code => returnStatements result.2.lines) =
      some ["  return x, compiler.NewErrorGroupOrNil(errors)"] ∧
    (metaDomain.generateConstructorForType id ⟨[]⟩ "TypeItem").map
      (fun result : Domain × Code => returnStatements result.2.lines) =
      some ["  return x, compiler.NewErrorGroupOrNil(errors)"] :=
  ⟨rfl, rfl, rfl, rfl, rfl⟩

/-! ## The alternatives of a `oneOf` wrapper -/

theorem withSortedRequired_get (domain : Domain) (typeName key : String) (typeModel : TypeModel)
    (hget : domain.TypeModels.get typeName = some typeModel) :
    (domain.withSortedRequired typeName typeModel).TypeModels.get key =
      (domain.TypeModels.get key).map fun found =>
        if key = typeName then found.withSortedRequired else found := by
  by_cases hkey : key = typeName
  · subst hkey
    simp only [Domain.withSortedRequired, GoMap.get_set_self, hget, Option.map_some', if_true]
  · simp only [Domain.withSortedRequired, GoMap.get_set_ne _ _ _ _ hkey, hkey, if_false]
    cases domain.TypeModels.get key <;> rfl

theorem constructorProperty_alternative (camelCaseToSnakeCase : String → String)
    (domain : Domain) (typeName : String) (typeModel : TypeModel) (fieldNumber : Nat)
    (property : TypeProperty) (hget : domain.TypeModels.get typeName = some typeModel)
    (halternative : domain.isMessageAlternative property = true) :
    (domain.withSortedRequired typeName typeModel).constructorProperty camelCaseToSnakeCase
        typeName true fieldNumber property =
      Domain.propertyComment camelCaseToSnakeCase fieldNumber property ::
        oneOfBlock typeName (domain.alternativeOf property) := by
  simp only [Domain.isMessageAlternative, Bool.and_eq_true, Bool.not_eq_true', bne_iff_ne, ne_eq,
    Option.isSome_iff_exists] at halternative
  obtain ⟨⟨hrepeated, hint⟩, found, hfound⟩ := halternative
  cases hlookup : domain.TypeModels.get property.Type_ with
  | none => simp [hlookup] at hfound
  | some model =>
    have hpair : model.IsPair = false := by
      simp only [hlookup, Option.filter] at hfound
      split_ifs at hfound with h
      · simpa using h
    simp only [Domain.constructorProperty, hint, if_false,
      withSortedRequired_get domain typeName _ typeModel hget, hlookup, Option.map_some',
      List.singleton_append, Domain.alternativeOf, Option.getD_some]
    by_cases hkey : property.Type_ = typeName
    · simp [hkey, Option.filter, TypeModel.withSortedRequired, hpair, Domain.messageProperty,
        hrepeated, oneOfBlock]
    · simp [hkey, Option.filter, hpair, Domain.messageProperty, hrepeated, oneOfBlock]

theorem constructorProperties_alternatives (camelCaseToSnakeCase : String → String)
    (domain : Domain) (typeName : String) (typeModel : TypeModel) (fieldNumber : Nat)
    (properties : List TypeProperty) (hget : domain.TypeModels.get typeName = some typeModel)
    (halternatives : ∀ property ∈ properties, domain.isMessageAlternative property = true) :
    (domain.withSortedRequired typeName typeModel).constructorProperties camelCaseToSnakeCase
        typeName true fieldNumber properties =
      domain.wrapperBlocks camelCaseToSnakeCase typeName fieldNumber properties := by
  induction properties generalizing fieldNumber with
  | nil => rfl
  | cons property rest ih =>
    simp only [Domain.constructorProperties, Domain.wrapperBlocks]
    rw [constructorProperty_alternative camelCaseToSnakeCase domain typeName typeModel _ property
        hget (halternatives property (List.mem_cons_self _ _)),
      ih _ (fun other hother => halternatives other (List.mem_cons_of_mem _ hother))]

theorem runOneOfBlocks_eq (constructs : String → Bool) (x : Wrapper)
    (alternatives : List OneOfAlternative) :
    runOneOfBlocks constructs x alternatives =
      ⟨(lastConstructing constructs alternatives).orElse fun _ => x.Oneof, x.errors⟩ := by
  induction alternatives generalizing x with
  | nil => simp [runOneOfBlocks, lastConstructing]
  | cons alternative rest ih =>
    have hstep : runOneOfBlocks constructs x (alternative :: rest) =
        runOneOfBlocks constructs (runOneOfBlock constructs x alternative) rest := rfl
    rw [hstep, ih]
    simp only [lastConstructing, List.reverse_cons, List.find?_append]
    cases hrest : rest.reverse.find? fun alternative => constructs alternative.typeName with
    | some found => simp [runOneOfBlock]; split <;> rfl
    | none =>
      by_cases hconstructs : constructs alternative.typeName = true
      · simp [runOneOfBlock, hconstructs]
      · simp [runOneOfBlock, hconstructs]

theorem lastConstructing_none (constructs : String → Bool)
    (alternatives : List OneOfAlternative)
    (h : ∀ alternative ∈ alternatives, constructs alternative.typeName = false) :
    lastConstructing constructs alternatives = none := by
  simp only [lastConstructing, Option.map_eq_none', List.find?_eq_none, List.mem_reverse]
  intro alternative halternative
  simp [h alternative halternative]

theorem lastConstructing_some (constructs : String → Bool)
    (before after : List OneOfAlternative) (alternative : OneOfAlternative)
    (hconstructs : constructs alternative.typeName = true)
    (hafter : ∀ other ∈ after, constructs other.typeName = false) :
    lastConstructing constructs (before ++ alternative :: after) = some alternative.typeName := by
  have hnone : (after.reverse.find? fun other => constructs other.typeName) = none := by
    simp only [List.find?_eq_none, List.mem_reverse]
    intro other hother
    simp [hafter other hother]
  simp [lastConstructing, List.find?_append, hnone, hconstructs]

/-- C25 fails when two alternatives construct: the wrapper `ParameterOrReference`
of `jsonReferenceSchema` has the alternatives `Parameter` and `JsonReference`,
in this order, and its constructor has one block for each, the second after the
first and under no guard of its own; on a map such as `{$ref: ...}`, for which
the constructors of both alternatives return no error, the run of the blocks
ends with `x.Oneof` holding `JsonReference`, the last alternative and not the
first. -/
theorem generateConstructorForType_oneOf_last :
    (jsonReferenceDomain.generateConstructorForType id ⟨[]⟩ "ParameterOrReference").map
      (fun result : Domain × Code => (result.2.lines.drop 8).take 16) =
      some ["// Parameter parameter = 1;",
            "\x7b",
            "  // errors are ok here, they mean we just don't have the right subtype",
            "  t, safe_errors := NewParameter(m, compiler.NewContext(\"parameter\", context))",
            "  if safe_errors == nil \x7b",
            "    x.Oneof = &ParameterOrReference_Parameter\x7bParameter: t\x7d",
            "  \x7d",
            "\x7d",
            "// JsonReference jsonReference = 2;",
            "\x7b",
            "  // errors are ok here, they mean we just don't have the right subtype",
            "  t, safe_errors := NewJsonReference(m, " ++
              "compiler.NewContext(\"jsonReference\", context))",
            "  if safe_errors == nil \x7b",
            "    x.Oneof = &ParameterOrReference_JsonReference\x7bJsonReference: t\x7d",
            "  \x7d",
            "\x7d"] ∧
    firstConstructing (fun _ => true)
      [⟨"Parameter", "parameter"⟩, ⟨"JsonReference", "jsonReference"⟩] = some "Parameter" ∧
    (runOneOfBlocks (fun _ => true) ⟨none, []⟩
      [⟨"Parameter", "parameter"⟩, ⟨"JsonReference", "jsonReference"⟩]).Oneof =
      some "JsonReference" :=
  ⟨rfl, rfl, rfl⟩

/-- C25 as amended, the alternatives of a `oneOf` wrapper: for a wrapper that is
read from a map and whose properties are message-typed alternatives `A1`, ...,
`An`, the constructor printed has, after the checks of the keys, one block for
each alternative in the order of the properties; and the run of the blocks on a
map leaves `x.Oneof` populated with the last alternative whose constructor
returns no error on the map, the one field holding no other alternative, and
leaves it empty when no alternative constructs without error; the run appends
nothing to `errors`. -/
theorem generateConstructorForType_oneOf (camelCaseToSnakeCase : String → String)
    (domain : Domain) (code : Code) (typeName : String) (typeModel : TypeModel)
    (hget : domain.TypeModels.get typeName = some typeModel)
    (hmap : typeModel.readFromMap = true) (hwrapper : typeModel.OneOfWrapper = true)
    (halternatives : ∀ property ∈ typeModel.Properties,
      domain.isMessageAlternative property = true) :
    domain.generateConstructorForType camelCaseToSnakeCase code typeName =
      some (domain.withSortedRequired typeName typeModel,
        ⟨code.lines ++ constructorHeader typeName ++
          (unpackMap typeName ++
            (if typeModel.Required = [] then []
             else missingKeyCheck (sortStrings typeModel.Required)) ++
            (if typeModel.Open = true then []
             else invalidKeyCheck (sortStrings typeModel.declaredNames) typeModel.OpenPatterns) ++
            domain.wrapperBlocks camelCaseToSnakeCase typeName 0 typeModel.Properties ++
            ["\x7d"]) ++
          constructorFooter⟩) ∧
    (∀ constructs errors,
      runOneOfBlocks constructs ⟨none, errors⟩ (typeModel.Properties.map domain.alternativeOf) =
        ⟨lastConstructing constructs (typeModel.Properties.map domain.alternativeOf), errors⟩) ∧
    (∀ constructs,
      (∀ alternative ∈ typeModel.Properties.map domain.alternativeOf,
        constructs alternative.typeName = false) →
      lastConstructing constructs (typeModel.Properties.map domain.alternativeOf) = none) ∧
    (∀ constructs before alternative after,
      typeModel.Properties.map domain.alternativeOf = before ++ alternative :: after →
      constructs alternative.typeName = true →
      (∀ other ∈ after, constructs other.typeName = false) →
      lastConstructing constructs (typeModel.Properties.map domain.alternativeOf) =
        some alternative.typeName) := by
  refine ⟨?_, ?_, ?_, ?_⟩
  · rw [generateConstructorForType_lines camelCaseToSnakeCase domain code typeName typeModel hget
        hmap, mapConstructor_eq, hwrapper,
      constructorProperties_alternatives camelCaseToSnakeCase domain typeName typeModel 0
        typeModel.Properties hget halternatives]
  · intro constructs errors
    rw [runOneOfBlocks_eq]
    cases lastConstructing constructs (typeModel.Properties.map domain.alternativeOf) <;> rfl
  · intro constructs hnone
    exact lastConstructing_none constructs _ hnone
  · intro constructs before alternative after hsplit hconstructs hafter
    rw [hsplit]
    exact lastConstructing_some constructs before after alternative hconstructs hafter

/-- C25 as amended, at the wrapper `ParameterOrReference` of `referenceSchema`,
with the alternatives `Parameter` and `Reference`: when the constructor of
`Parameter` alone returns no error, the run leaves `Parameter` populated. -/
theorem generateConstructorForType_oneOf_witness :
    runOneOfBlocks (fun name => name == "Parameter") ⟨none, ["has invalid property: x"]⟩
      ((referenceDomain.TypeModels.get "ParameterOrReference").getD NewTypeModel
        |>.Properties.map referenceDomain.alternativeOf) =
      ⟨some "Parameter", ["has invalid property: x"]⟩ := by
  rw [(generateConstructorForType_oneOf id referenceDomain ⟨[]⟩ "ParameterOrReference"
    ((referenceDomain.TypeModels.get "ParameterOrReference").getD NewTypeModel) rfl rfl rfl
    (by decide)).2.1]
  rfl

/-! ## Map properties and pair types -/

/-- C30 at `pathsSchema` under the prefix `swagger`: the map property `path` has
the map type `swaggerPathItem` and the type `NamedswaggerPathItem`, which is not
the name of a type of the domain; the pair type for `swaggerPathItem` is
registered as `NamedSwaggerPathItem`. Under the empty prefix the two spellings
agree. -/
theorem build_map_property_type_name :
    ((pathsDomain "swagger").build []).map
      (fun final : Domain =>
        (mapPropertiesOf final, pairTypesOf final,
         (final.TypeModels.get "NamedswaggerPathItem").isSome)) =
      some ([("NamedswaggerPathItem", "swaggerPathItem")],
            [("NamedSwaggerPathItem", "swaggerPathItem")], false) ∧
    (pathsDomain "swagger").isRangeOrder [] = true ∧
    ((pathsDomain "").build []).map
      (fun final : Domain => (mapPropertiesOf final, pairTypesOf final)) =
      some ([("NamedPathItem", "PathItem")], [("NamedPathItem", "PathItem")]) :=
  ⟨rfl, rfl, rfl⟩

/-! ## Duplicate keys -/

theorem scanSections_last (key : String) (info : yaml.Value)
    (before after : List (yaml.MapItem yaml.Value)) (entry : yaml.MapItem yaml.Value)
    (hentry : keyIs entry.Key key = true)
    (hafter : ∀ other ∈ after, keyIs other.Key key = false) :
    scanSections key info (before ++ entry :: after) = entry.Value := by
  have hnone : (after.filter fun item => keyIs item.Key key) = [] := by
    simp only [List.filter_eq_nil_iff]
    intro other hother
    simp [hafter other hother]
  rw [scanSections_eq]
  simp [List.filter_append, List.filter_cons, hentry, hnone]

/-- C32, duplicate keys: when the map reached before a pointer segment `k` has
several entries whose key is `k`, the segment takes the walk to the value of the
last of them: for a map `before ++ entry :: after` where `entry` has the key `k`
and no entry of `after` has, the scan of the level ends on the value of `entry`,
whatever fragment it started from and whatever the values of the earlier
entries are (the scan runs over the entries of the map as it was before the
segment, and does not look into a value it has taken); and `ReadInfoForRef`, for
a ref that is not cached, returns the fragment that the rest of the path gives
from that value. -/
theorem ReadInfoForRef_duplicate_keys (world : World) (globals next : Globals)
    (basefile k : String) (D before after : List (yaml.MapItem yaml.Value))
    (entry : yaml.MapItem yaml.Value) (path rest : List String)
    (hmiss : globals.cached (pointerRef (path ++ k :: rest)) = none)
    (hdocument : ReadFile world globals basefile = some (next, .map D, none))
    (hkeys : ∀ key ∈ path ++ k :: rest, isSegment key = true)
    (hreached : path.foldl applySegment (.map D) = .map (before ++ entry :: after))
    (hentry : keyIs entry.Key k = true)
    (hafter : ∀ other ∈ after, keyIs other.Key k = false) :
    (∀ info, scanSections k info (before ++ entry :: after) = entry.Value) ∧
    applySegment (.map (before ++ entry :: after)) k = entry.Value ∧
    (ReadInfoForRef world globals basefile (pointerRef (path ++ k :: rest))).map
        (fun returned : Globals × yaml.Value => returned.2) =
      some (rest.foldl applySegment entry.Value) := by
  have hscan : ∀ info, scanSections k info (before ++ entry :: after) = entry.Value :=
    fun info => scanSections_last k info before after entry hentry hafter
  refine ⟨hscan, hscan _, ?_⟩
  rw [ReadInfoForRef_miss world globals basefile _ hmiss, targetFile_pointerRef basefile _ hkeys,
    hdocument]
  simp only [Option.map_some', pointedAt_pointerRef _ _ hkeys, List.foldl_append,
    List.foldl_cons, hreached]
  rw [show applySegment (.map (before ++ entry :: after)) k = entry.Value from hscan _]

/-- C32 at two documents whose key `a` occurs twice: for `{a: {a: inner}, a: last}`
the ref `#/a` gives `last`, the value of the second entry; for
`{a: first, a: {a: inner}}` it gives the map `{a: inner}`, the value of the
second entry, and not `inner`. -/
theorem ReadInfoForRef_duplicate_keys_witness :
    (ReadInfoForRef (localWorld duplicateDocument) Globals.initial "openapi.yaml"
        (pointerRef ["a"])).map (fun returned : Globals × yaml.Value => returned.2) =
      some (.str "last") ∧
    (ReadInfoForRef (localWorld nestedDuplicateDocument) Globals.initial "openapi.yaml"
        (pointerRef ["a"])).map (fun returned : Globals × yaml.Value => returned.2) =
      some (.map [⟨.str "a", .str "inner"⟩]) :=
  ⟨(ReadInfoForRef_duplicate_keys (localWorld duplicateDocument) Globals.initial _ "openapi.yaml"
      "a" duplicateDocument [⟨.str "a", .map [⟨.str "a", .str "inner"⟩]⟩] []
      ⟨.str "a", .str "last"⟩ [] [] rfl rfl (by decide) rfl rfl (by simp)).2.2,
   (ReadInfoForRef_duplicate_keys (localWorld nestedDuplicateDocument) Globals.initial _
      "openapi.yaml" "a" nestedDuplicateDocument [⟨.str "a", .str "first"⟩] []
      ⟨.str "a", .map [⟨.str "a", .str "inner"⟩]⟩ [] [] rfl rfl (by decide) rfl rfl (by simp)).2.2⟩

/-! ## Anonymous types of properties with the same name -/

/-- The first three lines of every constructor: the declaration, which returns
`*T` for the type name `T`, the list of errors, and the allocation of `x`, which
is of the type `T` in the branch that reads a map and of a fixed type in the
four other branches. -/
theorem generateConstructorForType_allocation (camelCaseToSnakeCase : String → String)
    (domain : Domain) (code : Code) (typeName : String) (typeModel : TypeModel)
    (hget : domain.TypeModels.get typeName = some typeModel) :
    ∃ final rest,
      domain.generateConstructorForType camelCaseToSnakeCase code typeName =
        some (final,
          ⟨code.lines ++ (constructorHeader typeName ++ allocationLine typeName typeModel ::
            rest)⟩) := by
  by_cases hs : typeModel.IsStringArray = true
  · refine ⟨domain, Domain.stringArrayConstructor.tail ++ constructorFooter, ?_⟩
    simp [Domain.generateConstructorForType, hget, hs, Code.PrintLines_eq, Code.Print,
      constructorHeader, constructorFooter, allocationLine, Domain.stringArrayConstructor]
  · have hs2 : typeModel.IsStringArray = false := by simpa using hs
    by_cases hi : typeModel.IsItemArray = true
    · refine ⟨domain, Domain.itemArrayConstructor.tail ++ constructorFooter, ?_⟩
      simp [Domain.generateConstructorForType, hget, hs2, hi, Code.PrintLines_eq, Code.Print,
        constructorHeader, constructorFooter, allocationLine, Domain.itemArrayConstructor]
    · have hi2 : typeModel.IsItemArray = false := by simpa using hi
      by_cases hb : typeModel.IsBlob = true
      · refine ⟨domain, Domain.blobConstructor.tail ++ constructorFooter, ?_⟩
        simp [Domain.generateConstructorForType, hget, hs2, hi2, hb, Code.PrintLines_eq,
          Code.Print, constructorHeader, constructorFooter, allocationLine,
          Domain.blobConstructor]
      · have hb2 : typeModel.IsBlob = false := by simpa using hb
        by_cases hn : typeModel.Name = "StringArray"
        · refine ⟨domain, Domain.namedStringArrayConstructor.tail ++ constructorFooter, ?_⟩
          simp [Domain.generateConstructorForType, hget, hs2, hi2, hb2, hn, Code.PrintLines_eq,
            Code.Print, constructorHeader, constructorFooter, allocationLine,
            Domain.namedStringArrayConstructor]
        · have hmap : typeModel.readFromMap = true := by
            simp [TypeModel.readFromMap, hs2, hi2, hb2, hn]
          refine ⟨domain.withSortedRequired typeName typeModel,
            (Domain.mapConstructor camelCaseToSnakeCase
              (domain.withSortedRequired typeName typeModel) typeName
              typeModel.withSortedRequired).tail ++ constructorFooter, ?_⟩
          rw [generateConstructorForType_lines camelCaseToSnakeCase domain code typeName typeModel
            hget hmap]
          simp [allocationLine, hs2, hi2, hb2, hn, Domain.mapConstructor]

/-- C33 at the types of the domain built for `nodeSchema`: the constructor of the
string array `KindItem` is declared to return `*KindItem` and allocates
`x := &TypeItem{}`; the constructor of the item array `ChildrenItem` is declared
to return `*ChildrenItem` and allocates `x := &ItemsItem{}`; the constructor of
`Node`, which is read from a map, allocates `x := &Node{}`. -/
theorem generateConstructorForType_allocates_other_type :
    (nodeDomain.TypeModels.get "KindItem").map
      (fun typeModel : TypeModel => typeModel.IsStringArray) = some true ∧
    (nodeDomain.generateConstructorForType id ⟨[]⟩ "KindItem").map
      (fun result : Domain × Code => result.2.lines.take 3) =
      some ["func NewKindItem(in interface\x7b\x7d, context *compiler.Context) " ++
              "(*KindItem, error) \x7b",
            "errors := make([]error, 0)",
            "x := &TypeItem\x7b\x7d"] ∧
    (nodeDomain.TypeModels.get "ChildrenItem").map
      (fun typeModel : TypeModel => typeModel.IsItemArray) = some true ∧
    (nodeDomain.generateConstructorForType id ⟨[]⟩ "ChildrenItem").map
      (fun result : Domain × Code => result.2.lines.take 3) =
      some ["func NewChildrenItem(in interface\x7b\x7d, context *compiler.Context) " ++
              "(*ChildrenItem, error) \x7b",
            "errors := make([]error, 0)",
            "x := &ItemsItem\x7b\x7d"] ∧
    (nodeDomain.generateConstructorForType id ⟨[]⟩ "Node").map
      (fun result : Domain × Code => result.2.lines.take 3) =
      some ["func NewNode(in interface\x7b\x7d, context *compiler.Context) (*Node, error) \x7b",
            "errors := make([]error, 0)",
            "x := &Node\x7b\x7d"] :=
  ⟨rfl, rfl, rfl, rfl, rfl⟩
